import Mathlib

/-!
# Blackjack_ASCII: a shallow embedding of `src/Blackjack.cpp`

The C++ program keeps all of its state in three plain structs (`Card`,
`Participant`, `Deck`) that are passed by reference.  Every function below takes
the structs it reads and returns the structs it writes.

Conventions of the embedding

* `int` fields are `Int`; array indices and loop counters, which the program only
  ever counts upwards from zero, are `Nat`.
* A C array is a `List`; `rd` reads a slot and `wr` stores into a slot.  The
  embedding follows the program as long as every store is inside the declared
  array.  A store past the end of `Participant::cards` is undefined behaviour in
  C++ (the bytes that follow `cards[8]` are those of `nextHandCardsIndex`,
  `totalScore`, `hand`, `isDone` and `hasBusted`); what `wr` does there is a
  convention of the embedding and says nothing about the program.
* `rand()` is an input: the functions that call it take the list of values the
  generator is going to return and give back the unread rest.
* `WantToGetHit()` is an input as well: the list of answers of the user.
* A result of `none` means that a supplied list ended while a loop was still
  asking for a value or an answer.  No function of the program reports an error,
  so `none` never stands for one.
* The text written to `cout` by `CheckAndDisplayWinner` is returned as a list of
  lines; `DisplayStats` only prints and is left out.
-/

namespace Blackjack

/-! ## Data model -/

/-- Values of `enum class Score`, used by the program after a cast to `int`. -/
def Score.DEALER_MIN : Int := 17

/-- Values of `enum class Score`, used by the program after a cast to `int`. -/
def Score.BLACKJACK : Int := 21

/-- Hard hand: no ace valued eleven.  Soft hand: the opposite. -/
inductive HandType where
  | HARD
  | SOFT
  deriving DecidableEq, Repr

/-- Types of players in the game. -/
inductive PlayerType where
  | PLAYER
  | DEALER
  deriving DecidableEq, Repr

/-- All the possible face cards. -/
inductive FaceCard where
  | NONE
  | JACK
  | QUEEN
  | KING
  deriving DecidableEq, Repr

/-- All the card seeds. -/
inductive Seed where
  | NONE
  | CLUBS
  | DIAMONDS
  | HEARTS
  | SPADES
  deriving DecidableEq, Repr

/-- The card data (`struct Card`). -/
structure Card where
  id : Int
  value : Int
  seed : Seed
  face : FaceCard
  deriving DecidableEq, Repr

/-- Declared size of `Participant::cards`. -/
def HAND_CARDS_TOT : Nat := 9

/-- Declared size of `Deck::cards` and of `Deck::drawnCardsIDs`. -/
def CARD_TOT : Nat := 52

/-- The player/dealer data (`struct Participant`). -/
structure Participant where
  type : PlayerType
  cards : List Card
  nextHandCardsIndex : Nat
  totalScore : Int
  hand : HandType
  isDone : Bool
  hasBusted : Bool
  deriving DecidableEq, Repr

/-- The deck data (`struct Deck`). -/
structure Deck where
  cards : List Card
  drawnCardsIDs : List Int
  nextDrawnCardsIndex : Nat
  deriving DecidableEq, Repr

/-! ## Arrays and counting loops -/

/-- Read of `a[i]`.  Every index the program reads at is either below the
declared size of the array or below a counter that a store has already passed,
so the fallback value is not what a read returns on the states the theorems are
about. -/
def rd {α : Type} (a : List α) (i : Nat) (dflt : α) : α :=
  a.getD i dflt

/-- Store `a[i] = x`.  The program never compares an index with the declared
size of the array before storing.  A store inside the list replaces the slot, as
the C++ store does.  A store at or past the end is outside the C array, which in
C++ is undefined behaviour: there the embedding does not follow the program.  It
keeps the element at its index (filling a gap with `dflt`), only so that the
index that was used stays visible; the state that results is a state of the
embedding alone.  Whether a store is inside the declared array is asked by
comparing the index with `HAND_CARDS_TOT` or `CARD_TOT` before the store. -/
def wr {α : Type} (a : List α) (i : Nat) (x : α) (dflt : α) : List α :=
  if i < a.length then a.set i x
  else a ++ List.replicate (i - a.length) dflt ++ [x]

/-- The loop `for (int i = 0; i < n; i++) body`, on the state `s` that the body
reads and writes. -/
def forUpTo {σ : Type} (n : Nat) (body : Nat → σ → σ) (s : σ) : σ :=
  (List.range n).foldl (fun acc i => body i acc) s

/-! ## Cards -/

/-- Initializes a card to its default value (`InitCard`). -/
def InitCard (card : Card) : Card :=
  { card with id := 0, value := 0, face := FaceCard.NONE, seed := Seed.NONE }

/-- The card every slot holds after `InitCard`. -/
def blankCard : Card :=
  InitCard { id := 0, value := 0, seed := Seed.NONE, face := FaceCard.NONE }

/-- First `switch` of `MakeCard`: the face part of the id. -/
def idFaceVal : FaceCard → Int
  | FaceCard.JACK => 0
  | FaceCard.QUEEN => 1
  | FaceCard.KING => 2
  | FaceCard.NONE => 3

/-- Second `switch` of `MakeCard`: the seed part of the id. -/
def idSeedVal : Seed → Int
  | Seed.CLUBS => 0
  | Seed.DIAMONDS => 1
  | Seed.HEARTS => 2
  | Seed.SPADES => 3
  | Seed.NONE => -1

/-- Creates a card based on the given arguments (`MakeCard`).  The C++ function
returns a pointer obtained from `new`, which is never null. -/
def MakeCard (theValue : Int) (theFace : FaceCard) (theSeed : Seed) : Card :=
  { value := theValue
    face := theFace
    seed := theSeed
    id := ((theValue + 100) * (idFaceVal theFace + 1)) + idSeedVal theSeed }

/-! ## Participants -/

/-- Initializes a participant (`InitParticipant`). -/
def InitParticipant (type : PlayerType) (p : Participant) : Participant :=
  { type := type
    cards := forUpTo HAND_CARDS_TOT
      (fun i cs => wr cs i (InitCard (rd cs i blankCard)) blankCard) p.cards
    nextHandCardsIndex := 0
    totalScore := 0
    hand := HandType.HARD
    isDone := false
    hasBusted := false }

/-- Updates the drawn cards (`UpdateDrawCards`): the card goes into the hand and
its id into the record of drawn ids.  The source makes the two stores without
comparing an index with the size of the array.  With
`nextHandCardsIndex < HAND_CARDS_TOT` and `nextDrawnCardsIndex < CARD_TOT` the
result is what the program computes.  With `nextHandCardsIndex = HAND_CARDS_TOT`
the store `cards[9] = crd` of the program is outside `Card cards[9]`, on the
members declared after it, and the result given here (see `wr`) is not the state
of the program. -/
def UpdateDrawCards (partcpt : Participant) (deck : Deck) (crd : Card) :
    Participant × Deck :=
  ({ partcpt with
       cards := wr partcpt.cards partcpt.nextHandCardsIndex crd blankCard
       nextHandCardsIndex := partcpt.nextHandCardsIndex + 1 },
   { deck with
       drawnCardsIDs := wr deck.drawnCardsIDs deck.nextDrawnCardsIndex crd.id 0
       nextDrawnCardsIndex := deck.nextDrawnCardsIndex + 1 })

/-- Body of the summing loop of `UpdateScore`, on the pair `(score, hasAce)`. -/
def UpdateScore.body (cards : List Card) (i : Nat) (s : Int × Bool) : Int × Bool :=
  let hasAce := if (rd cards i blankCard).value = 1 then true else s.2
  (s.1 + (rd cards i blankCard).value, hasAce)

/-- Updates the participant score (`UpdateScore`). -/
def UpdateScore (p : Participant) : Participant :=
  let s := forUpTo p.nextHandCardsIndex (UpdateScore.body p.cards) (0, false)
  let score := s.1
  let hasAce := s.2
  let p1 : Participant :=
    if !hasAce then
      { p with totalScore := score, hand := HandType.HARD }
    else if (score + 10) > Score.BLACKJACK then
      { p with totalScore := score, hand := HandType.HARD }
    else
      { p with totalScore := score + 10, hand := HandType.SOFT }
  if p1.totalScore > Score.BLACKJACK then { p1 with hasBusted := true }
  else if p1.totalScore = Score.BLACKJACK then { p1 with isDone := true }
  else p1

/-- The cards a participant holds: slots `0 .. nextHandCardsIndex - 1`. -/
def heldCards (p : Participant) : List Card :=
  p.cards.take p.nextHandCardsIndex

/-- Memory of a participant before `InitParticipant` has run on it: nine slots
holding a card the program never creates. -/
def rawParticipant : Participant :=
  { type := PlayerType.DEALER
    cards := List.replicate HAND_CARDS_TOT { id := 7, value := 7, seed := Seed.HEARTS, face := FaceCard.KING }
    nextHandCardsIndex := 5
    totalScore := 33
    hand := HandType.SOFT
    isDone := true
    hasBusted := true }

/-- Memory of a deck before `MakeDeck` has run on it. -/
def rawDeck : Deck :=
  { cards := List.replicate CARD_TOT { id := 7, value := 7, seed := Seed.HEARTS, face := FaceCard.KING }
    drawnCardsIDs := List.replicate CARD_TOT 9
    nextDrawnCardsIndex := 3 }

/-! ## The deck -/

/-- Local variables of `MakeDeck` that live across iterations of its nested
loops (`val`, `f`, `s`), together with the card array being filled. -/
structure MakeDeck.Vars where
  cards : List Card
  val : Int
  f : FaceCard
  s : Seed
  deriving DecidableEq, Repr

/-- Body of the inner loop of `MakeDeck` (`for j`), inside outer iteration `i`.
When `j + 1` is 10 no `case` of the `switch` matches and `f` keeps the value the
previous iteration left in it. -/
def MakeDeck.inner (i j : Nat) (st : MakeDeck.Vars) : MakeDeck.Vars :=
  let st1 : MakeDeck.Vars :=
    if (j + 1) ≥ 10 then
      { st with
          val := 10
          f := match j + 1 with
            | 11 => FaceCard.JACK
            | 12 => FaceCard.QUEEN
            | 13 => FaceCard.KING
            | _ => st.f }
    else
      { st with val := ((j + 1 : Nat) : Int), f := FaceCard.NONE }
  let op_currentCard := MakeCard st1.val st1.f st1.s
  { st1 with cards := wr st1.cards (j + (i * 13)) op_currentCard blankCard }

/-- Body of the outer loop of `MakeDeck` (`for i`): thirteen cards, then the
next seed. -/
def MakeDeck.outer (i : Nat) (st : MakeDeck.Vars) : MakeDeck.Vars :=
  let st1 := forUpTo 13 (MakeDeck.inner i) st
  { st1 with
      s := match i + 1 with
        | 1 => Seed.DIAMONDS
        | 2 => Seed.HEARTS
        | 3 => Seed.SPADES
        | _ => st1.s }

/-- Creates a deck of cards in order (`MakeDeck`). -/
def MakeDeck (deck : Deck) : Deck :=
  let cards0 := forUpTo CARD_TOT
    (fun i cs => wr cs i (InitCard (rd cs i blankCard)) blankCard) deck.cards
  let st := forUpTo 4 MakeDeck.outer
    { cards := cards0, val := 0, f := FaceCard.NONE, s := Seed.CLUBS }
  { cards := st.cards
    nextDrawnCardsIndex := 0
    drawnCardsIDs := forUpTo CARD_TOT (fun i ids => wr ids i 0 0) deck.drawnCardsIDs }

/-- The `do ... while (randCard1Index == randCard2Index)` loop of `ShuffleDeck`:
reads values of `rand()` until one gives a position other than the first. -/
def ShuffleDeck.second (randCard1Index : Nat) : List Nat → Option (Nat × List Nat)
  | [] => none
  | r :: rs =>
    let randCard2Index := r % CARD_TOT
    if randCard1Index = randCard2Index then ShuffleDeck.second randCard1Index rs
    else some (randCard2Index, rs)

/-- Card swapping: the three assignments at the end of an iteration of
`ShuffleDeck`. -/
def ShuffleDeck.swap (deck : Deck) (randCard1Index randCard2Index : Nat) : Deck :=
  let temp := rd deck.cards randCard1Index blankCard
  let cards1 := wr deck.cards randCard1Index (rd deck.cards randCard2Index blankCard) blankCard
  let cards2 := wr cards1 randCard2Index temp blankCard
  { deck with cards := cards2 }

/-- The `for` loop of `ShuffleDeck` with the given number of iterations left. -/
def ShuffleDeck.loop : Nat → Deck → List Nat → Option (Deck × List Nat)
  | 0, deck, rs => some (deck, rs)
  | k + 1, deck, rs =>
    match rs with
    | [] => none
    | r :: rs1 =>
      let randCard1Index := r % CARD_TOT
      match ShuffleDeck.second randCard1Index rs1 with
      | none => none
      | some (randCard2Index, rs2) =>
        ShuffleDeck.loop k (ShuffleDeck.swap deck randCard1Index randCard2Index) rs2

/-- Shuffles the given deck the given amount of times (`ShuffleDeck`).  The
counter starts at 0 and runs while it is below `shuffles`, so a count of zero or
less gives no iteration. -/
def ShuffleDeck (deck : Deck) (shuffles : Int) (rs : List Nat) : Option (Deck × List Nat) :=
  ShuffleDeck.loop shuffles.toNat deck rs

/-- Checks if a card has already been drawn (`IsCardAlreadyDrawn`): the loop
returns `true` at the first recorded id equal to the id of the card. -/
def IsCardAlreadyDrawn (drawnCard : Card) (deck : Deck) : Bool :=
  (List.range deck.nextDrawnCardsIndex).any
    (fun i => decide (drawnCard.id = rd deck.drawnCardsIDs i 0))

/-- The loop `do { randCardIndex = rand() % CARD_TOT; card = cards[randCardIndex]; }
while (IsCardAlreadyDrawn(card, deck))`, which `GiveHand` and `DrawCard` both
contain. -/
def drawUntilNew (deck : Deck) : List Nat → Option (Card × List Nat)
  | [] => none
  | r :: rs =>
    let randCardIndex := r % CARD_TOT
    let card := rd deck.cards randCardIndex blankCard
    if IsCardAlreadyDrawn card deck then drawUntilNew deck rs
    else some (card, rs)

/-- Draws a random card (`DrawCard`). -/
def DrawCard (prtcpnt : Participant) (dck : Deck) (rs : List Nat) :
    Option (Participant × Deck × List Nat) :=
  match drawUntilNew dck rs with
  | none => none
  | some (card, rs1) =>
    let r := UpdateDrawCards prtcpnt dck card
    some (r.1, r.2, rs1)

/-- The `for` loop of `GiveHand` with the given number of iterations left. -/
def GiveHand.loop : Nat → Participant → Deck → List Nat →
    Option (Participant × Deck × List Nat)
  | 0, p, d, rs => some (p, d, rs)
  | k + 1, p, d, rs =>
    match drawUntilNew d rs with
    | none => none
    | some (card, rs1) =>
      let r := UpdateDrawCards p d card
      GiveHand.loop k r.1 r.2 rs1

/-- Creates the hand for the participant (`GiveHand`): two loops for two cards. -/
def GiveHand (p : Participant) (d : Deck) (rs : List Nat) :
    Option (Participant × Deck × List Nat) :=
  GiveHand.loop 2 p d rs

/-- A freshly reset participant and a freshly built deck, after the given cards
have gone to the participant one by one through `UpdateDrawCards`, without any
evaluation in between. -/
def dealt (type : PlayerType) (cs : List Card) : Participant × Deck :=
  cs.foldl (fun (s : Participant × Deck) c => UpdateDrawCards s.1 s.2 c)
    (InitParticipant type rawParticipant, MakeDeck rawDeck)

/-- A freshly reset player holding the given cards, not yet evaluated. -/
def handOf (cs : List Card) : Participant :=
  (dealt PlayerType.PLAYER cs).1

/-- The ids recorded as drawn: slots `0 .. nextDrawnCardsIndex - 1`. -/
def drawnIDs (d : Deck) : List Int :=
  d.drawnCardsIDs.take d.nextDrawnCardsIndex

/-! ## Deciding the winner -/

/-- Checks the scores and displays the winner (`CheckAndDisplayWinner`): the
lines written to `cout`, the last one being the empty spacing line. -/
def CheckAndDisplayWinner (plyr dlr : Participant) : List String :=
  let plyrScore := plyr.totalScore
  let dlrScore := dlr.totalScore
  let shown : List String :=
    if plyr.hasBusted then
      ["Player has busted! The dealer won!"]
    else if dlr.hasBusted then
      ["Dealer has busted! The player won!"]
    else if plyrScore = dlrScore then
      (if plyrScore = Score.BLACKJACK then
        "Player and dealer both hit a blackjack!"
      else
        "Player score is " ++ toString plyrScore ++ ". Dealer score is " ++ toString dlrScore)
      :: ["It\x27s a push!"]
    else if plyrScore > dlrScore then
      if plyrScore = Score.BLACKJACK then
        ["Player hit the blackjack! Player won!"]
      else
        ["Player score is " ++ toString plyrScore ++ ". Player won!"]
    else
      if dlrScore = Score.BLACKJACK then
        ["Dealer hit the blackjack! Dealer won!"]
      else
        ["Dealer score is " ++ toString dlrScore ++ ". Dealer won!"]
  shown ++ [""]

/-! ## One round of `main` -/

/-- How an iteration of a `while (true)` loop ends: at a `break`, or at the end
of the body, after which the loop goes round again. -/
inductive Iter (σ : Type) where
  | brk (s : σ)
  | again (s : σ)
  deriving DecidableEq, Repr

/-- The state an iteration ends in. -/
def Iter.state {σ : Type} : Iter σ → σ
  | Iter.brk s => s
  | Iter.again s => s

/-- Whether an iteration ends at a `break`. -/
def Iter.isBrk {σ : Type} : Iter σ → Bool
  | Iter.brk _ => true
  | Iter.again _ => false

/-- One iteration of the player loop of `main`; `answer` is what `WantToGetHit()`
returns in it. -/
def playerIter (answer : Bool) (player : Participant) (theDeck : Deck) (rs : List Nat) :
    Option (Iter (Participant × Deck × List Nat)) :=
  let player1 := { player with isDone := !answer }
  if player1.isDone then some (Iter.brk (player1, theDeck, rs))
  else
    match DrawCard player1 theDeck rs with
    | none => none
    | some (player2, deck2, rs2) =>
      let player3 := UpdateScore player2
      if player3.isDone || player3.hasBusted then some (Iter.brk (player3, deck2, rs2))
      else some (Iter.again (player3, deck2, rs2))

/-- The player loop of `main`, one answer of the user per iteration. -/
def playerLoop (player : Participant) (theDeck : Deck) (rs : List Nat) :
    List Bool → Option (Participant × Deck × List Nat × List Bool)
  | [] => none
  | answer :: answers =>
    match playerIter answer player theDeck rs with
    | none => none
    | some (Iter.brk (p, d, rs1)) => some (p, d, rs1, answers)
    | some (Iter.again (p, d, rs1)) => playerLoop p d rs1 answers

/-- One iteration of the dealer loop of `main`. -/
def dealerIter (dealer : Participant) (theDeck : Deck) (rs : List Nat) :
    Option (Iter (Participant × Deck × List Nat)) :=
  let dealer1 := { dealer with
    isDone := decide (dealer.totalScore ≥ Score.DEALER_MIN) && decide (dealer.hand = HandType.HARD) }
  if dealer1.isDone then some (Iter.brk (dealer1, theDeck, rs))
  else
    match DrawCard dealer1 theDeck rs with
    | none => none
    | some (dealer2, deck2, rs2) =>
      let dealer3 := UpdateScore dealer2
      if dealer3.hasBusted then some (Iter.brk (dealer3, deck2, rs2))
      else some (Iter.again (dealer3, deck2, rs2))

/-- The dealer loop of `main`, cut off after `fuel` iterations. -/
def dealerLoop : Nat → Participant → Deck → List Nat → Option (Participant × Deck × List Nat)
  | 0, _, _, _ => none
  | fuel + 1, dealer, theDeck, rs =>
    match dealerIter dealer theDeck rs with
    | none => none
    | some (Iter.brk s) => some s
    | some (Iter.again (p, d, rs1)) => dealerLoop fuel p d rs1

/-- What a round leaves behind. -/
structure RoundEnd where
  player : Participant
  dealer : Participant
  theDeck : Deck
  shown : List String
  rs : List Nat
  answers : List Bool
  deriving DecidableEq, Repr

/-- The body of the `do ... while (WantToPlayAgain())` loop of `main`: one round.
`dealer`, `player` and `theDeck` are the three locals of `main` as the previous
round (or nothing) left them.  Every iteration of the dealer loop that does not
break reads at least one value of `rand()`, so `rs.length + 1` iterations are
never used up before the values are (`dealerLoop_fuel_irrelevant`). -/
def playRound (dealer player : Participant) (theDeck : Deck) (rs : List Nat)
    (answers : List Bool) : Option RoundEnd := do
  let dealer := InitParticipant PlayerType.DEALER dealer
  let player := InitParticipant PlayerType.PLAYER player
  let theDeck := MakeDeck theDeck
  let (theDeck, rs) ← ShuffleDeck theDeck 40 rs
  let (player, theDeck, rs) ← GiveHand player theDeck rs
  let (dealer, theDeck, rs) ← GiveHand dealer theDeck rs
  let player := UpdateScore player
  let dealer := UpdateScore dealer
  let (player, theDeck, rs, answers) ←
    if !player.isDone then playerLoop player theDeck rs answers
    else some (player, theDeck, rs, answers)
  let (dealer, theDeck, rs) ←
    if !player.hasBusted then dealerLoop (rs.length + 1) dealer theDeck rs
    else some (dealer, theDeck, rs)
  some { player := player, dealer := dealer, theDeck := theDeck
         shown := CheckAndDisplayWinner player dealer, rs := rs, answers := answers }

/-- A deck in the middle of a round: built, two pairs of positions exchanged,
and the card at position 3 handed to a freshly reset player. -/
def usedDeck : Deck :=
  (UpdateDrawCards (InitParticipant PlayerType.PLAYER rawParticipant)
    (ShuffleDeck.swap (ShuffleDeck.swap (MakeDeck rawDeck) 3 40) 17 5)
    (rd (ShuffleDeck.swap (ShuffleDeck.swap (MakeDeck rawDeck) 3 40) 17 5).cards 3 blankCard)).2

/-! ## Sequences of drawing calls -/

/-- A call by which `main` hands out cards: `GiveHand` (two cards) or `DrawCard`
(one card), for the player or for the dealer. -/
inductive DrawCall where
  | give (who : PlayerType)
  | draw (who : PlayerType)
  deriving DecidableEq, Repr

/-- How many cards a call hands out. -/
def DrawCall.handedOut : DrawCall → Nat
  | DrawCall.give _ => 2
  | DrawCall.draw _ => 1

/-- The two participants, the deck and the unread random values. -/
structure Table where
  player : Participant
  dealer : Participant
  theDeck : Deck
  rs : List Nat
  deriving DecidableEq, Repr

/-- The participant a call is for. -/
def Table.get (t : Table) : PlayerType → Participant
  | PlayerType.PLAYER => t.player
  | PlayerType.DEALER => t.dealer

/-- The table after a call for `who` has come back with the given participant,
deck and unread random values. -/
def Table.put (t : Table) (who : PlayerType) (r : Participant × Deck × List Nat) : Table :=
  match who with
  | PlayerType.PLAYER => { player := r.1, dealer := t.dealer, theDeck := r.2.1, rs := r.2.2 }
  | PlayerType.DEALER => { player := t.player, dealer := r.1, theDeck := r.2.1, rs := r.2.2 }

/-- One drawing call on the table. -/
def runCall (t : Table) : DrawCall → Option Table
  | DrawCall.give who => (GiveHand (t.get who) t.theDeck t.rs).map (t.put who)
  | DrawCall.draw who => (DrawCard (t.get who) t.theDeck t.rs).map (t.put who)

/-- Any sequence of drawing calls, in any order, as many as one likes: `main`
makes two `GiveHand` calls and then `DrawCard` calls for the player and for the
dealer. -/
def runCalls : List DrawCall → Table → Option Table
  | [], t => some t
  | c :: cs, t =>
    match runCall t c with
    | none => none
    | some t1 => runCalls cs t1

/-- What holds of a table on which `n` cards have been handed out since the deck
was built: the counters are inside the stored lists, the deck has its 52 cards,
`n` ids are recorded, the recorded ids are pairwise distinct, they are the ids of
the cards the two participants hold, and each is the id of a card of the deck. -/
def DrawInv (t : Table) (n : Nat) : Prop :=
  t.player.nextHandCardsIndex ≤ t.player.cards.length
  ∧ t.dealer.nextHandCardsIndex ≤ t.dealer.cards.length
  ∧ t.theDeck.nextDrawnCardsIndex ≤ t.theDeck.drawnCardsIDs.length
  ∧ t.theDeck.cards.length = CARD_TOT
  ∧ t.theDeck.nextDrawnCardsIndex = n
  ∧ (drawnIDs t.theDeck).Nodup
  ∧ ((heldCards t.player ++ heldCards t.dealer).map (fun c => c.id)).Perm (drawnIDs t.theDeck)
  ∧ (∀ x ∈ drawnIDs t.theDeck, x ∈ t.theDeck.cards.map (fun c => c.id))

/-- A table right after two swaps of a freshly built deck, nothing handed out
yet; the random values still unread lead to the deck positions 7, 7 again, 20,
33, 7 once more, 46, 8 and 21. -/
def sampleTable : Table :=
  { player := InitParticipant PlayerType.PLAYER rawParticipant
    dealer := InitParticipant PlayerType.DEALER rawParticipant
    theDeck := ShuffleDeck.swap (ShuffleDeck.swap (MakeDeck rawDeck) 3 40) 17 5
    rs := [7, 59, 20, 33, 7, 46, 8, 21] }

/-- The calls of a round in which the player hits once and the dealer draws
once. -/
def sampleCalls : List DrawCall :=
  [DrawCall.give PlayerType.PLAYER, DrawCall.give PlayerType.DEALER,
   DrawCall.draw PlayerType.PLAYER, DrawCall.draw PlayerType.DEALER]

/-- The suits in the order the specification lists them: clubs, diamonds,
hearts, spades. -/
def suitAt : Nat → Seed
  | 0 => Seed.CLUBS
  | 1 => Seed.DIAMONDS
  | 2 => Seed.HEARTS
  | _ => Seed.SPADES

/-- The value the specification gives to rank `r` of 1 to 13: ranks 1 to 9 keep
their number, ranks 10 to 13 are worth 10. -/
def rankValue (r : Nat) : Int :=
  if r ≤ 9 then (r : Int) else 10

/-- The face the specification gives to rank `r` of 1 to 13: none up to 10, then
jack, queen, king. -/
def rankFace : Nat → FaceCard
  | 11 => FaceCard.JACK
  | 12 => FaceCard.QUEEN
  | 13 => FaceCard.KING
  | _ => FaceCard.NONE

/-- Values of `rand()` for a round in which the player is handed ten cards.
Forty times positions 0 and 1 are exchanged, which leaves the deck in the order
`MakeDeck` built it in.  Then the deck positions drawn: two twos for the player,
two tens for the dealer, and for the hits of the player two twos, three threes
and three aces. -/
def tenCardRands : List Nat :=
  (List.replicate 40 [0, 1]).flatten ++ [1, 14, 9, 22, 27, 40, 2, 15, 28, 0, 13, 26]

/-! ## The phases of a round -/

/-- The first part of a round of `main`, up to and including the two
`UpdateScore` calls that follow the deal. -/
def dealPhase (dealer player : Participant) (theDeck : Deck) (rs : List Nat) :
    Option Table := do
  let dealer := InitParticipant PlayerType.DEALER dealer
  let player := InitParticipant PlayerType.PLAYER player
  let theDeck := MakeDeck theDeck
  let (theDeck, rs) ← ShuffleDeck theDeck 40 rs
  let (player, theDeck, rs) ← GiveHand player theDeck rs
  let (dealer, theDeck, rs) ← GiveHand dealer theDeck rs
  let player := UpdateScore player
  let dealer := UpdateScore dealer
  some { player := player, dealer := dealer, theDeck := theDeck, rs := rs }

/-- The second part of a round of `main`: the statement
`if (!player.isDone) { while (true) ... }`. -/
def playerPhase (t : Table) (answers : List Bool) : Option (Table × List Bool) :=
  if !t.player.isDone then
    match playerLoop t.player t.theDeck t.rs answers with
    | none => none
    | some (p, d, rs1, answers1) =>
      some ({ player := p, dealer := t.dealer, theDeck := d, rs := rs1 }, answers1)
  else some (t, answers)

/-- The third part of a round of `main`: the statement
`if (!player.hasBusted) { while (true) ... }`. -/
def dealerPhase (t : Table) : Option Table :=
  if !t.player.hasBusted then
    match dealerLoop (t.rs.length + 1) t.dealer t.theDeck t.rs with
    | none => none
    | some (p, d, rs1) => some { player := t.player, dealer := p, theDeck := d, rs := rs1 }
  else some t

/-- The end of a round of `main`: the winner is announced. -/
def resolve (t : Table) (answers : List Bool) : RoundEnd :=
  { player := t.player, dealer := t.dealer, theDeck := t.theDeck
    shown := CheckAndDisplayWinner t.player t.dealer, rs := t.rs, answers := answers }

/-- The sum of the card values of a hand, every ace counted as 1. -/
def baseSum (hand : List Card) : Int :=
  (hand.map (fun c => c.value)).sum

/-- Whether a hand holds an ace. -/
def holdsAce (hand : List Card) : Bool :=
  hand.any (fun c => decide (c.value = 1))

/-- The total of a hand by the rule of `UpdateScore`: the sum of the values, plus
10 when the hand holds an ace and that stays at 21 or below. -/
def handTotal (hand : List Card) : Int :=
  if holdsAce hand = true ∧ baseSum hand + 10 ≤ 21 then baseSum hand + 10 else baseSum hand

/-- The type of a hand by the rule of `UpdateScore`: soft when an ace is counted
as eleven. -/
def handKind (hand : List Card) : HandType :=
  if holdsAce hand = true ∧ baseSum hand + 10 ≤ 21 then HandType.SOFT else HandType.HARD

/-- Values of `rand()` for a round in which the player busts on the first hit:
forty exchanges of positions 0 and 1, then two tens for the player, a five and a
six for the dealer, and a nine for the player. -/
def bustRands : List Nat :=
  (List.replicate 40 [0, 1]).flatten ++ [9, 22, 4, 5, 8]

/-- Values of `rand()` for a round in which the player is dealt an ace and a
king: forty exchanges of positions 0 and 1, then the ace and the king of clubs
for the player, a ten and a seven for the dealer. -/
def naturalRands : List Nat :=
  (List.replicate 40 [0, 1]).flatten ++ [0, 12, 9, 19]

/-- A freshly reset player who has been handed nine cards: four twos, three
threes and two aces, worth 19. -/
def nineCardHand : Participant :=
  handOf [MakeCard 2 FaceCard.NONE Seed.CLUBS, MakeCard 2 FaceCard.NONE Seed.DIAMONDS,
          MakeCard 2 FaceCard.NONE Seed.HEARTS, MakeCard 2 FaceCard.NONE Seed.SPADES,
          MakeCard 3 FaceCard.NONE Seed.CLUBS, MakeCard 3 FaceCard.NONE Seed.DIAMONDS,
          MakeCard 3 FaceCard.NONE Seed.HEARTS, MakeCard 1 FaceCard.NONE Seed.CLUBS,
          MakeCard 1 FaceCard.NONE Seed.DIAMONDS]

/-- A deck on which every one of the 52 cards has gone out through
`UpdateDrawCards`: all 52 ids are recorded as drawn. -/
def exhaustedDeck : Deck :=
  (dealt PlayerType.PLAYER (MakeDeck rawDeck).cards).2

/-- Every total of a hand that comes from valuing each ace on its own as 1 or as
11, the other cards at their value (the scoring the specification compares the
rule of `UpdateScore` with). -/
def aceTotals : List Card → List Int
  | [] => [0]
  | c :: cs =>
    if c.value = 1 then
      (aceTotals cs).map (fun t => t + 1) ++ (aceTotals cs).map (fun t => t + 11)
    else
      (aceTotals cs).map (fun t => t + c.value)

/-- The number of aces of a hand. -/
def aceCount (hand : List Card) : Nat :=
  hand.countP (fun c => decide (c.value = 1))

/-! ## Cards received one at a time -/

/-- A card is added through `UpdateDrawCards` and the hand is evaluated by
`UpdateScore`, as `main` does after every draw. -/
def receiveCard (s : Participant × Deck) (c : Card) : Participant × Deck :=
  (UpdateScore (UpdateDrawCards s.1 s.2 c).1, (UpdateDrawCards s.1 s.2 c).2)

/-- The states of the participant after each evaluation, when the cards of the
list are received one at a time. -/
def evaluations (s : Participant × Deck) : List Card → List Participant
  | [] => []
  | c :: cs => (receiveCard s c).1 :: evaluations (receiveCard s c) cs

/-- A freshly reset participant, on any memory, next to any deck. -/
def freshStart (type : PlayerType) (p0 : Participant) (d : Deck) : Participant × Deck :=
  (InitParticipant type p0, d)

/-! ## What holds of the table throughout a round -/

/-- What holds of the table from the shuffle to the end of a round: the record of
drawn ids is in order (`DrawInv`), every card held is a card of the deck, and the
deck is a rearrangement of the deck `MakeDeck` builds. -/
def RoundInv (t : Table) : Prop :=
  (∃ n, DrawInv t n)
  ∧ (∀ c ∈ heldCards t.player ++ heldCards t.dealer, c ∈ t.theDeck.cards)
  ∧ t.theDeck.cards.Perm (MakeDeck rawDeck).cards

/-- Values of `rand()` for a round in which the player can ask for a card nine
times before reaching 21: forty exchanges of positions 0 and 1, then two twos
for the player, two tens for the dealer, and for the hits of the player two
twos, three threes and the four aces. -/
def elevenCardRands : List Nat :=
  (List.replicate 40 [0, 1]).flatten ++ [1, 14, 9, 22, 27, 40, 2, 15, 28, 0, 13, 26, 39]

/-- The deck that goes with `nineCardHand`: freshly built, with the ids of the
nine cards recorded as drawn. -/
def nineCardDeck : Deck :=
  (dealt PlayerType.PLAYER
    [MakeCard 2 FaceCard.NONE Seed.CLUBS, MakeCard 2 FaceCard.NONE Seed.DIAMONDS,
     MakeCard 2 FaceCard.NONE Seed.HEARTS, MakeCard 2 FaceCard.NONE Seed.SPADES,
     MakeCard 3 FaceCard.NONE Seed.CLUBS, MakeCard 3 FaceCard.NONE Seed.DIAMONDS,
     MakeCard 3 FaceCard.NONE Seed.HEARTS, MakeCard 1 FaceCard.NONE Seed.CLUBS,
     MakeCard 1 FaceCard.NONE Seed.DIAMONDS]).2

/-- The dealer loop of `main` after `k` passes that all went round again: the
state in which the loop is entered for pass `k + 1`.  The result is `none` when
the loop was left, or the random values ended, before that. -/
def dealerLoopAfter : Nat → Participant → Deck → List Nat → Option (Participant × Deck × List Nat)
  | 0, dealer, theDeck, rs => some (dealer, theDeck, rs)
  | k + 1, dealer, theDeck, rs =>
    match dealerIter dealer theDeck rs with
    | some (Iter.again (p, d, rs1)) => dealerLoopAfter k p d rs1
    | _ => none

/-- Eleven cards of the deck in the order in which `elevenCardRands` hands them
to the player: the four twos, three threes and the four aces. -/
def elevenCards : List Card :=
  [MakeCard 2 FaceCard.NONE Seed.CLUBS, MakeCard 2 FaceCard.NONE Seed.DIAMONDS,
   MakeCard 2 FaceCard.NONE Seed.HEARTS, MakeCard 2 FaceCard.NONE Seed.SPADES,
   MakeCard 3 FaceCard.NONE Seed.CLUBS, MakeCard 3 FaceCard.NONE Seed.DIAMONDS,
   MakeCard 3 FaceCard.NONE Seed.HEARTS, MakeCard 1 FaceCard.NONE Seed.CLUBS,
   MakeCard 1 FaceCard.NONE Seed.DIAMONDS, MakeCard 1 FaceCard.NONE Seed.HEARTS,
   MakeCard 1 FaceCard.NONE Seed.SPADES]

end Blackjack


namespace Blackjack

/-! ## Counting loops and array slots -/

/-- A loop of no iterations leaves the state alone. -/
theorem forUpTo_zero {σ : Type} (body : Nat → σ → σ) (s : σ) :
    forUpTo 0 body s = s := rfl

/-- One more iteration runs the body once more, on the last index. -/
theorem forUpTo_succ {σ : Type} (n : Nat) (body : Nat → σ → σ) (s : σ) :
    forUpTo (n + 1) body s = body n (forUpTo n body s) := by
  simp [forUpTo, List.range_succ, List.foldl_append]

/-- A read is a lookup with a fallback. -/
theorem rd_eq {α : Type} (a : List α) (i : Nat) (dflt : α) :
    rd a i dflt = a[i]?.getD dflt := by
  simp [rd, List.getD_eq_getElem?_getD]

/-- A slot that has just been stored into reads back what was stored. -/
theorem rd_wr_same {α : Type} (a : List α) (i : Nat) (x dflt : α) :
    rd (wr a i x dflt) i dflt = x := by
  unfold rd wr
  split_ifs with h
  · simp [List.getD_eq_getElem?_getD, List.getElem?_set, h]
  · have hlen : (a ++ List.replicate (i - a.length) dflt).length = i := by
      simp; omega
    rw [List.getD_eq_getElem?_getD, List.getElem?_append_right (by omega)]
    simp [hlen]

/-! ## The hand evaluator -/

/-- The summing loop of `UpdateScore` leaves the sum of the values of the held
cards in `score` and whether one of them is an ace in `hasAce`. -/
theorem scoreLoop_eq (cards : List Card) (n : Nat) :
    forUpTo n (UpdateScore.body cards) (0, false)
      = (((cards.take n).map (fun c => c.value)).sum,
         (cards.take n).any (fun c => decide (c.value = 1))) := by
  induction n with
  | zero => simp [forUpTo_zero]
  | succ n ih =>
    rw [forUpTo_succ, ih, List.take_succ]
    simp only [UpdateScore.body, rd_eq]
    cases h : cards[n]? with
    | none => simp [blankCard, InitCard]
    | some c =>
      by_cases hc : c.value = 1 <;> simp [hc]

/-- C1. `UpdateScore` is the documented hand evaluator.  For a participant whose
`isDone` and `hasBusted` flags are clear and whose held cards have values from 1
to 10, with `base` the sum of the values of the held cards: the total is `base`
and the hand is hard when no held card is an ace or `base + 10 > 21`, the total
is `base + 10` and the hand is soft otherwise; `hasBusted` says whether the total
exceeds 21 and `isDone` whether it equals 21; the cards are left as they were.
The four hands named by the claim evaluate as it says. -/
theorem UpdateScore_is_documented_evaluator (p : Participant)
    (_hvals : ∀ c ∈ heldCards p, 1 ≤ c.value ∧ c.value ≤ 10)
    (hdone : p.isDone = false) (hbust : p.hasBusted = false) :
    ((UpdateScore p).totalScore
        = (if (∀ c ∈ heldCards p, c.value ≠ 1) ∨ ((heldCards p).map (fun c => c.value)).sum + 10 > 21
           then ((heldCards p).map (fun c => c.value)).sum
           else ((heldCards p).map (fun c => c.value)).sum + 10)
      ∧ (UpdateScore p).hand
        = (if (∀ c ∈ heldCards p, c.value ≠ 1) ∨ ((heldCards p).map (fun c => c.value)).sum + 10 > 21
           then HandType.HARD else HandType.SOFT)
      ∧ (UpdateScore p).hasBusted = decide ((UpdateScore p).totalScore > 21)
      ∧ (UpdateScore p).isDone = decide ((UpdateScore p).totalScore = 21)
      ∧ (UpdateScore p).cards = p.cards
      ∧ (UpdateScore p).nextHandCardsIndex = p.nextHandCardsIndex
      ∧ (UpdateScore p).type = p.type)
    ∧ (let q := UpdateScore (handOf [MakeCard 1 FaceCard.NONE Seed.SPADES, MakeCard 10 FaceCard.KING Seed.HEARTS])
       (q.totalScore, q.hand, q.isDone, q.hasBusted) = (21, HandType.SOFT, true, false))
    ∧ (let q := UpdateScore (handOf [MakeCard 1 FaceCard.NONE Seed.SPADES, MakeCard 1 FaceCard.NONE Seed.HEARTS,
                                    MakeCard 9 FaceCard.NONE Seed.CLUBS])
       (q.totalScore, q.hand, q.isDone, q.hasBusted) = (21, HandType.SOFT, true, false))
    ∧ (let q := UpdateScore (handOf [MakeCard 10 FaceCard.NONE Seed.SPADES, MakeCard 9 FaceCard.NONE Seed.HEARTS,
                                    MakeCard 5 FaceCard.NONE Seed.CLUBS])
       (q.totalScore, q.hand, q.isDone, q.hasBusted) = (24, HandType.HARD, false, true))
    ∧ (let q := UpdateScore (handOf [MakeCard 7 FaceCard.NONE Seed.SPADES, MakeCard 7 FaceCard.NONE Seed.HEARTS])
       (q.totalScore, q.hand, q.isDone, q.hasBusted) = (14, HandType.HARD, false, false)) := by
  refine ⟨?_, by decide, by decide, by decide, by decide⟩
  have hany : ((heldCards p).any (fun c => decide (c.value = 1)) = false)
      ↔ ∀ c ∈ heldCards p, c.value ≠ 1 := by
    simp [List.any_eq_false]
  have hheld : p.cards.take p.nextHandCardsIndex = heldCards p := rfl
  simp only [UpdateScore, scoreLoop_eq, Score.BLACKJACK, hheld]
  generalize ((heldCards p).map (fun c => c.value)).sum = base
  cases hace : (heldCards p).any (fun c => decide (c.value = 1)) with
  | false =>
    have hc : (∀ c ∈ heldCards p, c.value ≠ 1) ∨ base + 10 > 21 := Or.inl (hany.mp hace)
    simp only [if_pos hc]
    by_cases h1 : base > 21
    · have h2 : base ≠ 21 := by omega
      simp [h1, h2, hdone]
    · by_cases h2 : base = 21
      · simp [h2, hbust]
      · simp [h1, h2, hdone, hbust]
  | true =>
    have hno : ¬ ∀ c ∈ heldCards p, c.value ≠ 1 := by
      intro h
      rw [hany.mpr h] at hace
      exact Bool.noConfusion hace
    by_cases h0 : base + 10 > 21
    · have hc : (∀ c ∈ heldCards p, c.value ≠ 1) ∨ base + 10 > 21 := Or.inr h0
      simp only [if_pos hc]
      by_cases h1 : base > 21
      · have h2 : base ≠ 21 := by omega
        simp [h0, h1, h2, hdone]
      · by_cases h2 : base = 21
        · simp [h2, hbust]
        · simp [h0, h1, h2, hdone, hbust]
    · have hc : ¬ ((∀ c ∈ heldCards p, c.value ≠ 1) ∨ base + 10 > 21) := by
        intro h
        cases h with
        | inl h => exact hno h
        | inr h => exact h0 h
      simp only [if_neg hc]
      by_cases h2 : base + 10 = 21
      · simp [h2, hbust]
      · simp [h0, h2, hdone, hbust]

/-- C1, at a hand: an ace and a seven held by a freshly reset player evaluate to
eighteen, soft. -/
theorem UpdateScore_is_documented_evaluator_witness :
    (∀ c ∈ heldCards (handOf [MakeCard 1 FaceCard.NONE Seed.CLUBS, MakeCard 7 FaceCard.NONE Seed.CLUBS]),
        1 ≤ c.value ∧ c.value ≤ 10)
    ∧ (handOf [MakeCard 1 FaceCard.NONE Seed.CLUBS, MakeCard 7 FaceCard.NONE Seed.CLUBS]).isDone = false
    ∧ (handOf [MakeCard 1 FaceCard.NONE Seed.CLUBS, MakeCard 7 FaceCard.NONE Seed.CLUBS]).hasBusted = false
    ∧ (UpdateScore (handOf [MakeCard 1 FaceCard.NONE Seed.CLUBS, MakeCard 7 FaceCard.NONE Seed.CLUBS])).totalScore
        = 18
    ∧ (UpdateScore (handOf [MakeCard 1 FaceCard.NONE Seed.CLUBS, MakeCard 7 FaceCard.NONE Seed.CLUBS])).hand
        = HandType.SOFT := by
  have h := (UpdateScore_is_documented_evaluator
    (handOf [MakeCard 1 FaceCard.NONE Seed.CLUBS, MakeCard 7 FaceCard.NONE Seed.CLUBS])
    (by decide) (by decide) (by decide)).1
  refine ⟨by decide, by decide, by decide, ?_, ?_⟩
  · rw [h.1]; decide
  · rw [h.2.1]; decide

/-! ## Deciding the winner -/

/-- The score line of a push is not the both-blackjack line. -/
theorem scoreLine_ne_both (x : String) :
    "Player score is " ++ x ≠ "Player and dealer both hit a blackjack!" := by
  intro h
  have h1 := congrArg String.data h
  simp [String.data_append] at h1

/-- The score line of a player win is not the blackjack line of the player. -/
theorem playerLine_ne_blackjack (x : String) :
    "Player score is " ++ x ≠ "Player hit the blackjack! Player won!" := by
  intro h
  have h1 := congrArg String.data h
  simp [String.data_append] at h1

/-- The score line of a dealer win is not the blackjack line of the dealer. -/
theorem dealerLine_ne_blackjack (x : String) :
    "Dealer score is " ++ x ≠ "Dealer hit the blackjack! Dealer won!" := by
  intro h
  have h1 := congrArg String.data h
  simp [String.data_append] at h1

/-- The third branch of `CheckAndDisplayWinner`: nobody busted, equal scores. -/
theorem CheckAndDisplayWinner_push (plyr dlr : Participant)
    (hp : plyr.hasBusted = false) (hd : dlr.hasBusted = false)
    (heq : plyr.totalScore = dlr.totalScore) :
    CheckAndDisplayWinner plyr dlr
      = [if plyr.totalScore = 21 then "Player and dealer both hit a blackjack!"
         else "Player score is " ++ toString plyr.totalScore
                ++ ". Dealer score is " ++ toString dlr.totalScore,
         "It\x27s a push!", ""] := by
  unfold CheckAndDisplayWinner
  simp only [hp, hd, Score.BLACKJACK]
  rw [if_neg (by decide), if_neg (by decide), if_pos heq]
  rfl

/-- The fourth branch of `CheckAndDisplayWinner`: nobody busted, the player is
ahead. -/
theorem CheckAndDisplayWinner_player (plyr dlr : Participant)
    (hp : plyr.hasBusted = false) (hd : dlr.hasBusted = false)
    (hgt : plyr.totalScore > dlr.totalScore) :
    CheckAndDisplayWinner plyr dlr
      = [if plyr.totalScore = 21 then "Player hit the blackjack! Player won!"
         else "Player score is " ++ toString plyr.totalScore ++ ". Player won!", ""] := by
  have hne : ¬ plyr.totalScore = dlr.totalScore := by omega
  unfold CheckAndDisplayWinner
  simp only [hp, hd, Score.BLACKJACK]
  rw [if_neg (by decide), if_neg (by decide), if_neg hne, if_pos hgt]
  by_cases h21 : plyr.totalScore = 21
  · rw [if_pos h21, if_pos h21]; rfl
  · rw [if_neg h21, if_neg h21]; rfl

/-- The last branch of `CheckAndDisplayWinner`: nobody busted, the dealer is
ahead. -/
theorem CheckAndDisplayWinner_dealer (plyr dlr : Participant)
    (hp : plyr.hasBusted = false) (hd : dlr.hasBusted = false)
    (hlt : plyr.totalScore < dlr.totalScore) :
    CheckAndDisplayWinner plyr dlr
      = [if dlr.totalScore = 21 then "Dealer hit the blackjack! Dealer won!"
         else "Dealer score is " ++ toString dlr.totalScore ++ ". Dealer won!", ""] := by
  have hne : ¬ plyr.totalScore = dlr.totalScore := by omega
  have hngt : ¬ plyr.totalScore > dlr.totalScore := by omega
  unfold CheckAndDisplayWinner
  simp only [hp, hd, Score.BLACKJACK]
  rw [if_neg (by decide), if_neg (by decide), if_neg hne, if_neg hngt]
  by_cases h21 : dlr.totalScore = 21
  · rw [if_pos h21, if_pos h21]; rfl
  · rw [if_neg h21, if_neg h21]; rfl

/-- C2. `CheckAndDisplayWinner` decides by the documented priority, for every
pair of final states.  A busted player loses whatever the dealer holds; otherwise
a busted dealer loses; otherwise equal scores are a push, announced by the
both-blackjack line exactly when both scores are 21; otherwise the higher score
wins, announced by the blackjack line of the winner exactly when the winning
score is 21.  The outcome is read off the lines printed.  The four rounds named
by the claim come out as it says. -/
theorem CheckAndDisplayWinner_priority (plyr dlr : Participant) :
    (plyr.hasBusted = true →
      CheckAndDisplayWinner plyr dlr = ["Player has busted! The dealer won!", ""])
    ∧ (plyr.hasBusted = false → dlr.hasBusted = true →
      CheckAndDisplayWinner plyr dlr = ["Dealer has busted! The player won!", ""])
    ∧ (plyr.hasBusted = false → dlr.hasBusted = false → plyr.totalScore = dlr.totalScore →
      ∃ line, CheckAndDisplayWinner plyr dlr = [line, "It\x27s a push!", ""]
        ∧ (line = "Player and dealer both hit a blackjack!"
            ↔ (plyr.totalScore = 21 ∧ dlr.totalScore = 21))
        ∧ (¬ (plyr.totalScore = 21 ∧ dlr.totalScore = 21) →
            line = "Player score is " ++ toString plyr.totalScore
              ++ ". Dealer score is " ++ toString dlr.totalScore))
    ∧ (plyr.hasBusted = false → dlr.hasBusted = false → plyr.totalScore > dlr.totalScore →
      ∃ line, CheckAndDisplayWinner plyr dlr = [line, ""]
        ∧ (line = "Player hit the blackjack! Player won!" ↔ plyr.totalScore = 21)
        ∧ (plyr.totalScore ≠ 21 →
            line = "Player score is " ++ toString plyr.totalScore ++ ". Player won!"))
    ∧ (plyr.hasBusted = false → dlr.hasBusted = false → plyr.totalScore < dlr.totalScore →
      ∃ line, CheckAndDisplayWinner plyr dlr = [line, ""]
        ∧ (line = "Dealer hit the blackjack! Dealer won!" ↔ dlr.totalScore = 21)
        ∧ (dlr.totalScore ≠ 21 →
            line = "Dealer score is " ++ toString dlr.totalScore ++ ". Dealer won!"))
    ∧ CheckAndDisplayWinner
        (UpdateScore (handOf [MakeCard 10 FaceCard.KING Seed.CLUBS, MakeCard 5 FaceCard.NONE Seed.CLUBS,
                              MakeCard 10 FaceCard.NONE Seed.HEARTS]))
        (UpdateScore (handOf [MakeCard 10 FaceCard.JACK Seed.CLUBS, MakeCard 8 FaceCard.NONE Seed.CLUBS]))
      = ["Player has busted! The dealer won!", ""]
    ∧ CheckAndDisplayWinner
        (UpdateScore (handOf [MakeCard 1 FaceCard.NONE Seed.CLUBS, MakeCard 10 FaceCard.KING Seed.CLUBS]))
        (UpdateScore (handOf [MakeCard 10 FaceCard.QUEEN Seed.HEARTS, MakeCard 1 FaceCard.NONE Seed.HEARTS]))
      = ["Player and dealer both hit a blackjack!", "It\x27s a push!", ""]
    ∧ CheckAndDisplayWinner
        (UpdateScore (handOf [MakeCard 10 FaceCard.KING Seed.CLUBS, MakeCard 10 FaceCard.NONE Seed.CLUBS]))
        (UpdateScore (handOf [MakeCard 10 FaceCard.QUEEN Seed.HEARTS, MakeCard 9 FaceCard.NONE Seed.HEARTS]))
      = ["Player score is 20. Player won!", ""]
    ∧ CheckAndDisplayWinner
        (UpdateScore (handOf [MakeCard 10 FaceCard.KING Seed.CLUBS, MakeCard 9 FaceCard.NONE Seed.CLUBS]))
        (UpdateScore (handOf [MakeCard 10 FaceCard.QUEEN Seed.HEARTS, MakeCard 5 FaceCard.NONE Seed.HEARTS,
                              MakeCard 6 FaceCard.NONE Seed.HEARTS]))
      = ["Dealer hit the blackjack! Dealer won!", ""] := by
  refine ⟨?_, ?_, ?_, ?_, ?_, by decide, by decide, by decide, by decide⟩
  · intro hp
    simp [CheckAndDisplayWinner, hp]
  · intro hp hd
    simp [CheckAndDisplayWinner, hp, hd]
  · intro hp hd heq
    have hout := CheckAndDisplayWinner_push plyr dlr hp hd heq
    by_cases h21 : plyr.totalScore = 21
    · refine ⟨"Player and dealer both hit a blackjack!", ?_, ?_, ?_⟩
      · rw [hout, if_pos h21]
      · simp [← heq, h21]
      · intro hne
        exact absurd ⟨h21, heq ▸ h21⟩ hne
    · refine ⟨"Player score is " ++ toString plyr.totalScore
          ++ ". Dealer score is " ++ toString dlr.totalScore, ?_, ?_, ?_⟩
      · rw [hout, if_neg h21]
      · constructor
        · intro h
          rw [String.append_assoc, String.append_assoc] at h
          exact absurd h (scoreLine_ne_both _)
        · intro h
          exact absurd h.1 h21
      · intro _
        rfl
  · intro hp hd hgt
    have hout := CheckAndDisplayWinner_player plyr dlr hp hd hgt
    by_cases h21 : plyr.totalScore = 21
    · refine ⟨"Player hit the blackjack! Player won!", ?_, ?_, ?_⟩
      · rw [hout, if_pos h21]
      · simp [h21]
      · intro h
        exact absurd h21 h
    · refine ⟨"Player score is " ++ toString plyr.totalScore ++ ". Player won!", ?_, ?_, ?_⟩
      · rw [hout, if_neg h21]
      · constructor
        · intro h
          rw [String.append_assoc] at h
          exact absurd h (playerLine_ne_blackjack _)
        · intro h
          exact absurd h h21
      · intro _
        rfl
  · intro hp hd hlt
    have hout := CheckAndDisplayWinner_dealer plyr dlr hp hd hlt
    by_cases h21 : dlr.totalScore = 21
    · refine ⟨"Dealer hit the blackjack! Dealer won!", ?_, ?_, ?_⟩
      · rw [hout, if_pos h21]
      · simp [h21]
      · intro h
        exact absurd h21 h
    · refine ⟨"Dealer score is " ++ toString dlr.totalScore ++ ". Dealer won!", ?_, ?_, ?_⟩
      · rw [hout, if_neg h21]
      · constructor
        · intro h
          rw [String.append_assoc] at h
          exact absurd h (dealerLine_ne_blackjack _)
        · intro h
          exact absurd h h21
      · intro _
        rfl

/-- C2, at a pair of hands: twenty against nineteen, nobody busted, is won by
the player without the blackjack line. -/
theorem CheckAndDisplayWinner_priority_witness :
    (UpdateScore (handOf [MakeCard 10 FaceCard.KING Seed.CLUBS, MakeCard 10 FaceCard.NONE Seed.CLUBS])).hasBusted
        = false
    ∧ (UpdateScore (handOf [MakeCard 10 FaceCard.QUEEN Seed.HEARTS, MakeCard 9 FaceCard.NONE Seed.HEARTS])).hasBusted
        = false
    ∧ ∃ line,
        CheckAndDisplayWinner
          (UpdateScore (handOf [MakeCard 10 FaceCard.KING Seed.CLUBS, MakeCard 10 FaceCard.NONE Seed.CLUBS]))
          (UpdateScore (handOf [MakeCard 10 FaceCard.QUEEN Seed.HEARTS, MakeCard 9 FaceCard.NONE Seed.HEARTS]))
          = [line, ""]
        ∧ line ≠ "Player hit the blackjack! Player won!" := by
  obtain ⟨line, h1, h2, _⟩ := (CheckAndDisplayWinner_priority
    (UpdateScore (handOf [MakeCard 10 FaceCard.KING Seed.CLUBS, MakeCard 10 FaceCard.NONE Seed.CLUBS]))
    (UpdateScore (handOf [MakeCard 10 FaceCard.QUEEN Seed.HEARTS, MakeCard 9 FaceCard.NONE Seed.HEARTS]))).2.2.2.1
    (by decide) (by decide) (by decide)
  refine ⟨by decide, by decide, line, h1, ?_⟩
  intro h
  exact absurd (h2.mp h) (by decide)

/-! ## The hand bound -/

set_option maxRecDepth 100000 in
/-- C3. A round of `main` in which the player is handed a tenth card.  The hand
array has `HAND_CARDS_TOT = 9` slots.  With seven hits the player holds nine
cards worth 19, neither done nor busted, so an eighth hit is asked for and
granted: `UpdateDrawCards` then stores at index 9 and leaves
`nextHandCardsIndex` at 10. -/
theorem playRound_stores_tenth_card :
    HAND_CARDS_TOT = 9
    ∧ (playRound rawParticipant rawParticipant rawDeck tenCardRands
          (List.replicate 7 true ++ [false])).map
        (fun e => (e.player.nextHandCardsIndex, e.player.totalScore, e.player.hasBusted))
      = some (9, 19, false)
    ∧ (playRound rawParticipant rawParticipant rawDeck tenCardRands
          (List.replicate 8 true ++ [false])).map
        (fun e => (e.player.nextHandCardsIndex, rd e.player.cards 9 blankCard,
                   e.player.totalScore, e.player.hasBusted))
      = some (10, MakeCard 1 FaceCard.NONE Seed.HEARTS, 20, false) := by
  decide

/-! ## The dealer policy -/

/-- The hand counter is not moved by `UpdateScore`. -/
theorem UpdateScore_nextHandCardsIndex (p : Participant) :
    (UpdateScore p).nextHandCardsIndex = p.nextHandCardsIndex := by
  unfold UpdateScore
  simp only
  split_ifs <;> rfl

/-- The cards are not touched by `UpdateScore`. -/
theorem UpdateScore_cards (p : Participant) :
    (UpdateScore p).cards = p.cards := by
  unfold UpdateScore
  simp only
  split_ifs <;> rfl

/-- An iteration of the dealer loop in a state that is not a hard 17 or more:
it is the draw of one card followed by the evaluation of the hand. -/
theorem dealerIter_draws (dealer : Participant) (theDeck : Deck) (rs : List Nat)
    (hnot : ¬ (dealer.totalScore ≥ 17 ∧ dealer.hand = HandType.HARD)) :
    dealerIter dealer theDeck rs
      = match drawUntilNew theDeck rs with
        | none => none
        | some (card, rs1) =>
          let r := UpdateDrawCards { dealer with isDone := false } theDeck card
          if (UpdateScore r.1).hasBusted then some (Iter.brk (UpdateScore r.1, r.2, rs1))
          else some (Iter.again (UpdateScore r.1, r.2, rs1)) := by
  have hflag : (decide (dealer.totalScore ≥ Score.DEALER_MIN) && decide (dealer.hand = HandType.HARD))
      = false := by
    simp only [Score.DEALER_MIN, Bool.and_eq_false_imp, decide_eq_true_eq, decide_eq_false_iff_not]
    intro h1 h2
    exact hnot ⟨h1, h2⟩
  unfold dealerIter
  simp only [hflag, DrawCard]
  cases drawUntilNew theDeck rs with
  | none => simp
  | some x => simp

set_option maxRecDepth 100000 in
/-- C4. The dealer policy, for every state the dealer loop can be in.  With a
hard total of 17 or more the iteration breaks with the hand, the deck and the
unread random values as they were.  In every other state, soft totals of 17 or
more included, the iteration draws: as soon as the random values lead to a card
that is not drawn yet, exactly that one card is stored in the hand and recorded
in the deck, the hand is evaluated again, and the loop breaks only on a bust.
Hence an iteration ends at a `break` with the hand size unchanged exactly in the
first kind of state.  A dealer on ace and six (soft 17) and a dealer on ace and
king (soft 21) both draw a third card. -/
theorem dealerIter_policy (dealer : Participant) (theDeck : Deck) (rs : List Nat) :
    ((dealer.totalScore ≥ 17 ∧ dealer.hand = HandType.HARD) →
        dealerIter dealer theDeck rs
          = some (Iter.brk ({ dealer with isDone := true }, theDeck, rs)))
    ∧ (¬ (dealer.totalScore ≥ 17 ∧ dealer.hand = HandType.HARD) →
        (∀ card rs1, drawUntilNew theDeck rs = some (card, rs1) →
          ∃ it, dealerIter dealer theDeck rs = some it
            ∧ it.state
                = (UpdateScore (UpdateDrawCards { dealer with isDone := false } theDeck card).1,
                   (UpdateDrawCards { dealer with isDone := false } theDeck card).2, rs1)
            ∧ it.state.1.nextHandCardsIndex = dealer.nextHandCardsIndex + 1
            ∧ rd it.state.1.cards dealer.nextHandCardsIndex blankCard = card
            ∧ it.state.2.1.nextDrawnCardsIndex = theDeck.nextDrawnCardsIndex + 1
            ∧ it.isBrk = it.state.1.hasBusted)
        ∧ (drawUntilNew theDeck rs = none → dealerIter dealer theDeck rs = none))
    ∧ ((∃ s, dealerIter dealer theDeck rs = some (Iter.brk s)
            ∧ s.1.nextHandCardsIndex = dealer.nextHandCardsIndex)
        ↔ (dealer.totalScore ≥ 17 ∧ dealer.hand = HandType.HARD))
    ∧ (let dealer17 := UpdateScore (dealt PlayerType.DEALER
          [MakeCard 1 FaceCard.NONE Seed.CLUBS, MakeCard 6 FaceCard.NONE Seed.SPADES]).1
       let deck17 := (dealt PlayerType.DEALER
          [MakeCard 1 FaceCard.NONE Seed.CLUBS, MakeCard 6 FaceCard.NONE Seed.SPADES]).2
       (dealer17.totalScore, dealer17.hand, dealer17.nextHandCardsIndex) = (17, HandType.SOFT, 2)
        ∧ (dealerIter dealer17 deck17 [20]).map
            (fun it => (it.isBrk, it.state.1.nextHandCardsIndex, it.state.1.totalScore, it.state.1.hand))
          = some (false, 3, 15, HandType.HARD))
    ∧ (let dealer21 := UpdateScore (dealt PlayerType.DEALER
          [MakeCard 1 FaceCard.NONE Seed.CLUBS, MakeCard 10 FaceCard.KING Seed.SPADES]).1
       let deck21 := (dealt PlayerType.DEALER
          [MakeCard 1 FaceCard.NONE Seed.CLUBS, MakeCard 10 FaceCard.KING Seed.SPADES]).2
       (dealer21.totalScore, dealer21.hand, dealer21.nextHandCardsIndex) = (21, HandType.SOFT, 2)
        ∧ (dealerIter dealer21 deck21 [20]).map
            (fun it => (it.isBrk, it.state.1.nextHandCardsIndex, it.state.1.totalScore, it.state.1.hand))
          = some (false, 3, 19, HandType.HARD)) := by
  have hstop : (dealer.totalScore ≥ 17 ∧ dealer.hand = HandType.HARD) →
      dealerIter dealer theDeck rs
        = some (Iter.brk ({ dealer with isDone := true }, theDeck, rs)) := by
    intro h
    have hflag : (decide (dealer.totalScore ≥ Score.DEALER_MIN) && decide (dealer.hand = HandType.HARD))
        = true := by
      simp [Score.DEALER_MIN, h.1, h.2]
    unfold dealerIter
    simp only [hflag, if_true]
  refine ⟨hstop, ?_, ?_, by decide, by decide⟩
  · intro hnot
    have hiter := dealerIter_draws dealer theDeck rs hnot
    constructor
    · intro card rs1 hdraw
      rw [hdraw] at hiter
      by_cases hb : (UpdateScore (UpdateDrawCards { dealer with isDone := false } theDeck card).1).hasBusted
          = true
      · refine ⟨Iter.brk (UpdateScore (UpdateDrawCards { dealer with isDone := false } theDeck card).1,
            (UpdateDrawCards { dealer with isDone := false } theDeck card).2, rs1), ?_, rfl, ?_, ?_, rfl, ?_⟩
        · rw [hiter]; simp [hb]
        · simp [Iter.state, UpdateScore_nextHandCardsIndex, UpdateDrawCards]
        · simp [Iter.state, UpdateScore_cards, UpdateDrawCards, rd_wr_same]
        · simp [Iter.state, Iter.isBrk, hb]
      · refine ⟨Iter.again (UpdateScore (UpdateDrawCards { dealer with isDone := false } theDeck card).1,
            (UpdateDrawCards { dealer with isDone := false } theDeck card).2, rs1), ?_, rfl, ?_, ?_, rfl, ?_⟩
        · rw [hiter]; simp [hb]
        · simp [Iter.state, UpdateScore_nextHandCardsIndex, UpdateDrawCards]
        · simp [Iter.state, UpdateScore_cards, UpdateDrawCards, rd_wr_same]
        · simp [Iter.state, Iter.isBrk, hb]
    · intro hdraw
      rw [hiter, hdraw]
  · constructor
    · rintro ⟨s, hs, hidx⟩
      by_contra hnot
      have hiter := dealerIter_draws dealer theDeck rs hnot
      rw [hiter] at hs
      cases hdraw : drawUntilNew theDeck rs with
      | none => rw [hdraw] at hs; simp at hs
      | some x =>
        rw [hdraw] at hs
        simp only at hs
        split_ifs at hs
        · simp only [Option.some.injEq, Iter.brk.injEq] at hs
          rw [← hs] at hidx
          simp [UpdateScore_nextHandCardsIndex, UpdateDrawCards] at hidx
        · simp at hs
    · intro h
      exact ⟨_, hstop h, rfl⟩

/-- C4, at a state: a dealer on ten and seven (hard 17) stops with the hand as
it is. -/
theorem dealerIter_policy_witness :
    ((UpdateScore (dealt PlayerType.DEALER
        [MakeCard 10 FaceCard.NONE Seed.CLUBS, MakeCard 7 FaceCard.NONE Seed.SPADES]).1).totalScore ≥ 17
      ∧ (UpdateScore (dealt PlayerType.DEALER
        [MakeCard 10 FaceCard.NONE Seed.CLUBS, MakeCard 7 FaceCard.NONE Seed.SPADES]).1).hand = HandType.HARD)
    ∧ (dealerIter
        (UpdateScore (dealt PlayerType.DEALER
          [MakeCard 10 FaceCard.NONE Seed.CLUBS, MakeCard 7 FaceCard.NONE Seed.SPADES]).1)
        (dealt PlayerType.DEALER
          [MakeCard 10 FaceCard.NONE Seed.CLUBS, MakeCard 7 FaceCard.NONE Seed.SPADES]).2 [20]).map
        (fun it => (it.isBrk, it.state.1.nextHandCardsIndex, it.state.2.2))
      = some (true, 2, [20]) := by
  refine ⟨by decide, ?_⟩
  rw [(dealerIter_policy _ _ [20]).1 (by decide)]
  decide

/-! ## Building the deck -/

/-- A loop that stores the same value `b` into slots `0 .. n - 1` one after the
other leaves `n` copies of `b` followed by the untouched rest. -/
theorem initLoop_eq {α : Type} (g : α → α) (b dflt : α) (hg : ∀ x, g x = b) :
    ∀ (n : Nat) (a : List α), n ≤ a.length →
      forUpTo n (fun i cs => wr cs i (g (rd cs i dflt)) dflt) a
        = List.replicate n b ++ a.drop n := by
  intro n
  induction n with
  | zero => intro a _; simp [forUpTo_zero]
  | succ n ih =>
    intro a hn
    have hlt : n < a.length := by omega
    rw [forUpTo_succ, ih a (by omega)]
    have hlen : (List.replicate n b ++ a.drop n).length = a.length := by
      simp; omega
    simp only [wr, hlen, hlt, if_true, hg]
    rw [List.set_append_right n b (by simp), List.drop_eq_getElem_cons hlt]
    simp only [List.length_replicate, Nat.sub_self, List.set_cons_zero, List.replicate_succ',
      List.append_assoc, List.singleton_append]

/-- The deck `MakeDeck` builds does not depend on what the 52 card slots and the
52 id slots held before. -/
theorem MakeDeck_eq_of_raw (d : Deck) (hc : d.cards.length = CARD_TOT)
    (hd : d.drawnCardsIDs.length = CARD_TOT) : MakeDeck d = MakeDeck rawDeck := by
  have h1 : ∀ a : List Card, a.length = CARD_TOT →
      forUpTo CARD_TOT (fun i cs => wr cs i (InitCard (rd cs i blankCard)) blankCard) a
        = List.replicate CARD_TOT blankCard := by
    intro a ha
    rw [initLoop_eq InitCard blankCard blankCard (fun _ => rfl) CARD_TOT a (by omega)]
    simp [← ha]
  have h2 : ∀ a : List Int, a.length = CARD_TOT →
      forUpTo CARD_TOT (fun i ids => wr ids i 0 0) a = List.replicate CARD_TOT 0 := by
    intro a ha
    rw [initLoop_eq (fun _ => (0 : Int)) 0 0 (fun _ => rfl) CARD_TOT a (by omega)]
    simp [← ha]
  unfold MakeDeck
  rw [h1 d.cards hc, h2 d.drawnCardsIDs hd, h1 rawDeck.cards (by decide),
    h2 rawDeck.drawnCardsIDs (by decide)]

/-- The cards `MakeDeck` lays out do not depend on what the 52 card slots held
before. -/
theorem MakeDeck_cards_eq_of_raw (d : Deck) (hc : d.cards.length = CARD_TOT) :
    (MakeDeck d).cards = (MakeDeck rawDeck).cards := by
  have h1 : ∀ a : List Card, a.length = CARD_TOT →
      forUpTo CARD_TOT (fun i cs => wr cs i (InitCard (rd cs i blankCard)) blankCard) a
        = List.replicate CARD_TOT blankCard := by
    intro a ha
    rw [initLoop_eq InitCard blankCard blankCard (fun _ => rfl) CARD_TOT a (by omega)]
    simp [← ha]
  unfold MakeDeck
  simp only
  rw [h1 d.cards hc, h1 rawDeck.cards (by decide)]

set_option maxRecDepth 100000 in
/-- C6. `MakeDeck` builds the standard deck in canonical order.  Whatever the
52 slots held before, slot `13 * i + j` holds the card of the `i`-th suit
(clubs, diamonds, hearts, spades) and of rank `j + 1`: its value is `j + 1` for
ranks 1 to 9 and 10 for ranks 10 to 13, its face is none up to rank 10 and jack,
queen, king for ranks 11, 12, 13.  The deck has 52 cards, 13 of each suit, 4 of
each rank, and every value lies between 1 and 10. -/
theorem MakeDeck_canonical_order (d : Deck) (hc : d.cards.length = CARD_TOT) :
    (∀ i < 4, ∀ j < 13,
        (rd (MakeDeck d).cards (13 * i + j) blankCard).seed = suitAt i
        ∧ (rd (MakeDeck d).cards (13 * i + j) blankCard).value = rankValue (j + 1)
        ∧ (rd (MakeDeck d).cards (13 * i + j) blankCard).face = rankFace (j + 1))
    ∧ (MakeDeck d).cards.length = 52
    ∧ (∀ i < 4, (MakeDeck d).cards.countP (fun c => decide (c.seed = suitAt i)) = 13)
    ∧ (∀ j < 13, (MakeDeck d).cards.countP
          (fun c => decide (c.value = rankValue (j + 1) ∧ c.face = rankFace (j + 1))) = 4)
    ∧ (∀ c ∈ (MakeDeck d).cards, 1 ≤ c.value ∧ c.value ≤ 10) := by
  rw [MakeDeck_cards_eq_of_raw d hc]
  decide

/-- C6, at a deck: the uninitialised deck memory `rawDeck`. -/
theorem MakeDeck_canonical_order_witness :
    rawDeck.cards.length = CARD_TOT
    ∧ (rd (MakeDeck rawDeck).cards (13 * 2 + 11) blankCard).seed = Seed.HEARTS
    ∧ (rd (MakeDeck rawDeck).cards (13 * 2 + 11) blankCard).value = 10
    ∧ (rd (MakeDeck rawDeck).cards (13 * 2 + 11) blankCard).face = FaceCard.QUEEN :=
  ⟨by decide,
   (MakeDeck_canonical_order rawDeck (by decide)).1 2 (by decide) 11 (by decide)⟩

set_option maxRecDepth 100000 in
/-- C7. Card identities do not collide within a deck.  Every card of the deck
built by `MakeDeck` carries the id `(value + 100) * (faceCode + 1) + suitCode`
that `MakeCard` computes, the 52 ids are pairwise distinct, and two positions of
the deck hold the same id only if they are the same position. -/
theorem MakeDeck_ids_distinct (d : Deck) (hc : d.cards.length = CARD_TOT) :
    (∀ c ∈ (MakeDeck d).cards,
        c.id = (c.value + 100) * (idFaceVal c.face + 1) + idSeedVal c.seed)
    ∧ ((MakeDeck d).cards.map (fun c => c.id)).Nodup
    ∧ (∀ i < CARD_TOT, ∀ j < CARD_TOT,
        (rd (MakeDeck d).cards i blankCard).id = (rd (MakeDeck d).cards j blankCard).id → i = j) := by
  rw [MakeDeck_cards_eq_of_raw d hc]
  decide

set_option maxRecDepth 100000 in
/-- C7, at a deck: in the deck built over `rawDeck` the king of clubs (slot 12)
and the ace of diamonds (slot 13) have different ids. -/
theorem MakeDeck_ids_distinct_witness :
    rawDeck.cards.length = CARD_TOT
    ∧ ((MakeDeck rawDeck).cards.map (fun c => c.id)).Nodup
    ∧ (rd (MakeDeck rawDeck).cards 12 blankCard).id ≠ (rd (MakeDeck rawDeck).cards 13 blankCard).id := by
  have h := MakeDeck_ids_distinct rawDeck (by decide)
  refine ⟨by decide, h.2.1, ?_⟩
  intro heq
  exact absurd (h.2.2 12 (by decide) 13 (by decide) heq) (by decide)

set_option maxRecDepth 100000 in
/-- C10. Rebuilding is a full reset.  For every two prior states of the deck
memory, `MakeDeck` gives the same deck: the same cards in the same order, no
card recorded as drawn (`nextDrawnCardsIndex = 0`) and every one of the 52 id
slots equal to 0. -/
theorem MakeDeck_full_reset (d1 d2 : Deck)
    (h1c : d1.cards.length = CARD_TOT) (h1d : d1.drawnCardsIDs.length = CARD_TOT)
    (h2c : d2.cards.length = CARD_TOT) (h2d : d2.drawnCardsIDs.length = CARD_TOT) :
    MakeDeck d1 = MakeDeck d2
    ∧ (MakeDeck d1).nextDrawnCardsIndex = 0
    ∧ (MakeDeck d1).drawnCardsIDs = List.replicate CARD_TOT 0
    ∧ (∀ i < CARD_TOT, rd (MakeDeck d1).drawnCardsIDs i 9 = 0) := by
  rw [MakeDeck_eq_of_raw d1 h1c h1d, MakeDeck_eq_of_raw d2 h2c h2d]
  decide

set_option maxRecDepth 100000 in
/-- C10, at two decks: a freshly built deck and one that has been shuffled and
drawn from are different states, and rebuilding either gives the same deck. -/
theorem MakeDeck_full_reset_witness :
    (MakeDeck rawDeck).cards.length = CARD_TOT
    ∧ (MakeDeck rawDeck).drawnCardsIDs.length = CARD_TOT
    ∧ usedDeck.cards.length = CARD_TOT
    ∧ usedDeck.drawnCardsIDs.length = CARD_TOT
    ∧ usedDeck.cards ≠ (MakeDeck rawDeck).cards
    ∧ usedDeck.nextDrawnCardsIndex = 1
    ∧ MakeDeck (MakeDeck rawDeck) = MakeDeck usedDeck :=
  ⟨by decide, by decide, by decide, by decide, by decide, by decide,
   (MakeDeck_full_reset (MakeDeck rawDeck) usedDeck (by decide) (by decide) (by decide)
      (by decide)).1⟩

/-! ## Bust and done -/

/-- C8, refuted as stated: ten, nine and five held by a freshly reset player
evaluate to a busted hand whose `isDone` flag is still clear. -/
theorem UpdateScore_bust_not_done_counterexample :
    ¬ ((UpdateScore (handOf [MakeCard 10 FaceCard.NONE Seed.CLUBS, MakeCard 9 FaceCard.NONE Seed.CLUBS,
                             MakeCard 5 FaceCard.NONE Seed.CLUBS])).hasBusted = true
        → (UpdateScore (handOf [MakeCard 10 FaceCard.NONE Seed.CLUBS, MakeCard 9 FaceCard.NONE Seed.CLUBS,
                                MakeCard 5 FaceCard.NONE Seed.CLUBS])).isDone = true) := by
  decide

/-- C8, amended.  `UpdateScore` sets one flag or the other, never `isDone` on a
bust: for a participant whose flags are clear, as `InitParticipant` leaves them
and `UpdateDrawCards` keeps them, a hand that evaluates as busted has `isDone`
still clear.  The turn ends all the same, because the loops of `main` test
`hasBusted` on its own: an iteration of the player loop or of the dealer loop
that ends with the participant busted ends at a `break`. -/
theorem UpdateScore_bust_leaves_isDone_clear (p : Participant)
    (hdone : p.isDone = false) (hbust : p.hasBusted = false) :
    ((UpdateScore p).hasBusted = true → (UpdateScore p).isDone = false)
    ∧ (∀ answer theDeck rs it, playerIter answer p theDeck rs = some it →
        it.state.1.hasBusted = true → it.isBrk = true)
    ∧ (∀ theDeck rs it, dealerIter p theDeck rs = some it →
        it.state.1.hasBusted = true → it.isBrk = true) := by
  refine ⟨?_, ?_, ?_⟩
  · intro hb
    unfold UpdateScore at hb ⊢
    simp only at hb ⊢
    split_ifs at hb ⊢ <;> simp_all
  · intro answer theDeck rs it hit hb
    unfold playerIter at hit
    simp only at hit
    split_ifs at hit with h1
    · simp only [Option.some.injEq] at hit
      rw [← hit]; rfl
    · split at hit
      · exact absurd hit (by simp)
      · split_ifs at hit with h2
        · simp only [Option.some.injEq] at hit
          rw [← hit]; rfl
        · simp only [Option.some.injEq] at hit
          rw [← hit] at hb
          simp only [Iter.state] at hb
          simp [hb] at h2
  · intro theDeck rs it hit hb
    unfold dealerIter at hit
    simp only at hit
    split_ifs at hit with h1
    · simp only [Option.some.injEq] at hit
      rw [← hit]; rfl
    · split at hit
      · exact absurd hit (by simp)
      · split_ifs at hit with h2
        · simp only [Option.some.injEq] at hit
          rw [← hit]; rfl
        · simp only [Option.some.injEq] at hit
          rw [← hit] at hb
          simp only [Iter.state] at hb
          exact absurd hb h2

/-- C8 as amended, at a hand: ten, nine and five held by a freshly reset player
are busted and not done. -/
theorem UpdateScore_bust_leaves_isDone_clear_witness :
    (handOf [MakeCard 10 FaceCard.NONE Seed.CLUBS, MakeCard 9 FaceCard.NONE Seed.CLUBS,
             MakeCard 5 FaceCard.NONE Seed.CLUBS]).isDone = false
    ∧ (handOf [MakeCard 10 FaceCard.NONE Seed.CLUBS, MakeCard 9 FaceCard.NONE Seed.CLUBS,
               MakeCard 5 FaceCard.NONE Seed.CLUBS]).hasBusted = false
    ∧ (UpdateScore (handOf [MakeCard 10 FaceCard.NONE Seed.CLUBS, MakeCard 9 FaceCard.NONE Seed.CLUBS,
                            MakeCard 5 FaceCard.NONE Seed.CLUBS])).hasBusted = true
    ∧ (UpdateScore (handOf [MakeCard 10 FaceCard.NONE Seed.CLUBS, MakeCard 9 FaceCard.NONE Seed.CLUBS,
                            MakeCard 5 FaceCard.NONE Seed.CLUBS])).isDone = false :=
  ⟨by decide, by decide, by decide,
   (UpdateScore_bust_leaves_isDone_clear
      (handOf [MakeCard 10 FaceCard.NONE Seed.CLUBS, MakeCard 9 FaceCard.NONE Seed.CLUBS,
               MakeCard 5 FaceCard.NONE Seed.CLUBS]) (by decide) (by decide)).1 (by decide)⟩

/-! ## Shuffling -/

/-- Putting `x` into slot `j` and the old content of slot `j` in front is a
rearrangement of putting `x` in front. -/
theorem set_getD_cons_perm {α : Type} (d x : α) :
    ∀ (t : List α) (j : Nat), j < t.length → (t.getD j d :: t.set j x).Perm (x :: t) := by
  intro t
  induction t with
  | nil => intro j hj; simp at hj
  | cons y t ih =>
    intro j hj
    cases j with
    | zero => simpa using List.Perm.swap x y t
    | succ j =>
      have hj1 : j < t.length := by simpa using hj
      simp only [List.getD_cons_succ, List.set_cons_succ]
      exact ((List.Perm.swap y (t.getD j d) (t.set j x)).trans
        ((ih j hj1).cons y)).trans (List.Perm.swap x y t)

/-- Exchanging the contents of two slots rearranges the list. -/
theorem swap_slots_perm {α : Type} (d : α) :
    ∀ (l : List α) (i j : Nat), i < l.length → j < l.length →
      ((l.set i (l.getD j d)).set j (l.getD i d)).Perm l := by
  intro l
  induction l with
  | nil => intro i j hi; simp at hi
  | cons x t ih =>
    intro i j hi hj
    cases i with
    | zero =>
      cases j with
      | zero => simp
      | succ j =>
        have hj1 : j < t.length := by simpa using hj
        simpa using set_getD_cons_perm d x t j hj1
    | succ i =>
      have hi1 : i < t.length := by simpa using hi
      cases j with
      | zero =>
        simpa using set_getD_cons_perm d x t i hi1
      | succ j =>
        have hj1 : j < t.length := by simpa using hj
        simpa using ih i j hi1 hj1

/-- In-bounds stores are `List.set`. -/
theorem wr_of_lt {α : Type} (a : List α) (i : Nat) (x dflt : α) (h : i < a.length) :
    wr a i x dflt = a.set i x := by
  simp [wr, h]

/-- One card swap of `ShuffleDeck` rearranges the cards and touches nothing
else. -/
theorem ShuffleDeck_swap_perm (deck : Deck) (i1 i2 : Nat)
    (h1 : i1 < deck.cards.length) (h2 : i2 < deck.cards.length) :
    (ShuffleDeck.swap deck i1 i2).cards.Perm deck.cards
    ∧ (ShuffleDeck.swap deck i1 i2).drawnCardsIDs = deck.drawnCardsIDs
    ∧ (ShuffleDeck.swap deck i1 i2).nextDrawnCardsIndex = deck.nextDrawnCardsIndex := by
  refine ⟨?_, rfl, rfl⟩
  unfold ShuffleDeck.swap
  simp only [rd]
  rw [wr_of_lt _ _ _ _ h1, wr_of_lt _ _ _ _ (by simpa using h2)]
  exact swap_slots_perm blankCard deck.cards i1 i2 h1 h2

/-- The second position of a swap differs from the first and is a deck
position. -/
theorem ShuffleDeck_second_spec (i1 : Nat) :
    ∀ (rs : List Nat) (i2 : Nat) (rs2 : List Nat),
      ShuffleDeck.second i1 rs = some (i2, rs2) → i2 ≠ i1 ∧ i2 < CARD_TOT := by
  intro rs
  induction rs with
  | nil => intro i2 rs2 h; simp [ShuffleDeck.second] at h
  | cons r rs ih =>
    intro i2 rs2 h
    unfold ShuffleDeck.second at h
    simp only at h
    split_ifs at h with heq
    · exact ih i2 rs2 h
    · simp only [Option.some.injEq, Prod.mk.injEq] at h
      refine ⟨?_, ?_⟩
      · rw [← h.1]; exact fun hh => heq hh.symm
      · rw [← h.1]; exact Nat.mod_lt _ (by decide)

/-- The shuffle loop, whatever the number of iterations and the random values,
ends with a rearrangement of the cards it started with. -/
theorem ShuffleDeck_loop_perm :
    ∀ (k : Nat) (deck : Deck) (rs : List Nat) (d1 : Deck) (rs1 : List Nat),
      deck.cards.length = CARD_TOT →
      ShuffleDeck.loop k deck rs = some (d1, rs1) →
      d1.cards.Perm deck.cards ∧ d1.drawnCardsIDs = deck.drawnCardsIDs
        ∧ d1.nextDrawnCardsIndex = deck.nextDrawnCardsIndex := by
  intro k
  induction k with
  | zero =>
    intro deck rs d1 rs1 _ h
    simp only [ShuffleDeck.loop, Option.some.injEq, Prod.mk.injEq] at h
    rw [← h.1]
    exact ⟨List.Perm.refl _, rfl, rfl⟩
  | succ k ih =>
    intro deck rs d1 rs1 hlen h
    cases rs with
    | nil => simp [ShuffleDeck.loop] at h
    | cons r rs0 =>
      simp only [ShuffleDeck.loop] at h
      cases hsec : ShuffleDeck.second (r % CARD_TOT) rs0 with
      | none => rw [hsec] at h; simp at h
      | some x =>
        obtain ⟨i2, rs2⟩ := x
        rw [hsec] at h
        simp only at h
        have hi1 : r % CARD_TOT < deck.cards.length := by
          rw [hlen]; exact Nat.mod_lt _ (by decide)
        have hi2 : i2 < deck.cards.length := by
          rw [hlen]; exact (ShuffleDeck_second_spec _ rs0 i2 rs2 hsec).2
        have hsw := ShuffleDeck_swap_perm deck (r % CARD_TOT) i2 hi1 hi2
        have hlen1 : (ShuffleDeck.swap deck (r % CARD_TOT) i2).cards.length = CARD_TOT := by
          rw [hsw.1.length_eq, hlen]
        have hrec := ih _ rs2 d1 rs1 hlen1 h
        exact ⟨hrec.1.trans hsw.1, hrec.2.1.trans hsw.2.1, hrec.2.2.trans hsw.2.2⟩

/-- The shuffle loop run on a list of random values that is made of pairs of
values for two different positions performs exactly those swaps. -/
theorem ShuffleDeck_loop_pairs :
    ∀ (pairs : List (Nat × Nat)) (deck : Deck) (rest : List Nat),
      (∀ pq ∈ pairs, pq.1 % CARD_TOT ≠ pq.2 % CARD_TOT) →
      ShuffleDeck.loop pairs.length deck (pairs.flatMap (fun pq => [pq.1, pq.2]) ++ rest)
        = some (pairs.foldl
            (fun dk pq => ShuffleDeck.swap dk (pq.1 % CARD_TOT) (pq.2 % CARD_TOT)) deck, rest) := by
  intro pairs
  induction pairs with
  | nil => intro deck rest _; rfl
  | cons pq pairs ih =>
    intro deck rest hne
    have h0 : pq.1 % CARD_TOT ≠ pq.2 % CARD_TOT := hne pq (List.mem_cons_self _ _)
    simp only [List.length_cons, List.flatMap_cons, List.cons_append, List.nil_append,
      ShuffleDeck.loop, ShuffleDeck.second, if_neg h0, List.foldl_cons]
    exact ih _ rest (fun x hx => hne x (List.mem_cons_of_mem _ hx))

/-- C9. `ShuffleDeck` preserves the contents of the deck, for every swap count
and every sequence of random values.  Whenever the call comes back, the cards
are a rearrangement of the cards before (so there are still 52 of them and
distinct ids stay distinct) and the record of drawn ids is untouched.  A count
of zero or less changes nothing and reads no random value.  The second position
of every swap differs from the first.  The call does come back when the random
values are, pair after pair, values for two different positions: it then has
performed exactly those swaps. -/
theorem ShuffleDeck_preserves_contents (d : Deck) (hc : d.cards.length = CARD_TOT)
    (shuffles : Int) (rs : List Nat) :
    (∀ d1 rs1, ShuffleDeck d shuffles rs = some (d1, rs1) →
        d1.cards.Perm d.cards
        ∧ d1.cards.length = CARD_TOT
        ∧ ((d.cards.map (fun c => c.id)).Nodup → (d1.cards.map (fun c => c.id)).Nodup)
        ∧ d1.drawnCardsIDs = d.drawnCardsIDs
        ∧ d1.nextDrawnCardsIndex = d.nextDrawnCardsIndex)
    ∧ (shuffles ≤ 0 → ShuffleDeck d shuffles rs = some (d, rs))
    ∧ (∀ i1 rs0 i2 rs2, ShuffleDeck.second i1 rs0 = some (i2, rs2) → i2 ≠ i1 ∧ i2 < CARD_TOT)
    ∧ (∀ (pairs : List (Nat × Nat)) (rest : List Nat),
        (pairs.length : Int) = shuffles →
        (∀ pq ∈ pairs, pq.1 % CARD_TOT ≠ pq.2 % CARD_TOT) →
        ShuffleDeck d shuffles (pairs.flatMap (fun pq => [pq.1, pq.2]) ++ rest)
          = some (pairs.foldl
              (fun dk pq => ShuffleDeck.swap dk (pq.1 % CARD_TOT) (pq.2 % CARD_TOT)) d, rest)) := by
  refine ⟨?_, ?_, ?_, ?_⟩
  · intro d1 rs1 h
    have hp := ShuffleDeck_loop_perm shuffles.toNat d rs d1 rs1 hc h
    refine ⟨hp.1, ?_, ?_, hp.2.1, hp.2.2⟩
    · rw [hp.1.length_eq, hc]
    · intro hnd
      exact ((hp.1.map (fun c => c.id)).nodup_iff).mpr hnd
  · intro hle
    have h0 : shuffles.toNat = 0 := Int.toNat_eq_zero.mpr hle
    simp [ShuffleDeck, h0, ShuffleDeck.loop]
  · intro i1 rs0 i2 rs2 h
    exact ShuffleDeck_second_spec i1 rs0 i2 rs2 h
  · intro pairs rest hlen hne
    have hk : shuffles.toNat = pairs.length := by omega
    unfold ShuffleDeck
    rw [hk]
    exact ShuffleDeck_loop_pairs pairs d rest hne

set_option maxRecDepth 100000 in
/-- C9, at a deck: two swaps of the freshly built deck, the second position of
the first swap found at the second try. -/
theorem ShuffleDeck_preserves_contents_witness :
    (MakeDeck rawDeck).cards.length = CARD_TOT
    ∧ ∃ d1, ShuffleDeck (MakeDeck rawDeck) 2 [3, 55, 40, 17, 5, 8] = some (d1, [8])
        ∧ d1.cards ≠ (MakeDeck rawDeck).cards
        ∧ d1.cards.Perm (MakeDeck rawDeck).cards
        ∧ (d1.cards.map (fun c => c.id)).Nodup := by
  have hrun : ShuffleDeck (MakeDeck rawDeck) 2 [3, 55, 40, 17, 5, 8]
      = some (ShuffleDeck.swap (ShuffleDeck.swap (MakeDeck rawDeck) 3 40) 17 5, [8]) := by
    decide
  have h := (ShuffleDeck_preserves_contents (MakeDeck rawDeck) (by decide) 2
    [3, 55, 40, 17, 5, 8]).1 _ _ hrun
  exact ⟨by decide, _, hrun, by decide, h.1, h.2.2.1 (by decide)⟩

/-! ## Drawing without repetition -/

/-- A store at the counter extends the part of the list below the counter by the
stored element. -/
theorem take_succ_wr {α : Type} (a : List α) (i : Nat) (x dflt : α) (h : i ≤ a.length) :
    (wr a i x dflt).take (i + 1) = a.take i ++ [x] := by
  unfold wr
  split_ifs with hlt
  · rw [List.take_succ]
    have h1 : List.take i (a.set i x) = List.take i a := by
      rw [List.set_take]
      exact List.set_eq_of_length_le (by simp)
    simp [List.getElem?_set, hlt, h1]
  · have he : i = a.length := by omega
    subst he
    simp

/-- After a store the list reaches past the index stored at, and is not shorter
than before. -/
theorem length_wr {α : Type} (a : List α) (i : Nat) (x dflt : α) :
    i + 1 ≤ (wr a i x dflt).length ∧ a.length ≤ (wr a i x dflt).length := by
  unfold wr
  split_ifs with hlt
  · simp; omega
  · simp; omega

/-- A read below the counter returns an element of the part of the list below
the counter. -/
theorem rd_of_lt_take {α : Type} (a : List α) (n i : Nat) (dflt : α) (hi : i < n)
    (hn : n ≤ a.length) : rd a i dflt ∈ a.take n := by
  rw [List.mem_take_iff_getElem]
  refine ⟨i, by simp; omega, ?_⟩
  simp [rd, List.getD_eq_getElem?_getD, List.getElem?_eq_getElem (show i < a.length by omega)]

/-- A card that `IsCardAlreadyDrawn` does not find has an id that is not among
the recorded ids. -/
theorem not_mem_drawnIDs_of_not_drawn (c : Card) (d : Deck)
    (hn : d.nextDrawnCardsIndex ≤ d.drawnCardsIDs.length)
    (h : IsCardAlreadyDrawn c d = false) : c.id ∉ drawnIDs d := by
  intro hmem
  unfold drawnIDs at hmem
  rw [List.mem_take_iff_getElem] at hmem
  obtain ⟨i, hi, heq⟩ := hmem
  have hi1 : i < d.nextDrawnCardsIndex := by
    have := hi; simp at this; omega
  have hi2 : i < d.drawnCardsIDs.length := by omega
  unfold IsCardAlreadyDrawn at h
  rw [List.any_eq_false] at h
  have hi3 := h i (List.mem_range.mpr hi1)
  apply hi3
  simp [rd, List.getD_eq_getElem?_getD, List.getElem?_eq_getElem hi2, heq]

/-- A card that `IsCardAlreadyDrawn` finds has an id that is among the recorded
ids. -/
theorem mem_drawnIDs_of_drawn (c : Card) (d : Deck)
    (hn : d.nextDrawnCardsIndex ≤ d.drawnCardsIDs.length)
    (h : IsCardAlreadyDrawn c d = true) : c.id ∈ drawnIDs d := by
  unfold IsCardAlreadyDrawn at h
  rw [List.any_eq_true] at h
  obtain ⟨i, hi, heq⟩ := h
  have hi1 : i < d.nextDrawnCardsIndex := List.mem_range.mp hi
  have heq1 : c.id = rd d.drawnCardsIDs i 0 := by simpa using heq
  rw [heq1]
  exact rd_of_lt_take _ _ _ _ hi1 hn

/-- The card the drawing loop ends with is a card of the deck that
`IsCardAlreadyDrawn` does not find. -/
theorem drawUntilNew_spec (d : Deck) (hc : d.cards.length = CARD_TOT) :
    ∀ (rs : List Nat) (c : Card) (rs1 : List Nat),
      drawUntilNew d rs = some (c, rs1) →
      IsCardAlreadyDrawn c d = false ∧ c ∈ d.cards := by
  intro rs
  induction rs with
  | nil => intro c rs1 h; simp [drawUntilNew] at h
  | cons r rs ih =>
    intro c rs1 h
    unfold drawUntilNew at h
    simp only at h
    split_ifs at h with hdrawn
    · exact ih c rs1 h
    · simp only [Option.some.injEq, Prod.mk.injEq] at h
      rw [← h.1]
      refine ⟨by simpa using hdrawn, ?_⟩
      have hlt : r % CARD_TOT < d.cards.length := by
        rw [hc]; exact Nat.mod_lt _ (by decide)
      have := rd_of_lt_take d.cards d.cards.length (r % CARD_TOT) blankCard hlt (le_refl _)
      simpa using this

/-- The drawing loop ends as soon as the random values lead to a card that is
not drawn yet. -/
theorem drawUntilNew_isSome (d : Deck) :
    ∀ (rs : List Nat),
      (∃ r ∈ rs, IsCardAlreadyDrawn (rd d.cards (r % CARD_TOT) blankCard) d = false) →
      (drawUntilNew d rs).isSome = true := by
  intro rs
  induction rs with
  | nil => intro h; obtain ⟨r, hr, _⟩ := h; simp at hr
  | cons r0 rs ih =>
    intro h
    unfold drawUntilNew
    simp only
    split_ifs with hdrawn
    · apply ih
      obtain ⟨r, hr, hfresh⟩ := h
      rcases List.mem_cons.mp hr with h1 | h1
      · rw [h1] at hfresh
        rw [hfresh] at hdrawn
        exact absurd hdrawn (by simp)
      · exact ⟨r, h1, hfresh⟩
    · rfl

/-- The card is appended to the cards held by `UpdateDrawCards`. -/
theorem heldCards_UpdateDrawCards (p : Participant) (d : Deck) (c : Card)
    (hp : p.nextHandCardsIndex ≤ p.cards.length) :
    heldCards (UpdateDrawCards p d c).1 = heldCards p ++ [c]
    ∧ (UpdateDrawCards p d c).1.nextHandCardsIndex ≤ (UpdateDrawCards p d c).1.cards.length := by
  constructor
  · exact take_succ_wr p.cards p.nextHandCardsIndex c blankCard hp
  · exact (length_wr p.cards p.nextHandCardsIndex c blankCard).1

/-- The id of the card is appended to the recorded ids by `UpdateDrawCards`,
which leaves the cards of the deck alone. -/
theorem drawnIDs_UpdateDrawCards (p : Participant) (d : Deck) (c : Card)
    (hd : d.nextDrawnCardsIndex ≤ d.drawnCardsIDs.length) :
    drawnIDs (UpdateDrawCards p d c).2 = drawnIDs d ++ [c.id]
    ∧ (UpdateDrawCards p d c).2.nextDrawnCardsIndex ≤ (UpdateDrawCards p d c).2.drawnCardsIDs.length
    ∧ (UpdateDrawCards p d c).2.nextDrawnCardsIndex = d.nextDrawnCardsIndex + 1
    ∧ (UpdateDrawCards p d c).2.cards = d.cards := by
  refine ⟨?_, ?_, rfl, rfl⟩
  · exact take_succ_wr d.drawnCardsIDs d.nextDrawnCardsIndex c.id 0 hd
  · exact (length_wr d.drawnCardsIDs d.nextDrawnCardsIndex c.id 0).1

/-- Handing a card of the deck that is not drawn yet to either participant keeps
the table in order, with one more card handed out. -/
theorem handOver_inv (t : Table) (n : Nat) (who : PlayerType) (c : Card) (rs1 : List Nat)
    (hinv : DrawInv t n) (hfresh : IsCardAlreadyDrawn c t.theDeck = false)
    (hmem : c ∈ t.theDeck.cards) :
    DrawInv (t.put who ((UpdateDrawCards (t.get who) t.theDeck c).1,
      (UpdateDrawCards (t.get who) t.theDeck c).2, rs1)) (n + 1) := by
  obtain ⟨hp, hdl, hk, hc, hn, hnd, hperm, hsub⟩ := hinv
  have hnew : c.id ∉ drawnIDs t.theDeck := not_mem_drawnIDs_of_not_drawn c t.theDeck hk hfresh
  have hnd1 : (drawnIDs t.theDeck ++ [c.id]).Nodup := by
    rw [List.nodup_append]
    refine ⟨hnd, List.nodup_singleton _, ?_⟩
    intro x hx hx1
    rw [List.mem_singleton] at hx1
    rw [hx1] at hx
    exact hnew hx
  have hsub1 : ∀ x ∈ drawnIDs t.theDeck ++ [c.id], x ∈ t.theDeck.cards.map (fun c => c.id) := by
    intro x hx
    rcases List.mem_append.mp hx with h1 | h1
    · exact hsub x h1
    · rw [List.mem_singleton] at h1
      rw [h1]
      exact List.mem_map_of_mem _ hmem
  cases who with
  | PLAYER =>
    obtain ⟨hh1, hh2⟩ := heldCards_UpdateDrawCards t.player t.theDeck c hp
    obtain ⟨hd1, hd2, hd3, hd4⟩ := drawnIDs_UpdateDrawCards t.player t.theDeck c hk
    refine ⟨hh2, hdl, hd2, ?_, ?_, ?_, ?_, ?_⟩
    · show (UpdateDrawCards t.player t.theDeck c).2.cards.length = CARD_TOT
      rw [hd4]; exact hc
    · show (UpdateDrawCards t.player t.theDeck c).2.nextDrawnCardsIndex = n + 1
      rw [hd3, hn]
    · show (drawnIDs (UpdateDrawCards t.player t.theDeck c).2).Nodup
      rw [hd1]; exact hnd1
    · show ((heldCards (UpdateDrawCards t.player t.theDeck c).1 ++ heldCards t.dealer).map
          (fun c => c.id)).Perm (drawnIDs (UpdateDrawCards t.player t.theDeck c).2)
      rw [hd1, hh1]
      simp only [List.map_append, List.map_cons, List.map_nil, List.append_assoc]
      refine List.Perm.trans (List.Perm.append_left _ List.perm_append_comm) ?_
      rw [← List.append_assoc]
      rw [List.map_append] at hperm
      exact List.Perm.append_right _ hperm
    · show ∀ x ∈ drawnIDs (UpdateDrawCards t.player t.theDeck c).2,
          x ∈ (UpdateDrawCards t.player t.theDeck c).2.cards.map (fun c => c.id)
      rw [hd1, hd4]; exact hsub1
  | DEALER =>
    obtain ⟨hh1, hh2⟩ := heldCards_UpdateDrawCards t.dealer t.theDeck c hdl
    obtain ⟨hd1, hd2, hd3, hd4⟩ := drawnIDs_UpdateDrawCards t.dealer t.theDeck c hk
    refine ⟨hp, hh2, hd2, ?_, ?_, ?_, ?_, ?_⟩
    · show (UpdateDrawCards t.dealer t.theDeck c).2.cards.length = CARD_TOT
      rw [hd4]; exact hc
    · show (UpdateDrawCards t.dealer t.theDeck c).2.nextDrawnCardsIndex = n + 1
      rw [hd3, hn]
    · show (drawnIDs (UpdateDrawCards t.dealer t.theDeck c).2).Nodup
      rw [hd1]; exact hnd1
    · show ((heldCards t.player ++ heldCards (UpdateDrawCards t.dealer t.theDeck c).1).map
          (fun c => c.id)).Perm (drawnIDs (UpdateDrawCards t.dealer t.theDeck c).2)
      rw [hd1, hh1, ← List.append_assoc, List.map_append]
      exact List.Perm.append_right _ hperm
    · show ∀ x ∈ drawnIDs (UpdateDrawCards t.dealer t.theDeck c).2,
          x ∈ (UpdateDrawCards t.dealer t.theDeck c).2.cards.map (fun c => c.id)
      rw [hd1, hd4]; exact hsub1

/-- After a call for `who` the table holds what the call returned. -/
theorem Table.get_put (t : Table) (who : PlayerType) (p : Participant) (d : Deck)
    (rs : List Nat) :
    (t.put who (p, d, rs)).get who = p ∧ (t.put who (p, d, rs)).theDeck = d
      ∧ (t.put who (p, d, rs)).rs = rs := by
  cases who <;> exact ⟨rfl, rfl, rfl⟩

/-- Of two calls in a row for the same participant the later result stays. -/
theorem Table.put_put (t : Table) (who : PlayerType) (r r1 : Participant × Deck × List Nat) :
    (t.put who r).put who r1 = t.put who r1 := by
  cases who <;> rfl

/-- The counter of the participant a call is for is inside the stored list. -/
theorem DrawInv.get_le {t : Table} {n : Nat} (hinv : DrawInv t n) (who : PlayerType) :
    (t.get who).nextHandCardsIndex ≤ (t.get who).cards.length := by
  cases who
  · exact hinv.1
  · exact hinv.2.1

/-- What one `DrawCard` call hands out: a card whose id is not among the ids
recorded so far; the card is appended to the hand and its id to the record. -/
theorem DrawCard_fresh (p : Participant) (d : Deck) (rs : List Nat)
    (p2 : Participant) (d2 : Deck) (rs3 : List Nat)
    (hp : p.nextHandCardsIndex ≤ p.cards.length)
    (hd : d.nextDrawnCardsIndex ≤ d.drawnCardsIDs.length)
    (hc : d.cards.length = CARD_TOT)
    (h : DrawCard p d rs = some (p2, d2, rs3)) :
    ∃ c, c.id ∉ drawnIDs d
      ∧ heldCards p2 = heldCards p ++ [c]
      ∧ drawnIDs d2 = drawnIDs d ++ [c.id]
      ∧ d2.nextDrawnCardsIndex = d.nextDrawnCardsIndex + 1 := by
  unfold DrawCard at h
  cases hdraw : drawUntilNew d rs with
  | none => rw [hdraw] at h; simp at h
  | some x =>
    obtain ⟨c, rs1⟩ := x
    rw [hdraw] at h
    simp only [Option.some.injEq, Prod.mk.injEq] at h
    obtain ⟨h1, h2, _⟩ := h
    have hspec := drawUntilNew_spec d hc rs c rs1 hdraw
    refine ⟨c, not_mem_drawnIDs_of_not_drawn c d hd hspec.1, ?_, ?_, ?_⟩
    · rw [← h1]; exact (heldCards_UpdateDrawCards p d c hp).1
    · rw [← h2]; exact (drawnIDs_UpdateDrawCards p d c hd).1
    · rw [← h2]; rfl

/-- What one `GiveHand` call hands out: two cards, the id of the first not among
the ids recorded so far, the id of the second not among those and the first. -/
theorem GiveHand_fresh (p : Participant) (d : Deck) (rs : List Nat)
    (p2 : Participant) (d2 : Deck) (rs3 : List Nat)
    (hp : p.nextHandCardsIndex ≤ p.cards.length)
    (hd : d.nextDrawnCardsIndex ≤ d.drawnCardsIDs.length)
    (hc : d.cards.length = CARD_TOT)
    (h : GiveHand p d rs = some (p2, d2, rs3)) :
    ∃ c1 c2, c1.id ∉ drawnIDs d
      ∧ c2.id ∉ drawnIDs d ++ [c1.id]
      ∧ heldCards p2 = heldCards p ++ [c1, c2]
      ∧ drawnIDs d2 = drawnIDs d ++ [c1.id, c2.id]
      ∧ d2.nextDrawnCardsIndex = d.nextDrawnCardsIndex + 2 := by
  unfold GiveHand at h
  simp only [GiveHand.loop] at h
  cases hdraw : drawUntilNew d rs with
  | none => rw [hdraw] at h; simp at h
  | some x =>
    obtain ⟨c1, rs1⟩ := x
    rw [hdraw] at h
    simp only at h
    have hspec1 := drawUntilNew_spec d hc rs c1 rs1 hdraw
    obtain ⟨hh1, hh2⟩ := heldCards_UpdateDrawCards p d c1 hp
    obtain ⟨hd1, hd2, hd3, hd4⟩ := drawnIDs_UpdateDrawCards p d c1 hd
    cases hdraw2 : drawUntilNew (UpdateDrawCards p d c1).2 rs1 with
    | none => rw [hdraw2] at h; simp at h
    | some y =>
      obtain ⟨c2, rs2⟩ := y
      rw [hdraw2] at h
      simp only [Option.some.injEq, Prod.mk.injEq] at h
      obtain ⟨h1, h2, _⟩ := h
      have hspec2 := drawUntilNew_spec (UpdateDrawCards p d c1).2 (by rw [hd4]; exact hc)
        rs1 c2 rs2 hdraw2
      have hnew2 := not_mem_drawnIDs_of_not_drawn c2 _ hd2 hspec2.1
      rw [hd1] at hnew2
      refine ⟨c1, c2, not_mem_drawnIDs_of_not_drawn c1 d hd hspec1.1, hnew2, ?_, ?_, ?_⟩
      · rw [← h1, (heldCards_UpdateDrawCards _ _ c2 hh2).1, hh1]
        simp
      · rw [← h2, (drawnIDs_UpdateDrawCards _ _ c2 hd2).1, hd1]
        simp
      · rw [← h2, (drawnIDs_UpdateDrawCards _ _ c2 hd2).2.2.1, hd3]

/-- One drawing call keeps the table in order and adds the cards it hands out
to the count. -/
theorem runCall_inv (t t1 : Table) (n : Nat) (call : DrawCall)
    (hinv : DrawInv t n) (h : runCall t call = some t1) :
    DrawInv t1 (n + call.handedOut) := by
  cases call with
  | draw who =>
    simp only [runCall, DrawCard] at h
    cases hdraw : drawUntilNew t.theDeck t.rs with
    | none => rw [hdraw] at h; simp at h
    | some x =>
      obtain ⟨c, rs1⟩ := x
      rw [hdraw] at h
      simp only [Option.map_some', Option.some.injEq] at h
      have hspec := drawUntilNew_spec t.theDeck hinv.2.2.2.1 t.rs c rs1 hdraw
      rw [← h]
      exact handOver_inv t n who c rs1 hinv hspec.1 hspec.2
  | give who =>
    simp only [runCall, GiveHand, GiveHand.loop] at h
    cases hdraw : drawUntilNew t.theDeck t.rs with
    | none => rw [hdraw] at h; simp at h
    | some x =>
      obtain ⟨c1, rs1⟩ := x
      rw [hdraw] at h
      simp only at h
      have hspec1 := drawUntilNew_spec t.theDeck hinv.2.2.2.1 t.rs c1 rs1 hdraw
      have hinv1 := handOver_inv t n who c1 rs1 hinv hspec1.1 hspec1.2
      cases hdraw2 : drawUntilNew (UpdateDrawCards (t.get who) t.theDeck c1).2 rs1 with
      | none => rw [hdraw2] at h; simp at h
      | some y =>
        obtain ⟨c2, rs2⟩ := y
        rw [hdraw2] at h
        simp only [Option.map_some', Option.some.injEq] at h
        obtain ⟨hg1, hg2, _⟩ := Table.get_put t who
          (UpdateDrawCards (t.get who) t.theDeck c1).1
          (UpdateDrawCards (t.get who) t.theDeck c1).2 rs1
        have hspec2 := drawUntilNew_spec _ (by rw [← hg2]; exact hinv1.2.2.2.1) rs1 c2 rs2 hdraw2
        have hinv2 := handOver_inv _ (n + 1) who c2 rs2 hinv1
          (by rw [hg2]; exact hspec2.1) (by rw [hg2]; exact hspec2.2)
        rw [Table.put_put, hg1, hg2] at hinv2
        rw [← h]
        exact hinv2

/-- Any sequence of drawing calls keeps the table in order. -/
theorem runCalls_inv :
    ∀ (calls : List DrawCall) (t t1 : Table) (n : Nat),
      DrawInv t n → runCalls calls t = some t1 →
      DrawInv t1 (n + (calls.map DrawCall.handedOut).sum) := by
  intro calls
  induction calls with
  | nil =>
    intro t t1 n hinv h
    simp only [runCalls, Option.some.injEq] at h
    rw [← h]
    simpa using hinv
  | cons call calls ih =>
    intro t t1 n hinv h
    simp only [runCalls] at h
    cases hcall : runCall t call with
    | none => rw [hcall] at h; simp at h
    | some t2 =>
      rw [hcall] at h
      simp only at h
      have h2 := ih t2 t1 _ (runCall_inv t t2 n call hinv hcall) h
      simpa [Nat.add_assoc] using h2

set_option maxRecDepth 100000 in
/-- The deck `MakeDeck` builds has 52 cards and no card recorded as drawn. -/
theorem MakeDeck_length_next (d : Deck) (hc : d.cards.length = CARD_TOT)
    (hd : d.drawnCardsIDs.length = CARD_TOT) :
    (MakeDeck d).cards.length = CARD_TOT ∧ (MakeDeck d).nextDrawnCardsIndex = 0 := by
  rw [MakeDeck_eq_of_raw d hc hd]
  decide

/-- C5. Drawing never repeats a card within a round.  Start from the deck built
by `MakeDeck`, shuffled any number of times (zero or less included), and two
freshly reset participants, and make any sequence of `GiveHand` and `DrawCard`
calls for either of them, with any random values.  Whenever the calls come back,
with `k` the number of cards handed out: `nextDrawnCardsIndex = k`, exactly `k`
ids are recorded, they are pairwise distinct, `k` is at most 52, the recorded ids
are the ids of the cards in the two hands, and no card is in the two hands twice.
From there every further `DrawCard` or `GiveHand` call hands out cards whose ids
are not among the ids recorded before, appends the cards to the hand and their
ids to the record; and `DrawCard` does come back as soon as the random values
lead to a card that is not drawn yet. -/
theorem drawing_never_repeats (d0 : Deck) (hc : d0.cards.length = CARD_TOT)
    (hd : d0.drawnCardsIDs.length = CARD_TOT) (p0 q0 : Participant)
    (shuffles : Int) (rs0 : List Nat) (d1 : Deck) (rs1 : List Nat)
    (hsh : ShuffleDeck (MakeDeck d0) shuffles rs0 = some (d1, rs1))
    (calls : List DrawCall) (t : Table)
    (hrun : runCalls calls
      { player := InitParticipant PlayerType.PLAYER p0
        dealer := InitParticipant PlayerType.DEALER q0
        theDeck := d1, rs := rs1 } = some t) :
    t.theDeck.nextDrawnCardsIndex = (calls.map DrawCall.handedOut).sum
    ∧ (drawnIDs t.theDeck).length = (calls.map DrawCall.handedOut).sum
    ∧ (drawnIDs t.theDeck).Nodup
    ∧ t.theDeck.nextDrawnCardsIndex ≤ CARD_TOT
    ∧ ((heldCards t.player ++ heldCards t.dealer).map (fun c => c.id)).Perm (drawnIDs t.theDeck)
    ∧ (heldCards t.player ++ heldCards t.dealer).Nodup
    ∧ (∀ who rs2 p2 d2 rs3, DrawCard (t.get who) t.theDeck rs2 = some (p2, d2, rs3) →
        ∃ c, c.id ∉ drawnIDs t.theDeck
          ∧ heldCards p2 = heldCards (t.get who) ++ [c]
          ∧ drawnIDs d2 = drawnIDs t.theDeck ++ [c.id]
          ∧ d2.nextDrawnCardsIndex = t.theDeck.nextDrawnCardsIndex + 1)
    ∧ (∀ who rs2 p2 d2 rs3, GiveHand (t.get who) t.theDeck rs2 = some (p2, d2, rs3) →
        ∃ c1 c2, c1.id ∉ drawnIDs t.theDeck
          ∧ c2.id ∉ drawnIDs t.theDeck ++ [c1.id]
          ∧ heldCards p2 = heldCards (t.get who) ++ [c1, c2]
          ∧ drawnIDs d2 = drawnIDs t.theDeck ++ [c1.id, c2.id]
          ∧ d2.nextDrawnCardsIndex = t.theDeck.nextDrawnCardsIndex + 2)
    ∧ (∀ who rs2,
        (∃ r ∈ rs2, IsCardAlreadyDrawn (rd t.theDeck.cards (r % CARD_TOT) blankCard) t.theDeck
            = false) →
        (DrawCard (t.get who) t.theDeck rs2).isSome = true) := by
  have hbuilt := MakeDeck_length_next d0 hc hd
  have hshuf := ShuffleDeck_loop_perm shuffles.toNat (MakeDeck d0) rs0 d1 rs1 hbuilt.1 hsh
  have hnext : d1.nextDrawnCardsIndex = 0 := by rw [hshuf.2.2, hbuilt.2]
  have hlen1 : d1.cards.length = CARD_TOT := by rw [hshuf.1.length_eq, hbuilt.1]
  have hinv0 : DrawInv
      { player := InitParticipant PlayerType.PLAYER p0
        dealer := InitParticipant PlayerType.DEALER q0
        theDeck := d1, rs := rs1 } 0 := by
    refine ⟨Nat.zero_le _, Nat.zero_le _, ?_, hlen1, hnext, ?_, ?_, ?_⟩
    · show d1.nextDrawnCardsIndex ≤ d1.drawnCardsIDs.length
      rw [hnext]; exact Nat.zero_le _
    · show (drawnIDs d1).Nodup
      simp [drawnIDs, hnext]
    · show ((heldCards (InitParticipant PlayerType.PLAYER p0)
          ++ heldCards (InitParticipant PlayerType.DEALER q0)).map (fun c => c.id)).Perm (drawnIDs d1)
      simp [drawnIDs, hnext, heldCards, InitParticipant]
    · show ∀ x ∈ drawnIDs d1, x ∈ d1.cards.map (fun c => c.id)
      simp [drawnIDs, hnext]
  have hinv := runCalls_inv calls _ t 0 hinv0 hrun
  rw [Nat.zero_add] at hinv
  have hget := fun who => DrawInv.get_le hinv who
  obtain ⟨_, _, hk, hcards, hn, hnd, hperm, hsub⟩ := hinv
  have hlen : (drawnIDs t.theDeck).length = (calls.map DrawCall.handedOut).sum := by
    simp only [drawnIDs, List.length_take]
    omega
  have hle : (drawnIDs t.theDeck).length ≤ CARD_TOT := by
    have h1 := (List.subperm_of_subset hnd hsub).length_le
    simpa [hcards] using h1
  refine ⟨hn, hlen, hnd, ?_, hperm, ?_, ?_, ?_, ?_⟩
  · omega
  · exact List.Nodup.of_map _ ((hperm.nodup_iff).mpr hnd)
  · intro who rs2 p2 d2 rs3 h
    exact DrawCard_fresh _ _ rs2 p2 d2 rs3 (hget who) hk hcards h
  · intro who rs2 p2 d2 rs3 h
    exact GiveHand_fresh _ _ rs2 p2 d2 rs3 (hget who) hk hcards h
  · intro who rs2 hex
    have hsome := drawUntilNew_isSome t.theDeck rs2 hex
    unfold DrawCard
    cases hdraw : drawUntilNew t.theDeck rs2 with
    | none => rw [hdraw] at hsome; simp at hsome
    | some x => rfl

set_option maxRecDepth 100000 in
/-- C5, at a round: the deck is built and two pairs of positions are exchanged;
the player and the dealer get their two cards and one more card each, while the
random values point three times at position 7.  Six cards are handed out, six
different ids are recorded. -/
theorem drawing_never_repeats_witness :
    rawDeck.cards.length = CARD_TOT ∧ rawDeck.drawnCardsIDs.length = CARD_TOT
    ∧ ShuffleDeck (MakeDeck rawDeck) 2 ([3, 55, 40, 17, 5] ++ sampleTable.rs)
        = some (sampleTable.theDeck, sampleTable.rs)
    ∧ (runCalls sampleCalls sampleTable).isSome = true
    ∧ ((runCalls sampleCalls sampleTable).getD sampleTable).theDeck.nextDrawnCardsIndex = 6
    ∧ (drawnIDs ((runCalls sampleCalls sampleTable).getD sampleTable).theDeck).Nodup
    ∧ (heldCards ((runCalls sampleCalls sampleTable).getD sampleTable).player).length = 3
    ∧ (heldCards ((runCalls sampleCalls sampleTable).getD sampleTable).dealer).length = 3 := by
  have hsh : ShuffleDeck (MakeDeck rawDeck) 2 ([3, 55, 40, 17, 5] ++ sampleTable.rs)
      = some (sampleTable.theDeck, sampleTable.rs) := by decide
  have hrun : runCalls sampleCalls
      { player := InitParticipant PlayerType.PLAYER rawParticipant
        dealer := InitParticipant PlayerType.DEALER rawParticipant
        theDeck := sampleTable.theDeck, rs := sampleTable.rs }
      = some ((runCalls sampleCalls sampleTable).getD sampleTable) := by decide
  have h := drawing_never_repeats rawDeck (by decide) (by decide) rawParticipant rawParticipant
    2 _ _ _ hsh sampleCalls _ hrun
  exact ⟨by decide, by decide, hsh, by decide, h.1, h.2.2.1, by decide, by decide⟩

/-! ## The iteration budget of the dealer loop -/

/-- The drawing loop reads at least one random value. -/
theorem drawUntilNew_length_lt (d : Deck) :
    ∀ (rs : List Nat) (c : Card) (rs1 : List Nat),
      drawUntilNew d rs = some (c, rs1) → rs1.length < rs.length := by
  intro rs
  induction rs with
  | nil => intro c rs1 h; simp [drawUntilNew] at h
  | cons r rs ih =>
    intro c rs1 h
    unfold drawUntilNew at h
    simp only at h
    split_ifs at h
    · have := ih c rs1 h
      simp only [List.length_cons]
      omega
    · simp only [Option.some.injEq, Prod.mk.injEq] at h
      rw [← h.2]
      simp

/-- An iteration of the dealer loop that goes round again has read at least one
random value. -/
theorem dealerIter_again_length_lt (dealer : Participant) (theDeck : Deck) (rs : List Nat)
    (p : Participant) (d : Deck) (rs1 : List Nat)
    (h : dealerIter dealer theDeck rs = some (Iter.again (p, d, rs1))) :
    rs1.length < rs.length := by
  unfold dealerIter DrawCard at h
  simp only at h
  split_ifs at h with hstop
  · simp at h
  · cases hdraw : drawUntilNew theDeck rs with
    | none => rw [hdraw] at h; simp at h
    | some x =>
      obtain ⟨c, rs2⟩ := x
      rw [hdraw] at h
      simp only at h
      split_ifs at h
      · simp at h
      · simp only [Option.some.injEq, Iter.again.injEq, Prod.mk.injEq] at h
        rw [← h.2.2]
        exact drawUntilNew_length_lt theDeck rs c rs2 hdraw

/-- The dealer loop gives the same result for every iteration budget above the
number of unread random values: the budget `playRound` passes never cuts a round
short. -/
theorem dealerLoop_fuel_irrelevant :
    ∀ (fuel1 fuel2 : Nat) (dealer : Participant) (theDeck : Deck) (rs : List Nat),
      rs.length < fuel1 → rs.length < fuel2 →
      dealerLoop fuel1 dealer theDeck rs = dealerLoop fuel2 dealer theDeck rs := by
  intro fuel1
  induction fuel1 with
  | zero => intro fuel2 dealer theDeck rs h1; omega
  | succ a ih =>
    intro fuel2 dealer theDeck rs h1 h2
    cases fuel2 with
    | zero => omega
    | succ b =>
      simp only [dealerLoop]
      cases hit : dealerIter dealer theDeck rs with
      | none => rfl
      | some it =>
        cases it with
        | brk s => rfl
        | again s =>
          obtain ⟨p, d, rs1⟩ := s
          have hlt := dealerIter_again_length_lt dealer theDeck rs p d rs1 hit
          exact ih b p d rs1 (by omega) (by omega)

/-! ## The phases of a round -/

/-- A round of `main` is its three parts one after the other, followed by the
announcement of the winner. -/
theorem playRound_phases (dealer player : Participant) (theDeck : Deck) (rs : List Nat)
    (answers : List Bool) :
    playRound dealer player theDeck rs answers
      = match dealPhase dealer player theDeck rs with
        | none => none
        | some t =>
          match playerPhase t answers with
          | none => none
          | some (t1, answers1) =>
            match dealerPhase t1 with
            | none => none
            | some t2 => some (resolve t2 answers1) := by
  unfold playRound dealPhase
  simp only [Option.bind_eq_bind, Option.pure_def]
  cases h1 : ShuffleDeck (MakeDeck theDeck) 40 rs with
  | none => rfl
  | some x1 =>
    obtain ⟨dk1, rs1⟩ := x1
    simp only [Option.some_bind]
    cases h2 : GiveHand (InitParticipant PlayerType.PLAYER player) dk1 rs1 with
    | none => rfl
    | some x2 =>
      obtain ⟨p2, dk2, rs2⟩ := x2
      simp only [Option.some_bind]
      cases h3 : GiveHand (InitParticipant PlayerType.DEALER dealer) dk2 rs2 with
      | none => rfl
      | some x3 =>
        obtain ⟨d3, dk3, rs3⟩ := x3
        simp only [Option.some_bind, playerPhase]
        by_cases hdone : (UpdateScore p2).isDone = true
        · simp only [hdone, Bool.not_true, Bool.false_eq_true, if_false, Option.some_bind,
            dealerPhase]
          by_cases hb : (UpdateScore p2).hasBusted = true
          · simp [hb, resolve]
          · simp only [hb, Bool.not_false, if_true]
            cases dealerLoop (rs3.length + 1) (UpdateScore d3) dk3 rs3 with
            | none => rfl
            | some x5 => rfl
        · simp only [hdone, Bool.not_false, if_true]
          cases playerLoop (UpdateScore p2) dk3 rs3 answers with
          | none => rfl
          | some x4 =>
            obtain ⟨p4, dk4, rs4, as4⟩ := x4
            simp only [Option.some_bind, dealerPhase]
            by_cases hb : p4.hasBusted = true
            · simp [hb, resolve]
            · simp only [hb, Bool.not_false, if_true]
              cases dealerLoop (rs4.length + 1) (UpdateScore d3) dk4 rs4 with
              | none => rfl
              | some x5 => rfl

/-! ## Drawing and the card array -/

/-- What `DrawCard` changes: the participant gets one more card, keeps its score
and flags; the deck keeps its cards. -/
theorem DrawCard_frame (p : Participant) (d : Deck) (rs : List Nat)
    (p1 : Participant) (d1 : Deck) (rs1 : List Nat)
    (h : DrawCard p d rs = some (p1, d1, rs1)) :
    d1.cards = d.cards
    ∧ p1.nextHandCardsIndex = p.nextHandCardsIndex + 1
    ∧ p1.isDone = p.isDone ∧ p1.hasBusted = p.hasBusted
    ∧ p1.totalScore = p.totalScore ∧ p1.hand = p.hand ∧ p1.type = p.type := by
  unfold DrawCard at h
  cases hdraw : drawUntilNew d rs with
  | none => rw [hdraw] at h; simp at h
  | some x =>
    rw [hdraw] at h
    simp only [Option.some.injEq, Prod.mk.injEq] at h
    obtain ⟨h1, h2, _⟩ := h
    rw [← h1, ← h2]
    exact ⟨rfl, rfl, rfl, rfl, rfl, rfl, rfl⟩

/-- What `GiveHand` changes: the participant gets two more cards, keeps its
score and flags; the deck keeps its cards. -/
theorem GiveHand_frame (p : Participant) (d : Deck) (rs : List Nat)
    (p1 : Participant) (d1 : Deck) (rs1 : List Nat)
    (h : GiveHand p d rs = some (p1, d1, rs1)) :
    d1.cards = d.cards
    ∧ p1.nextHandCardsIndex = p.nextHandCardsIndex + 2
    ∧ p1.isDone = p.isDone ∧ p1.hasBusted = p.hasBusted
    ∧ p1.totalScore = p.totalScore ∧ p1.hand = p.hand ∧ p1.type = p.type := by
  unfold GiveHand at h
  simp only [GiveHand.loop] at h
  cases hdraw : drawUntilNew d rs with
  | none => rw [hdraw] at h; simp at h
  | some x =>
    obtain ⟨c1, rs2⟩ := x
    rw [hdraw] at h
    simp only at h
    cases hdraw2 : drawUntilNew (UpdateDrawCards p d c1).2 rs2 with
    | none => rw [hdraw2] at h; simp at h
    | some y =>
      rw [hdraw2] at h
      simp only [Option.some.injEq, Prod.mk.injEq] at h
      obtain ⟨h1, h2, _⟩ := h
      rw [← h1, ← h2]
      exact ⟨rfl, rfl, rfl, rfl, rfl, rfl, rfl⟩

/-- C13. Drawing never changes the card array of the deck.  For every deck,
participant and sequence of random values, a `DrawCard` call and a `GiveHand`
call that come back leave `deck.cards` as it was, the same card at every one of
the 52 positions; of the three fields of the deck only `drawnCardsIDs` and
`nextDrawnCardsIndex` are written.  Both calls do come back when the random
values lead to cards that are not drawn yet. -/
theorem drawing_leaves_deck_cards (p : Participant) (d : Deck) (rs : List Nat) :
    (∀ p1 d1 rs1, DrawCard p d rs = some (p1, d1, rs1) →
        d1.cards = d.cards
        ∧ (∀ i < CARD_TOT, rd d1.cards i blankCard = rd d.cards i blankCard)
        ∧ d1 = { d with drawnCardsIDs := d1.drawnCardsIDs
                        nextDrawnCardsIndex := d1.nextDrawnCardsIndex })
    ∧ (∀ p1 d1 rs1, GiveHand p d rs = some (p1, d1, rs1) →
        d1.cards = d.cards
        ∧ (∀ i < CARD_TOT, rd d1.cards i blankCard = rd d.cards i blankCard)
        ∧ d1 = { d with drawnCardsIDs := d1.drawnCardsIDs
                        nextDrawnCardsIndex := d1.nextDrawnCardsIndex })
    ∧ ((∃ r ∈ rs, IsCardAlreadyDrawn (rd d.cards (r % CARD_TOT) blankCard) d = false) →
        (DrawCard p d rs).isSome = true) := by
  refine ⟨?_, ?_, ?_⟩
  · intro p1 d1 rs1 h
    have hc := (DrawCard_frame p d rs p1 d1 rs1 h).1
    refine ⟨hc, fun i _ => by rw [hc], ?_⟩
    cases d1
    simp only at hc
    simp [hc]
  · intro p1 d1 rs1 h
    have hc := (GiveHand_frame p d rs p1 d1 rs1 h).1
    refine ⟨hc, fun i _ => by rw [hc], ?_⟩
    cases d1
    simp only at hc
    simp [hc]
  · intro hex
    have hsome := drawUntilNew_isSome d rs hex
    unfold DrawCard
    cases hdraw : drawUntilNew d rs with
    | none => rw [hdraw] at hsome; simp at hsome
    | some x => rfl

set_option maxRecDepth 100000 in
/-- C13, at a deck: a card drawn from the shuffled deck `sampleTable.theDeck`
and a hand given from it leave its 52 cards where they were. -/
theorem drawing_leaves_deck_cards_witness :
    (∃ p1 d1 rs1, DrawCard sampleTable.player sampleTable.theDeck [7, 20] = some (p1, d1, rs1)
        ∧ d1.cards = sampleTable.theDeck.cards ∧ d1.nextDrawnCardsIndex = 1)
    ∧ (∃ p1 d1 rs1, GiveHand sampleTable.player sampleTable.theDeck [7, 7, 20] = some (p1, d1, rs1)
        ∧ d1.cards = sampleTable.theDeck.cards ∧ d1.nextDrawnCardsIndex = 2) := by
  have h1 : (DrawCard sampleTable.player sampleTable.theDeck [7, 20]).isSome = true := by decide
  have h2 : (GiveHand sampleTable.player sampleTable.theDeck [7, 7, 20]).isSome = true := by decide
  obtain ⟨x, hx⟩ := Option.isSome_iff_exists.mp h1
  obtain ⟨y, hy⟩ := Option.isSome_iff_exists.mp h2
  obtain ⟨p1, d1, rs1⟩ := x
  obtain ⟨p2, d2, rs2⟩ := y
  refine ⟨⟨p1, d1, rs1, hx,
      ((drawing_leaves_deck_cards sampleTable.player sampleTable.theDeck [7, 20]).1 p1 d1 rs1 hx).1, ?_⟩,
    ⟨p2, d2, rs2, hy,
      ((drawing_leaves_deck_cards sampleTable.player sampleTable.theDeck [7, 7, 20]).2.1 p2 d2 rs2 hy).1,
      ?_⟩⟩
  · have : (DrawCard sampleTable.player sampleTable.theDeck [7, 20]).map
        (fun r => r.2.1.nextDrawnCardsIndex) = some 1 := by decide
    rw [hx] at this
    simpa using this
  · have : (GiveHand sampleTable.player sampleTable.theDeck [7, 7, 20]).map
        (fun r => r.2.1.nextDrawnCardsIndex) = some 2 := by decide
    rw [hy] at this
    simpa using this

/-! ## What an evaluation writes -/

/-- The state `UpdateScore` leaves, whatever the flags were: the total is the sum
of the held values, plus 10 with a soft hand when an ace is held and that stays
at 21 or below; each flag is set when it was set before or when the new total
calls for it, and no flag is ever cleared. -/
theorem UpdateScore_eq (p : Participant) :
    UpdateScore p
      = { p with
          totalScore := handTotal (heldCards p)
          hand := handKind (heldCards p)
          hasBusted := p.hasBusted || decide (handTotal (heldCards p) > 21)
          isDone := p.isDone || decide (handTotal (heldCards p) = 21) } := by
  unfold handTotal handKind
  have hb : ((p.cards.take p.nextHandCardsIndex).map (fun c => c.value)).sum
      = baseSum (heldCards p) := rfl
  have ha : (p.cards.take p.nextHandCardsIndex).any (fun c => decide (c.value = 1))
      = holdsAce (heldCards p) := rfl
  simp only [UpdateScore, scoreLoop_eq, Score.BLACKJACK, hb, ha]
  cases holdsAce (heldCards p) with
  | false =>
    simp only [Bool.not_false, if_true, Bool.false_eq_true, false_and, if_false]
    by_cases h1 : baseSum (heldCards p) > 21
    · have h2 : ¬ baseSum (heldCards p) = 21 := by omega
      simp [h1, h2]
    · by_cases h2 : baseSum (heldCards p) = 21
      · simp [h2]
      · simp [h1, h2]
  | true =>
    simp only [Bool.not_true, Bool.false_eq_true, if_false, true_and]
    by_cases h0 : baseSum (heldCards p) + 10 > 21
    · have h0n : ¬ baseSum (heldCards p) + 10 ≤ 21 := by omega
      simp only [h0, h0n, if_true, if_false]
      by_cases h1 : baseSum (heldCards p) > 21
      · have h2 : ¬ baseSum (heldCards p) = 21 := by omega
        simp [h1, h2]
      · by_cases h2 : baseSum (heldCards p) = 21
        · simp [h2]
        · simp [h1, h2]
    · have h0n : baseSum (heldCards p) + 10 ≤ 21 := by omega
      simp only [h0, h0n, if_true, if_false]
      by_cases h2 : baseSum (heldCards p) + 10 = 21
      · simp [h2]
      · simp [h0, h2]

/-- The fields of the state `UpdateScore` leaves, one by one. -/
theorem UpdateScore_fields (p : Participant) :
    (UpdateScore p).totalScore = handTotal (heldCards p)
    ∧ (UpdateScore p).hand = handKind (heldCards p)
    ∧ (UpdateScore p).hasBusted = (p.hasBusted || decide (handTotal (heldCards p) > 21))
    ∧ (UpdateScore p).isDone = (p.isDone || decide (handTotal (heldCards p) = 21))
    ∧ (UpdateScore p).cards = p.cards
    ∧ (UpdateScore p).nextHandCardsIndex = p.nextHandCardsIndex
    ∧ (UpdateScore p).type = p.type
    ∧ heldCards (UpdateScore p) = heldCards p := by
  rw [UpdateScore_eq p]
  exact ⟨rfl, rfl, rfl, rfl, rfl, rfl, rfl, rfl⟩

/-- What the deal leaves: both participants hold two cards, have just been
evaluated from clear flags, and the deck has four ids recorded more than the
shuffled deck. -/
theorem dealPhase_spec (dealer player : Participant) (theDeck : Deck) (rs : List Nat)
    (t : Table) (h : dealPhase dealer player theDeck rs = some t) :
    ∃ (dk1 : Deck) (rs1 : List Nat) (p2 : Participant) (dk2 : Deck) (rs2 : List Nat)
      (d3 : Participant),
      ShuffleDeck (MakeDeck theDeck) 40 rs = some (dk1, rs1)
      ∧ GiveHand (InitParticipant PlayerType.PLAYER player) dk1 rs1 = some (p2, dk2, rs2)
      ∧ GiveHand (InitParticipant PlayerType.DEALER dealer) dk2 rs2 = some (d3, t.theDeck, t.rs)
      ∧ t.player = UpdateScore p2 ∧ t.dealer = UpdateScore d3
      ∧ p2.nextHandCardsIndex = 2 ∧ p2.isDone = false ∧ p2.hasBusted = false
      ∧ d3.nextHandCardsIndex = 2 ∧ d3.isDone = false ∧ d3.hasBusted = false := by
  unfold dealPhase at h
  simp only [Option.bind_eq_bind, Option.pure_def] at h
  cases h1 : ShuffleDeck (MakeDeck theDeck) 40 rs with
  | none => rw [h1] at h; simp at h
  | some x1 =>
    obtain ⟨dk1, rs1⟩ := x1
    rw [h1] at h
    simp only [Option.some_bind] at h
    cases h2 : GiveHand (InitParticipant PlayerType.PLAYER player) dk1 rs1 with
    | none => rw [h2] at h; simp at h
    | some x2 =>
      obtain ⟨p2, dk2, rs2⟩ := x2
      rw [h2] at h
      simp only [Option.some_bind] at h
      cases h3 : GiveHand (InitParticipant PlayerType.DEALER dealer) dk2 rs2 with
      | none => rw [h3] at h; simp at h
      | some x3 =>
        obtain ⟨d3, dk3, rs3⟩ := x3
        rw [h3] at h
        simp only [Option.some_bind, Option.some.injEq] at h
        have hp := GiveHand_frame _ _ _ _ _ _ h2
        have hd := GiveHand_frame _ _ _ _ _ _ h3
        refine ⟨dk1, rs1, p2, dk2, rs2, d3, rfl, h2, ?_, ?_, ?_, ?_, ?_, ?_, ?_, ?_, ?_⟩
        · rw [← h]; exact h3
        · rw [← h]
        · rw [← h]
        · rw [hp.2.1]; rfl
        · rw [hp.2.2.1]; rfl
        · rw [hp.2.2.2.1]; rfl
        · rw [hd.2.1]; rfl
        · rw [hd.2.2.1]; rfl
        · rw [hd.2.2.2.1]; rfl

/-- The dealer phase does not touch the player. -/
theorem dealerPhase_player (t t2 : Table) (h : dealerPhase t = some t2) :
    t2.player = t.player := by
  unfold dealerPhase at h
  split_ifs at h
  · split at h
    · exact absurd h (by simp)
    · simp only [Option.some.injEq] at h
      rw [← h]
  · simp only [Option.some.injEq] at h
    rw [← h]

/-- The player phase does not touch the dealer. -/
theorem playerPhase_dealer (t t1 : Table) (answers answers1 : List Bool)
    (h : playerPhase t answers = some (t1, answers1)) : t1.dealer = t.dealer := by
  unfold playerPhase at h
  split_ifs at h
  · split at h
    · exact absurd h (by simp)
    · simp only [Option.some.injEq, Prod.mk.injEq] at h
      rw [← h.1]
  · simp only [Option.some.injEq, Prod.mk.injEq] at h
    rw [← h.1]

/-- C11. The dealer turn is entered only if the player has not busted.  In every
round that ends with the player busted, the dealer phase leaves the table as the
player turn left it: the dealer at the end of the round is the dealer right
after the deal, holding two cards, with the total and the hand type evaluated
from those two cards; the deck, and with it the record of drawn ids, is the deck
at the end of the player turn, and no random value is read after the player
turn. -/
theorem dealer_turn_skipped_when_player_busted (dealer player : Participant) (theDeck : Deck)
    (rs : List Nat) (answers : List Bool) (e : RoundEnd)
    (h : playRound dealer player theDeck rs answers = some e)
    (hb : e.player.hasBusted = true) :
    ∃ t t1, dealPhase dealer player theDeck rs = some t
      ∧ playerPhase t answers = some (t1, e.answers)
      ∧ dealerPhase t1 = some t1
      ∧ e.player = t1.player
      ∧ e.dealer = t.dealer
      ∧ e.dealer.nextHandCardsIndex = 2
      ∧ e.dealer.totalScore = handTotal (heldCards e.dealer)
      ∧ e.dealer.hand = handKind (heldCards e.dealer)
      ∧ e.theDeck = t1.theDeck
      ∧ drawnIDs e.theDeck = drawnIDs t1.theDeck
      ∧ e.rs = t1.rs := by
  rw [playRound_phases] at h
  cases hdeal : dealPhase dealer player theDeck rs with
  | none => rw [hdeal] at h; simp at h
  | some t =>
    rw [hdeal] at h
    simp only at h
    cases hplay : playerPhase t answers with
    | none => rw [hplay] at h; simp at h
    | some x =>
      obtain ⟨t1, answers1⟩ := x
      rw [hplay] at h
      simp only at h
      cases hdl : dealerPhase t1 with
      | none => rw [hdl] at h; simp at h
      | some t2 =>
        rw [hdl] at h
        simp only [Option.some.injEq] at h
        have hpl : t2.player = t1.player := dealerPhase_player t1 t2 hdl
        have hbust : t1.player.hasBusted = true := by
          rw [← hpl]; rw [← h] at hb; exact hb
        have hskip : dealerPhase t1 = some t1 := by
          unfold dealerPhase
          simp [hbust]
        have h21 : t2 = t1 := by
          rw [hskip] at hdl
          exact (Option.some.inj hdl).symm
        have hdealer : t1.dealer = t.dealer := playerPhase_dealer t t1 answers answers1 hplay
        obtain ⟨_, _, _, _, _, d3, _, _, _, _, hd3, _, _, _, hd3n, _, _⟩ :=
          dealPhase_spec dealer player theDeck rs t hdeal
        have hf := UpdateScore_fields d3
        rw [← h, h21]
        refine ⟨t, t1, rfl, hplay, hskip, rfl, hdealer, ?_, ?_, ?_, rfl, rfl, rfl⟩
        · show t1.dealer.nextHandCardsIndex = 2
          rw [hdealer, hd3, hf.2.2.2.2.2.1, hd3n]
        · show t1.dealer.totalScore = handTotal (heldCards t1.dealer)
          rw [hdealer, hd3, hf.1, hf.2.2.2.2.2.2.2]
        · show t1.dealer.hand = handKind (heldCards t1.dealer)
          rw [hdealer, hd3, hf.2.1, hf.2.2.2.2.2.2.2]

set_option maxRecDepth 100000 in
/-- C11, at a round: the player is dealt two tens, hits and gets a nine; the
dealer ends the round on the five and the six of the deal, worth 11, below the
17 at which a dealer turn would have had to go on drawing. -/
theorem dealer_turn_skipped_when_player_busted_witness :
    ∃ e, playRound rawParticipant rawParticipant rawDeck bustRands [true] = some e
      ∧ e.player.hasBusted = true
      ∧ e.dealer.nextHandCardsIndex = 2
      ∧ e.dealer.totalScore = 11
      ∧ e.theDeck.nextDrawnCardsIndex = 5 := by
  have hs : (playRound rawParticipant rawParticipant rawDeck bustRands [true]).map
      (fun e => (e.player.hasBusted, e.dealer.totalScore, e.theDeck.nextDrawnCardsIndex))
      = some (true, 11, 5) := by decide
  cases he : playRound rawParticipant rawParticipant rawDeck bustRands [true] with
  | none => rw [he] at hs; simp at hs
  | some e =>
    rw [he] at hs
    simp only [Option.map_some', Option.some.injEq, Prod.mk.injEq] at hs
    obtain ⟨t, t1, _, _, _, _, _, hn, _⟩ :=
      dealer_turn_skipped_when_player_busted rawParticipant rawParticipant rawDeck bustRands
        [true] e he hs.1
    exact ⟨e, rfl, hs.1, hn, hs.2.1, hs.2.2⟩

/-! ## Receiving a card -/

/-- A store inside the list leaves the other slots as they were. -/
theorem rd_wr_other {α : Type} (a : List α) (i j : Nat) (x dflt : α)
    (hj : j < a.length) (hne : i ≠ j) :
    rd (wr a j x dflt) i dflt = rd a i dflt := by
  rw [wr_of_lt a j x dflt hj]
  simp only [rd, List.getD_eq_getElem?_getD]
  rw [List.getElem?_set_ne (fun h => hne h.symm)]

set_option maxRecDepth 100000 in
/-- C14, at the failing input: a player who has been handed nine cards (four
twos, three threes, two aces).  The array of the hand has `HAND_CARDS_TOT` = 9
slots and all of them are in use: `nextHandCardsIndex` is 9, which is not the
index of a slot.  Evaluated, the hand is worth 19 and the player is neither done
nor busted, so the player loop of `main` offers another card.  The drawing loop
of `DrawCard`, on the deck on which the nine cards are recorded, then comes back
with the ace of hearts, and `DrawCard` passes it to `UpdateDrawCards`, whose
store `cards[nextHandCardsIndex] = crd` is made at index 9. -/
theorem DrawCard_on_nine_cards_stores_at_index_nine :
    HAND_CARDS_TOT = 9
    ∧ nineCardHand.cards.length = HAND_CARDS_TOT
    ∧ nineCardHand.nextHandCardsIndex = HAND_CARDS_TOT
    ∧ ¬ (nineCardHand.nextHandCardsIndex < nineCardHand.cards.length)
    ∧ (heldCards nineCardHand).length = 9
    ∧ (UpdateScore nineCardHand).totalScore = 19
    ∧ (UpdateScore nineCardHand).isDone = false
    ∧ (UpdateScore nineCardHand).hasBusted = false
    ∧ (UpdateScore nineCardHand).nextHandCardsIndex = 9
    ∧ drawnIDs nineCardDeck = (heldCards nineCardHand).map (fun c => c.id)
    ∧ drawUntilNew nineCardDeck [26] = some (MakeCard 1 FaceCard.NONE Seed.HEARTS, []) := by
  decide

/-- Receiving a card while a slot is free.  For a participant whose nine slots
are not all used (`nextHandCardsIndex < HAND_CARDS_TOT`) the card goes into slot
`nextHandCardsIndex`, the array keeps its nine slots, the other slots, the score
and the flags stay as they were, and `nextHandCardsIndex` goes up by one.
`DrawCard` passes the card its drawing loop comes back with to
`UpdateDrawCards`, without looking at the participant. -/
theorem UpdateDrawCards_stores_within_bound (p : Participant) (d : Deck) (c : Card)
    (hlen : p.cards.length = HAND_CARDS_TOT)
    (hn : p.nextHandCardsIndex < HAND_CARDS_TOT) :
    (UpdateDrawCards p d c).1.cards.length = HAND_CARDS_TOT
    ∧ rd (UpdateDrawCards p d c).1.cards p.nextHandCardsIndex blankCard = c
    ∧ (∀ i, i ≠ p.nextHandCardsIndex →
        rd (UpdateDrawCards p d c).1.cards i blankCard = rd p.cards i blankCard)
    ∧ (UpdateDrawCards p d c).1.nextHandCardsIndex = p.nextHandCardsIndex + 1
    ∧ heldCards (UpdateDrawCards p d c).1 = heldCards p ++ [c]
    ∧ (UpdateDrawCards p d c).1.totalScore = p.totalScore
    ∧ (UpdateDrawCards p d c).1.hand = p.hand
    ∧ (UpdateDrawCards p d c).1.isDone = p.isDone
    ∧ (UpdateDrawCards p d c).1.hasBusted = p.hasBusted
    ∧ (∀ rs, DrawCard p d rs
        = (drawUntilNew d rs).map
            (fun r => ((UpdateDrawCards p d r.1).1, (UpdateDrawCards p d r.1).2, r.2))) := by
  have hlt : p.nextHandCardsIndex < p.cards.length := by rw [hlen]; exact hn
  refine ⟨?_, ?_, ?_, rfl, ?_, rfl, rfl, rfl, rfl, ?_⟩
  · show (wr p.cards p.nextHandCardsIndex c blankCard).length = HAND_CARDS_TOT
    rw [wr_of_lt _ _ _ _ hlt, List.length_set, hlen]
  · exact rd_wr_same p.cards p.nextHandCardsIndex c blankCard
  · intro i hi
    exact rd_wr_other p.cards i p.nextHandCardsIndex c blankCard hlt hi
  · exact (heldCards_UpdateDrawCards p d c (by omega)).1
  · intro rs
    unfold DrawCard
    cases drawUntilNew d rs <;> rfl

set_option maxRecDepth 100000 in
/-- Receiving a card while a slot is free, at a hand: a player holding a ten
and a seven is handed a third card. -/
theorem UpdateDrawCards_stores_within_bound_witness :
    (handOf [MakeCard 10 FaceCard.NONE Seed.CLUBS, MakeCard 7 FaceCard.NONE Seed.CLUBS]).cards.length
        = HAND_CARDS_TOT
    ∧ (handOf [MakeCard 10 FaceCard.NONE Seed.CLUBS, MakeCard 7 FaceCard.NONE Seed.CLUBS]).nextHandCardsIndex
        < HAND_CARDS_TOT
    ∧ (UpdateDrawCards
        (handOf [MakeCard 10 FaceCard.NONE Seed.CLUBS, MakeCard 7 FaceCard.NONE Seed.CLUBS])
        (MakeDeck rawDeck) (MakeCard 3 FaceCard.NONE Seed.HEARTS)).1.cards.length = HAND_CARDS_TOT
    ∧ rd (UpdateDrawCards
        (handOf [MakeCard 10 FaceCard.NONE Seed.CLUBS, MakeCard 7 FaceCard.NONE Seed.CLUBS])
        (MakeDeck rawDeck) (MakeCard 3 FaceCard.NONE Seed.HEARTS)).1.cards
        (handOf [MakeCard 10 FaceCard.NONE Seed.CLUBS, MakeCard 7 FaceCard.NONE Seed.CLUBS]).nextHandCardsIndex
        blankCard = MakeCard 3 FaceCard.NONE Seed.HEARTS := by
  have h := UpdateDrawCards_stores_within_bound
    (handOf [MakeCard 10 FaceCard.NONE Seed.CLUBS, MakeCard 7 FaceCard.NONE Seed.CLUBS])
    (MakeDeck rawDeck) (MakeCard 3 FaceCard.NONE Seed.HEARTS) (by decide) (by decide)
  exact ⟨by decide, by decide, h.1, h.2.1⟩

/-! ## Drawing from an exhausted deck -/

/-- A card whose id is among the recorded ids is found by `IsCardAlreadyDrawn`. -/
theorem drawn_of_mem_drawnIDs (c : Card) (d : Deck) (h : c.id ∈ drawnIDs d) :
    IsCardAlreadyDrawn c d = true := by
  unfold drawnIDs at h
  rw [List.mem_take_iff_getElem] at h
  obtain ⟨i, hi, heq⟩ := h
  have hi1 : i < d.nextDrawnCardsIndex := by
    have := hi; simp at this; omega
  have hi2 : i < d.drawnCardsIDs.length := by
    have := hi; simp at this; omega
  unfold IsCardAlreadyDrawn
  rw [List.any_eq_true]
  refine ⟨i, List.mem_range.mpr hi1, ?_⟩
  simp [rd, List.getD_eq_getElem?_getD, List.getElem?_eq_getElem hi2, heq]

/-- On a deck whose cards are all recorded as drawn the drawing loop rejects
every random value: it reads all the values supplied and is still running. -/
theorem drawUntilNew_exhausted (d : Deck) (hc : d.cards.length = CARD_TOT)
    (hall : ∀ c ∈ d.cards, c.id ∈ drawnIDs d) :
    ∀ rs : List Nat, drawUntilNew d rs = none := by
  intro rs
  induction rs with
  | nil => rfl
  | cons r rs ih =>
    unfold drawUntilNew
    simp only
    have hlt : r % CARD_TOT < d.cards.length := by
      rw [hc]; exact Nat.mod_lt _ (by decide)
    have hmem : rd d.cards (r % CARD_TOT) blankCard ∈ d.cards := by
      have := rd_of_lt_take d.cards d.cards.length (r % CARD_TOT) blankCard hlt (le_refl _)
      simpa using this
    rw [drawn_of_mem_drawnIDs _ d (hall _ hmem)]
    simpa using ih

set_option maxRecDepth 100000 in
/-- C15, refuted as stated: on the deck whose 52 ids are all recorded, no supply
of random values makes a further `DrawCard` call come back.  The program has no
way of reporting an error, so a call that stopped would be a call that came
back with a card; this one never stops. -/
theorem DrawCard_no_ExhaustedDeck_counterexample :
    exhaustedDeck.nextDrawnCardsIndex = 52
    ∧ ¬ ∃ rs : List Nat,
        (DrawCard (InitParticipant PlayerType.PLAYER rawParticipant) exhaustedDeck rs).isSome
          = true := by
  refine ⟨by decide, ?_⟩
  rintro ⟨rs, h⟩
  have hnone := drawUntilNew_exhausted exhaustedDeck (by decide) (by decide) rs
  unfold DrawCard at h
  rw [hnone] at h
  simp at h

/-- C15, amended.  Drawing from an exhausted deck hands out nothing and reports
nothing.  For every deck state in which the ids of all 52 cards are recorded as
drawn, `IsCardAlreadyDrawn` rejects the card at every position, so the drawing
loop of `DrawCard` and of `GiveHand` goes on for as long as random values are
supplied: neither call ever comes back, no card is stored and no id is
recorded. -/
theorem DrawCard_on_exhausted_deck_never_returns (p : Participant) (d : Deck)
    (hc : d.cards.length = CARD_TOT)
    (hall : ∀ c ∈ d.cards, c.id ∈ drawnIDs d) :
    (∀ r : Nat, IsCardAlreadyDrawn (rd d.cards (r % CARD_TOT) blankCard) d = true)
    ∧ (∀ rs : List Nat, drawUntilNew d rs = none)
    ∧ (∀ rs : List Nat, DrawCard p d rs = none)
    ∧ (∀ rs : List Nat, GiveHand p d rs = none) := by
  have hnone := drawUntilNew_exhausted d hc hall
  refine ⟨?_, hnone, ?_, ?_⟩
  · intro r
    have hlt : r % CARD_TOT < d.cards.length := by
      rw [hc]; exact Nat.mod_lt _ (by decide)
    have hmem : rd d.cards (r % CARD_TOT) blankCard ∈ d.cards := by
      have := rd_of_lt_take d.cards d.cards.length (r % CARD_TOT) blankCard hlt (le_refl _)
      simpa using this
    exact drawn_of_mem_drawnIDs _ d (hall _ hmem)
  · intro rs
    unfold DrawCard
    rw [hnone rs]
  · intro rs
    unfold GiveHand
    simp only [GiveHand.loop]
    rw [hnone rs]

set_option maxRecDepth 100000 in
/-- C15 as amended, at a deck: on `exhaustedDeck` a hundred random values, which
name every position of the deck at least once, are all read and rejected. -/
theorem DrawCard_on_exhausted_deck_never_returns_witness :
    exhaustedDeck.cards.length = CARD_TOT
    ∧ (∀ c ∈ exhaustedDeck.cards, c.id ∈ drawnIDs exhaustedDeck)
    ∧ DrawCard (InitParticipant PlayerType.PLAYER rawParticipant) exhaustedDeck (List.range 100)
        = none :=
  ⟨by decide, by decide,
   (DrawCard_on_exhausted_deck_never_returns (InitParticipant PlayerType.PLAYER rawParticipant)
      exhaustedDeck (by decide) (by decide)).2.2.1 (List.range 100)⟩

/-! ## One ace or several -/

/-- The totals reachable by valuing aces freely are the sum of the hand with 10
added for some of its aces. -/
theorem mem_aceTotals (hand : List Card) (t : Int) :
    t ∈ aceTotals hand ↔ ∃ k : Nat, k ≤ aceCount hand ∧ t = baseSum hand + 10 * (k : Int) := by
  induction hand generalizing t with
  | nil =>
    simp [aceTotals, aceCount, baseSum]
  | cons c cs ih =>
    by_cases hc : c.value = 1
    · simp only [aceTotals, hc, if_true, List.mem_append, List.mem_map]
      have hcount : aceCount (c :: cs) = aceCount cs + 1 := by
        simp [aceCount, hc]
      have hbase : baseSum (c :: cs) = baseSum cs + 1 := by
        simp [baseSum, hc]; ring
      rw [hcount, hbase]
      constructor
      · rintro (⟨u, hu, rfl⟩ | ⟨u, hu, rfl⟩)
        · obtain ⟨k, hk, rfl⟩ := (ih u).mp hu
          exact ⟨k, by omega, by ring⟩
        · obtain ⟨k, hk, rfl⟩ := (ih u).mp hu
          exact ⟨k + 1, by omega, by push_cast; ring⟩
      · rintro ⟨k, hk, rfl⟩
        by_cases hk1 : k ≤ aceCount cs
        · left
          exact ⟨baseSum cs + 10 * (k : Int), (ih _).mpr ⟨k, hk1, rfl⟩, by ring⟩
        · right
          have hk2 : k = aceCount cs + 1 := by omega
          refine ⟨baseSum cs + 10 * (aceCount cs : Int), (ih _).mpr ⟨aceCount cs, le_refl _, rfl⟩, ?_⟩
          rw [hk2]; push_cast; ring
    · simp only [aceTotals, hc, if_false, List.mem_map]
      have hcount : aceCount (c :: cs) = aceCount cs := by
        simp [aceCount, hc]
      have hbase : baseSum (c :: cs) = baseSum cs + c.value := by
        simp [baseSum]; ring
      rw [hcount, hbase]
      constructor
      · rintro ⟨u, hu, rfl⟩
        obtain ⟨k, hk, rfl⟩ := (ih u).mp hu
        exact ⟨k, hk, by ring⟩
      · rintro ⟨k, hk, rfl⟩
        exact ⟨baseSum cs + 10 * (k : Int), (ih _).mpr ⟨k, hk, rfl⟩, by ring⟩

/-- A hand of cards worth at least 1 each is worth at least its number of aces. -/
theorem aceCount_le_baseSum (hand : List Card) (hval : ∀ c ∈ hand, 1 ≤ c.value) :
    (aceCount hand : Int) ≤ baseSum hand := by
  induction hand with
  | nil => simp [aceCount, baseSum]
  | cons c cs ih =>
    have hc := hval c (List.mem_cons_self _ _)
    have hcs := ih (fun x hx => hval x (List.mem_cons_of_mem _ hx))
    have hbase : baseSum (c :: cs) = baseSum cs + c.value := by
      simp [baseSum]; ring
    have hcount : aceCount (c :: cs) ≤ aceCount cs + 1 := by
      unfold aceCount
      rw [List.countP_cons]
      split_ifs <;> omega
    rw [hbase]
    have : (aceCount (c :: cs) : Int) ≤ (aceCount cs : Int) + 1 := by exact_mod_cast hcount
    omega

/-- A hand holds an ace exactly when its number of aces is not zero. -/
theorem holdsAce_iff (hand : List Card) : holdsAce hand = true ↔ 0 < aceCount hand := by
  unfold holdsAce aceCount
  rw [List.any_eq_true, List.countP_pos_iff]

/-- No valuation of the aces that stays at 21 or below beats the total of
`UpdateScore`. -/
theorem aceTotals_le_handTotal (hand : List Card) (hval : ∀ c ∈ hand, 1 ≤ c.value)
    (t : Int) (ht : t ∈ aceTotals hand) (h21 : t ≤ 21) : t ≤ handTotal hand := by
  obtain ⟨k, hk, rfl⟩ := (mem_aceTotals hand t).mp ht
  have hbase := aceCount_le_baseSum hand hval
  have hk2 : k ≤ 1 := by
    by_contra hgt
    have h2 : (2 : Int) ≤ (k : Int) := by exact_mod_cast (by omega : 2 ≤ k)
    have h3 : (k : Int) ≤ (aceCount hand : Int) := by exact_mod_cast hk
    omega
  unfold handTotal
  interval_cases k
  · split_ifs <;> omega
  · have hace : holdsAce hand = true := (holdsAce_iff hand).mpr (by omega)
    have hle : baseSum hand + 10 ≤ 21 := by simpa using h21
    rw [if_pos ⟨hace, hle⟩]
    simp

/-- The total of `UpdateScore` is itself a valuation of the aces. -/
theorem handTotal_mem_aceTotals (hand : List Card) : handTotal hand ∈ aceTotals hand := by
  rw [mem_aceTotals]
  unfold handTotal
  split_ifs with h
  · exact ⟨1, (holdsAce_iff hand).mp h.1, by simp⟩
  · exact ⟨0, Nat.zero_le _, by simp⟩

/-- C16, refuted as stated: there is no hand of cards with values from 1 to 10
and two aces or more on which the total computed by `UpdateScore` is below a
total of at most 21 obtained by valuing each ace on its own as 1 or 11.  Two
aces valued 11 make 22 already. -/
theorem UpdateScore_undercount_counterexample :
    ¬ ∃ p : Participant,
        (∀ c ∈ heldCards p, 1 ≤ c.value ∧ c.value ≤ 10)
        ∧ 2 ≤ aceCount (heldCards p)
        ∧ ∃ t ∈ aceTotals (heldCards p), t ≤ 21 ∧ (UpdateScore p).totalScore < t := by
  rintro ⟨p, hval, _, t, ht, h21, hlt⟩
  have hle := aceTotals_le_handTotal (heldCards p) (fun c hc => (hval c hc).1) t ht h21
  rw [(UpdateScore_fields p).1] at hlt
  omega

/-- C16, amended.  The single-ace-upgrade rule never undercounts.  For every
hand of cards with values from 1 to 10, with any number of aces, the total
computed by `UpdateScore` is one of the totals obtained by valuing each ace on
its own as 1 or 11, and no such total that does not exceed 21 is larger; when
the cards sum to 21 or less with every ace at 1, the total of `UpdateScore` does
not exceed 21 either, so it is the largest such total.  Upgrading a second ace
never helps. -/
theorem UpdateScore_total_is_best_valuation (p : Participant)
    (hval : ∀ c ∈ heldCards p, 1 ≤ c.value ∧ c.value ≤ 10) :
    (UpdateScore p).totalScore ∈ aceTotals (heldCards p)
    ∧ (∀ t ∈ aceTotals (heldCards p), t ≤ 21 → t ≤ (UpdateScore p).totalScore)
    ∧ (baseSum (heldCards p) ≤ 21 → (UpdateScore p).totalScore ≤ 21)
    ∧ (∀ t ∈ aceTotals (heldCards p), baseSum (heldCards p) ≤ t) := by
  rw [(UpdateScore_fields p).1]
  refine ⟨handTotal_mem_aceTotals _, ?_, ?_, ?_⟩
  · intro t ht h21
    exact aceTotals_le_handTotal (heldCards p) (fun c hc => (hval c hc).1) t ht h21
  · intro hb
    unfold handTotal
    split_ifs with h
    · exact h.2
    · exact hb
  · intro t ht
    obtain ⟨k, _, rfl⟩ := (mem_aceTotals _ t).mp ht
    have : (0 : Int) ≤ (k : Int) := Int.natCast_nonneg k
    omega

set_option maxRecDepth 100000 in
/-- C16 as amended, at a hand: two aces and a nine can be valued 11, 21, 21 and
31; `UpdateScore` gives 21. -/
theorem UpdateScore_total_is_best_valuation_witness :
    (∀ c ∈ heldCards (handOf [MakeCard 1 FaceCard.NONE Seed.SPADES, MakeCard 1 FaceCard.NONE Seed.HEARTS,
                              MakeCard 9 FaceCard.NONE Seed.CLUBS]), 1 ≤ c.value ∧ c.value ≤ 10)
    ∧ aceTotals (heldCards (handOf [MakeCard 1 FaceCard.NONE Seed.SPADES,
        MakeCard 1 FaceCard.NONE Seed.HEARTS, MakeCard 9 FaceCard.NONE Seed.CLUBS])) = [11, 21, 21, 31]
    ∧ (UpdateScore (handOf [MakeCard 1 FaceCard.NONE Seed.SPADES, MakeCard 1 FaceCard.NONE Seed.HEARTS,
                            MakeCard 9 FaceCard.NONE Seed.CLUBS])).totalScore = 21
    ∧ (∀ t ∈ aceTotals (heldCards (handOf [MakeCard 1 FaceCard.NONE Seed.SPADES,
          MakeCard 1 FaceCard.NONE Seed.HEARTS, MakeCard 9 FaceCard.NONE Seed.CLUBS])),
        t ≤ 21 → t ≤ (UpdateScore (handOf [MakeCard 1 FaceCard.NONE Seed.SPADES,
          MakeCard 1 FaceCard.NONE Seed.HEARTS, MakeCard 9 FaceCard.NONE Seed.CLUBS])).totalScore) :=
  ⟨by decide, by decide, by decide,
   (UpdateScore_total_is_best_valuation
      (handOf [MakeCard 1 FaceCard.NONE Seed.SPADES, MakeCard 1 FaceCard.NONE Seed.HEARTS,
               MakeCard 9 FaceCard.NONE Seed.CLUBS]) (by decide)).2.1⟩

/-! ## Cards received one at a time -/

/-- The total of a hand is at least the sum of its values. -/
theorem baseSum_le_handTotal (hand : List Card) : baseSum hand ≤ handTotal hand := by
  unfold handTotal
  split_ifs <;> omega

/-- A total above 21 is the plain sum of the values. -/
theorem baseSum_gt_of_handTotal_gt (hand : List Card) (h : handTotal hand > 21) :
    baseSum hand > 21 := by
  unfold handTotal at h
  split_ifs at h with h1
  · omega
  · exact h

/-- One more card adds its value to the sum. -/
theorem baseSum_append_singleton (hand : List Card) (c : Card) :
    baseSum (hand ++ [c]) = baseSum hand + c.value := by
  simp [baseSum]

/-- What receiving a card does to a participant whose counter is inside the
stored list. -/
theorem receiveCard_fields (s : Participant × Deck) (c : Card)
    (hp : s.1.nextHandCardsIndex ≤ s.1.cards.length) :
    heldCards (receiveCard s c).1 = heldCards s.1 ++ [c]
    ∧ (receiveCard s c).1.nextHandCardsIndex ≤ (receiveCard s c).1.cards.length
    ∧ (receiveCard s c).1.nextHandCardsIndex = s.1.nextHandCardsIndex + 1
    ∧ (receiveCard s c).1.totalScore = handTotal (heldCards s.1 ++ [c])
    ∧ (receiveCard s c).1.hand = handKind (heldCards s.1 ++ [c])
    ∧ (receiveCard s c).1.hasBusted
        = (s.1.hasBusted || decide (handTotal (heldCards s.1 ++ [c]) > 21))
    ∧ (receiveCard s c).1.isDone
        = (s.1.isDone || decide (handTotal (heldCards s.1 ++ [c]) = 21)) := by
  have hu := heldCards_UpdateDrawCards s.1 s.2 c hp
  have hf := UpdateScore_fields (UpdateDrawCards s.1 s.2 c).1
  unfold receiveCard
  simp only
  refine ⟨?_, ?_, ?_, ?_, ?_, ?_, ?_⟩
  · rw [hf.2.2.2.2.2.2.2, hu.1]
  · rw [hf.2.2.2.2.2.1, hf.2.2.2.2.1]; exact hu.2
  · rw [hf.2.2.2.2.2.1]; rfl
  · rw [hf.1, hu.1]
  · rw [hf.2.1, hu.1]
  · rw [hf.2.2.1, hu.1]; rfl
  · rw [hf.2.2.2.1, hu.1]; rfl

/-- Along any sequence of cards worth at least 1 each, started in a state whose
busted flag, if set, is backed by a sum above 21: after every evaluation the
busted flag says whether the total exceeds 21; a busted hand stays busted; and
both flags are set after an evaluation only if `isDone` was set at the start or
an earlier evaluation gave exactly 21. -/
theorem evaluations_inv :
    ∀ (cs : List Card) (s : Participant × Deck),
      s.1.nextHandCardsIndex ≤ s.1.cards.length →
      (s.1.hasBusted = true → baseSum (heldCards s.1) > 21) →
      (∀ c ∈ cs, 1 ≤ c.value) →
      (∀ q ∈ evaluations s cs, q.hasBusted = decide (q.totalScore > 21))
      ∧ (s.1.hasBusted = true → ∀ q ∈ evaluations s cs, q.hasBusted = true)
      ∧ (∀ pre q post, evaluations s cs = pre ++ q :: post →
          q.hasBusted = true → q.isDone = true →
          s.1.isDone = true ∨ ∃ q0 ∈ pre, q0.totalScore = 21)
      ∧ (∀ pre q post, evaluations s cs = pre ++ q :: post →
          q.hasBusted = true → ∀ q1 ∈ post, q1.hasBusted = true)
      ∧ (∀ pre q post, evaluations s cs = pre ++ q :: post →
          q.totalScore = handTotal (heldCards s.1 ++ cs.take (pre.length + 1))
          ∧ q.nextHandCardsIndex = s.1.nextHandCardsIndex + pre.length + 1) := by
  intro cs
  induction cs with
  | nil =>
    intro s _ _ _
    refine ⟨by simp [evaluations], by simp [evaluations], ?_, ?_, ?_⟩
    · intro pre q post h
      simp [evaluations] at h
    · intro pre q post h
      simp [evaluations] at h
    · intro pre q post h
      simp [evaluations] at h
  | cons c cs ih =>
    intro s hp hb hval
    have hc : 1 ≤ c.value := hval c (List.mem_cons_self _ _)
    obtain ⟨f1, f2, f3, f4, _, f6, f7⟩ := receiveCard_fields s c hp
    have hbust1 : (receiveCard s c).1.hasBusted = decide ((receiveCard s c).1.totalScore > 21) := by
      rw [f6, f4]
      cases hsb : s.1.hasBusted with
      | false => simp
      | true =>
        have h1 := hb hsb
        have h2 := baseSum_append_singleton (heldCards s.1) c
        have h3 := baseSum_le_handTotal (heldCards s.1 ++ [c])
        have h4 : handTotal (heldCards s.1 ++ [c]) > 21 := by omega
        simp [h4]
    have hb1 : (receiveCard s c).1.hasBusted = true → baseSum (heldCards (receiveCard s c).1) > 21 := by
      intro h
      rw [hbust1, f4] at h
      rw [f1]
      exact baseSum_gt_of_handTotal_gt _ (by simpa using h)
    obtain ⟨i1, i2, i3, i4, i5⟩ := ih (receiveCard s c) f2 hb1
      (fun x hx => hval x (List.mem_cons_of_mem _ hx))
    refine ⟨?_, ?_, ?_, ?_, ?_⟩
    · intro q hq
      simp only [evaluations, List.mem_cons] at hq
      rcases hq with rfl | hq
      · exact hbust1
      · exact i1 q hq
    · intro hsb q hq
      have h0 : (receiveCard s c).1.hasBusted = true := by
        rw [f6, hsb]; rfl
      simp only [evaluations, List.mem_cons] at hq
      rcases hq with rfl | hq
      · exact h0
      · exact i2 h0 q hq
    · intro pre q post h hqb hqd
      simp only [evaluations] at h
      cases pre with
      | nil =>
        simp only [List.nil_append, List.cons.injEq] at h
        rw [← h.1] at hqb hqd
        rw [hbust1, f4] at hqb
        have hgt : handTotal (heldCards s.1 ++ [c]) > 21 := by simpa using hqb
        have hne : ¬ handTotal (heldCards s.1 ++ [c]) = 21 := by omega
        rw [f7] at hqd
        left
        simpa [hne] using hqd
      | cons q1 pre1 =>
        simp only [List.cons_append, List.cons.injEq] at h
        rcases i3 pre1 q post h.2 hqb hqd with h1 | ⟨q0, hq0, h21⟩
        · rw [f7] at h1
          cases hsd : s.1.isDone with
          | true => left; rfl
          | false =>
            right
            rw [hsd] at h1
            refine ⟨q1, List.mem_cons_self _ _, ?_⟩
            rw [← h.1, f4]
            simpa using h1
        · right
          exact ⟨q0, List.mem_cons_of_mem _ hq0, h21⟩
    · intro pre q post h hqb
      simp only [evaluations] at h
      cases pre with
      | nil =>
        simp only [List.nil_append, List.cons.injEq] at h
        rw [← h.1] at hqb
        rw [← h.2]
        exact i2 hqb
      | cons q1 pre1 =>
        simp only [List.cons_append, List.cons.injEq] at h
        exact i4 pre1 q post h.2 hqb
    · intro pre q post h
      simp only [evaluations] at h
      cases pre with
      | nil =>
        simp only [List.nil_append, List.cons.injEq] at h
        rw [← h.1]
        refine ⟨?_, ?_⟩
        · rw [f4]; simp
        · rw [f3]; simp
      | cons q1 pre1 =>
        simp only [List.cons_append, List.cons.injEq] at h
        obtain ⟨j1, j2⟩ := i5 pre1 q post h.2
        refine ⟨?_, ?_⟩
        · rw [j1, f1]
          simp [List.append_assoc]
        · rw [j2, f3]
          simp only [List.length_cons]
          omega

/-- The number of evaluations is the number of cards received. -/
theorem evaluations_length (cs : List Card) :
    ∀ s : Participant × Deck, (evaluations s cs).length = cs.length := by
  induction cs with
  | nil => intro s; rfl
  | cons c cs ih => intro s; simp [evaluations, ih]

/-- A freshly reset participant holds no card and has clear flags. -/
theorem freshStart_fields (type : PlayerType) (p0 : Participant) (d : Deck) :
    (freshStart type p0 d).1.nextHandCardsIndex = 0
    ∧ heldCards (freshStart type p0 d).1 = []
    ∧ (freshStart type p0 d).1.isDone = false
    ∧ (freshStart type p0 d).1.hasBusted = false :=
  ⟨rfl, by simp [heldCards, freshStart, InitParticipant], rfl, rfl⟩

/-- C18. The busted flag stays accurate although `UpdateScore` never clears it.
For every sequence of cards with values from 1 to 10 added one at a time to a
freshly reset participant, with `UpdateScore` run after each addition: there is
one evaluation per card, each computes the total of the cards received so far,
`hasBusted` is set after an evaluation exactly when the total it computed
exceeds 21, and once a hand is busted every longer hand is busted too. -/
theorem hasBusted_accurate_along_sequence (type : PlayerType) (p0 : Participant) (d : Deck)
    (cs : List Card) (hval : ∀ c ∈ cs, 1 ≤ c.value ∧ c.value ≤ 10) :
    (evaluations (freshStart type p0 d) cs).length = cs.length
    ∧ (∀ q ∈ evaluations (freshStart type p0 d) cs,
        q.hasBusted = decide (q.totalScore > 21))
    ∧ (∀ pre q post, evaluations (freshStart type p0 d) cs = pre ++ q :: post →
        q.totalScore = handTotal (cs.take (pre.length + 1))
        ∧ q.nextHandCardsIndex = pre.length + 1)
    ∧ (∀ pre q post, evaluations (freshStart type p0 d) cs = pre ++ q :: post →
        q.hasBusted = true → ∀ q1 ∈ post, q1.hasBusted = true ∧ q1.totalScore > 21) := by
  obtain ⟨hn, hheld, hdone, hbust⟩ := freshStart_fields type p0 d
  obtain ⟨i1, _, _, i4, i5⟩ := evaluations_inv cs (freshStart type p0 d)
    (by rw [hn]; exact Nat.zero_le _) (by rw [hbust]; intro h; exact absurd h (by simp))
    (fun c hc => (hval c hc).1)
  refine ⟨evaluations_length cs _, i1, ?_, ?_⟩
  · intro pre q post h
    obtain ⟨j1, j2⟩ := i5 pre q post h
    rw [hheld] at j1
    rw [hn] at j2
    exact ⟨by simpa using j1, by omega⟩
  · intro pre q post h hqb q1 hq1
    have hb1 := i4 pre q post h hqb q1 hq1
    have hmem : q1 ∈ evaluations (freshStart type p0 d) cs := by
      rw [h]; exact List.mem_append_right _ (List.mem_cons_of_mem _ hq1)
    have := i1 q1 hmem
    rw [hb1] at this
    exact ⟨hb1, by simpa using this.symm⟩

set_option maxRecDepth 100000 in
/-- C18, at a sequence: ten, nine, five and two give 10, 19, 24 and 26; the
busted flag is clear after the first two evaluations and set after the last
two. -/
theorem hasBusted_accurate_along_sequence_witness :
    (∀ c ∈ [MakeCard 10 FaceCard.NONE Seed.CLUBS, MakeCard 9 FaceCard.NONE Seed.CLUBS,
            MakeCard 5 FaceCard.NONE Seed.CLUBS, MakeCard 2 FaceCard.NONE Seed.CLUBS],
        1 ≤ c.value ∧ c.value ≤ 10)
    ∧ (evaluations (freshStart PlayerType.PLAYER rawParticipant (MakeDeck rawDeck))
        [MakeCard 10 FaceCard.NONE Seed.CLUBS, MakeCard 9 FaceCard.NONE Seed.CLUBS,
         MakeCard 5 FaceCard.NONE Seed.CLUBS, MakeCard 2 FaceCard.NONE Seed.CLUBS]).map
        (fun q => (q.totalScore, q.hasBusted))
      = [(10, false), (19, false), (24, true), (26, true)]
    ∧ ∀ q ∈ evaluations (freshStart PlayerType.PLAYER rawParticipant (MakeDeck rawDeck))
        [MakeCard 10 FaceCard.NONE Seed.CLUBS, MakeCard 9 FaceCard.NONE Seed.CLUBS,
         MakeCard 5 FaceCard.NONE Seed.CLUBS, MakeCard 2 FaceCard.NONE Seed.CLUBS],
        q.hasBusted = decide (q.totalScore > 21) :=
  ⟨by decide, by decide,
   (hasBusted_accurate_along_sequence PlayerType.PLAYER rawParticipant (MakeDeck rawDeck)
      [MakeCard 10 FaceCard.NONE Seed.CLUBS, MakeCard 9 FaceCard.NONE Seed.CLUBS,
       MakeCard 5 FaceCard.NONE Seed.CLUBS, MakeCard 2 FaceCard.NONE Seed.CLUBS] (by decide)).2.1⟩

/-! ## Hands made of distinct cards of the deck -/

/-- A hand of cards worth at least 1 each is worth at least three times its
size, less one for every card worth at most 1 and one for every card worth at
most 2. -/
theorem baseSum_lower (hand : List Card) (hval : ∀ c ∈ hand, 1 ≤ c.value) :
    3 * (hand.length : Int)
      ≤ baseSum hand + (hand.countP (fun c => decide (c.value ≤ 1)) : Int)
          + (hand.countP (fun c => decide (c.value ≤ 2)) : Int) := by
  induction hand with
  | nil => simp [baseSum]
  | cons c cs ih =>
    have hc := hval c (List.mem_cons_self _ _)
    have hcs := ih (fun x hx => hval x (List.mem_cons_of_mem _ hx))
    have hbase : baseSum (c :: cs) = baseSum cs + c.value := by
      simp [baseSum]; ring
    rw [hbase, List.countP_cons, List.countP_cons, List.length_cons]
    push_cast
    by_cases h1 : c.value ≤ 1
    · have h2 : c.value ≤ 2 := by omega
      simp only [h1, h2, decide_True, if_true]
      omega
    · by_cases h2 : c.value ≤ 2
      · simp only [h1, h2, decide_True, decide_False, if_true, Bool.false_eq_true, if_false]
        omega
      · simp only [h1, h2, decide_False, Bool.false_eq_true, if_false]
        omega

set_option maxRecDepth 100000 in
/-- The deck `MakeDeck` builds has four cards worth at most 1, eight cards worth
at most 2, and only cards worth 1 to 10. -/
theorem MakeDeck_low_cards :
    (MakeDeck rawDeck).cards.countP (fun c => decide (c.value ≤ 1)) = 4
    ∧ (MakeDeck rawDeck).cards.countP (fun c => decide (c.value ≤ 2)) = 8
    ∧ (∀ c ∈ (MakeDeck rawDeck).cards, 1 ≤ c.value ∧ c.value ≤ 10) := by
  decide

/-- Distinct cards taken from a rearrangement of the deck `MakeDeck` builds are
worth 1 to 10 each and, together, at least three times their number less 12: ten
of them at least 18, eleven of them at least 21. -/
theorem distinct_deck_cards_sum (hand deck : List Card)
    (hdeck : deck.Perm (MakeDeck rawDeck).cards) (hsub : hand.Subperm deck) :
    (∀ c ∈ hand, 1 ≤ c.value ∧ c.value ≤ 10)
    ∧ 3 * (hand.length : Int) - 12 ≤ baseSum hand := by
  have hsub1 : hand.Subperm (MakeDeck rawDeck).cards := hsub.trans hdeck.subperm
  obtain ⟨h1, h2, h3⟩ := MakeDeck_low_cards
  have hval : ∀ c ∈ hand, 1 ≤ c.value ∧ c.value ≤ 10 :=
    fun c hc => h3 c (hsub1.subset hc)
  refine ⟨hval, ?_⟩
  have hlow := baseSum_lower hand (fun c hc => (hval c hc).1)
  have c1 := hsub1.countP_le (fun c => decide (c.value ≤ 1))
  have c2 := hsub1.countP_le (fun c => decide (c.value ≤ 2))
  rw [h1] at c1
  rw [h2] at c2
  have c1' : (hand.countP (fun c => decide (c.value ≤ 1)) : Int) ≤ 4 := by exact_mod_cast c1
  have c2' : (hand.countP (fun c => decide (c.value ≤ 2)) : Int) ≤ 8 := by exact_mod_cast c2
  omega

/-! ## The table throughout a round -/

/-- Whether the table is in order depends on the cards held and on the deck, not
on scores and flags. -/
theorem RoundInv_congr (t t1 : Table)
    (hpc : t1.player.cards = t.player.cards)
    (hpn : t1.player.nextHandCardsIndex = t.player.nextHandCardsIndex)
    (hdc : t1.dealer.cards = t.dealer.cards)
    (hdn : t1.dealer.nextHandCardsIndex = t.dealer.nextHandCardsIndex)
    (hdk : t1.theDeck = t.theDeck) (h : RoundInv t) : RoundInv t1 := by
  have hp : heldCards t1.player = heldCards t.player := by
    unfold heldCards; rw [hpc, hpn]
  have hd : heldCards t1.dealer = heldCards t.dealer := by
    unfold heldCards; rw [hdc, hdn]
  obtain ⟨⟨n, h1⟩, h2, h3⟩ := h
  refine ⟨⟨n, ?_⟩, ?_, ?_⟩
  · unfold DrawInv at h1 ⊢
    rw [hpc, hpn, hdc, hdn, hdk, hp, hd]
    exact h1
  · rw [hp, hd, hdk]; exact h2
  · rw [hdk]; exact h3

/-- Handing a card of the deck that is not drawn yet to either participant keeps
the table in order. -/
theorem handOver_round (t : Table) (who : PlayerType) (c : Card) (rs1 : List Nat)
    (h : RoundInv t) (hfresh : IsCardAlreadyDrawn c t.theDeck = false)
    (hmem : c ∈ t.theDeck.cards) :
    RoundInv (t.put who ((UpdateDrawCards (t.get who) t.theDeck c).1,
      (UpdateDrawCards (t.get who) t.theDeck c).2, rs1)) := by
  obtain ⟨⟨n, h1⟩, h2, h3⟩ := h
  have hinv := handOver_inv t n who c rs1 h1 hfresh hmem
  refine ⟨⟨n + 1, hinv⟩, ?_, ?_⟩
  · cases who with
    | PLAYER =>
      show ∀ x ∈ heldCards (UpdateDrawCards t.player t.theDeck c).1 ++ heldCards t.dealer,
        x ∈ (UpdateDrawCards t.player t.theDeck c).2.cards
      rw [(heldCards_UpdateDrawCards t.player t.theDeck c h1.1).1]
      intro x hx
      simp only [List.mem_append, List.mem_singleton] at hx
      rcases hx with (hx | hx) | hx
      · exact h2 x (List.mem_append_left _ hx)
      · rw [hx]; exact hmem
      · exact h2 x (List.mem_append_right _ hx)
    | DEALER =>
      show ∀ x ∈ heldCards t.player ++ heldCards (UpdateDrawCards t.dealer t.theDeck c).1,
        x ∈ (UpdateDrawCards t.dealer t.theDeck c).2.cards
      rw [(heldCards_UpdateDrawCards t.dealer t.theDeck c h1.2.1).1]
      intro x hx
      simp only [List.mem_append, List.mem_singleton] at hx
      rcases hx with hx | hx | hx
      · exact h2 x (List.mem_append_left _ hx)
      · exact h2 x (List.mem_append_right _ hx)
      · rw [hx]; exact hmem
  · cases who <;> exact h3

/-- A `DrawCard` call that comes back keeps the table in order, whatever random
values it is run on. -/
theorem DrawCard_round (t : Table) (who : PlayerType) (rs : List Nat)
    (p1 : Participant) (d1 : Deck) (rs1 : List Nat)
    (h : RoundInv t) (hdraw : DrawCard (t.get who) t.theDeck rs = some (p1, d1, rs1)) :
    RoundInv (t.put who (p1, d1, rs1)) := by
  unfold DrawCard at hdraw
  cases hd : drawUntilNew t.theDeck rs with
  | none => rw [hd] at hdraw; simp at hdraw
  | some x =>
    obtain ⟨c, rs2⟩ := x
    rw [hd] at hdraw
    simp only [Option.some.injEq] at hdraw
    have hlen : t.theDeck.cards.length = CARD_TOT := by
      obtain ⟨⟨n, h1⟩, _, _⟩ := h
      exact h1.2.2.2.1
    have hspec := drawUntilNew_spec t.theDeck hlen rs c rs2 hd
    rw [← hdraw]
    exact handOver_round t who c rs2 h hspec.1 hspec.2

/-- A `GiveHand` call that comes back keeps the table in order. -/
theorem GiveHand_round (t : Table) (who : PlayerType) (rs : List Nat)
    (p1 : Participant) (d1 : Deck) (rs1 : List Nat)
    (h : RoundInv t) (hgive : GiveHand (t.get who) t.theDeck rs = some (p1, d1, rs1)) :
    RoundInv (t.put who (p1, d1, rs1)) := by
  simp only [GiveHand, GiveHand.loop] at hgive
  cases hd : drawUntilNew t.theDeck rs with
  | none => rw [hd] at hgive; simp at hgive
  | some x =>
    obtain ⟨c1, rs2⟩ := x
    rw [hd] at hgive
    simp only at hgive
    have hlen : t.theDeck.cards.length = CARD_TOT := by
      obtain ⟨⟨n, h1⟩, _, _⟩ := h
      exact h1.2.2.2.1
    have hspec1 := drawUntilNew_spec t.theDeck hlen rs c1 rs2 hd
    have hinv1 := handOver_round t who c1 rs2 h hspec1.1 hspec1.2
    cases hd2 : drawUntilNew (UpdateDrawCards (t.get who) t.theDeck c1).2 rs2 with
    | none => rw [hd2] at hgive; simp at hgive
    | some y =>
      obtain ⟨c2, rs3⟩ := y
      rw [hd2] at hgive
      simp only [Option.some.injEq] at hgive
      obtain ⟨hg1, hg2, _⟩ := Table.get_put t who
        (UpdateDrawCards (t.get who) t.theDeck c1).1
        (UpdateDrawCards (t.get who) t.theDeck c1).2 rs2
      have hlen2 : (UpdateDrawCards (t.get who) t.theDeck c1).2.cards.length = CARD_TOT := hlen
      have hspec2 := drawUntilNew_spec _ hlen2 rs2 c2 rs3 hd2
      have hinv2 := handOver_round _ who c2 rs3 hinv1
        (by rw [hg2]; exact hspec2.1) (by rw [hg2]; exact hspec2.2)
      rw [Table.put_put, hg1, hg2] at hinv2
      rw [← hgive]
      exact hinv2

/-- On a table that is in order each participant holds as many cards as its
counter says, all worth 1 to 10 and together at least three times their number
less 12. -/
theorem RoundInv_hand (t : Table) (h : RoundInv t) (who : PlayerType) :
    (heldCards (t.get who)).length = (t.get who).nextHandCardsIndex
    ∧ (∀ c ∈ heldCards (t.get who), 1 ≤ c.value ∧ c.value ≤ 10)
    ∧ 3 * ((t.get who).nextHandCardsIndex : Int) - 12 ≤ baseSum (heldCards (t.get who)) := by
  obtain ⟨⟨n, h1⟩, h2, h3⟩ := h
  have hle : (t.get who).nextHandCardsIndex ≤ (t.get who).cards.length := DrawInv.get_le h1 who
  have hlen : (heldCards (t.get who)).length = (t.get who).nextHandCardsIndex := by
    unfold heldCards
    rw [List.length_take]
    omega
  have hnd : (heldCards t.player ++ heldCards t.dealer).Nodup :=
    List.Nodup.of_map _ ((h1.2.2.2.2.2.2.1.nodup_iff).mpr h1.2.2.2.2.2.1)
  have hsubperm : (heldCards t.player ++ heldCards t.dealer).Subperm t.theDeck.cards :=
    List.subperm_of_subset hnd h2
  have hsub : (heldCards (t.get who)).Subperm t.theDeck.cards := by
    cases who
    · exact (List.sublist_append_left _ _).subperm.trans hsubperm
    · exact (List.sublist_append_right _ _).subperm.trans hsubperm
  obtain ⟨hv, hs⟩ := distinct_deck_cards_sum (heldCards (t.get who)) t.theDeck.cards h3 hsub
  rw [hlen] at hs
  exact ⟨hlen, hv, hs⟩

/-- Right after the shuffle, with both participants freshly reset, the table is
in order. -/
theorem afterShuffle_round (dealer player : Participant) (theDeck : Deck) (rs : List Nat)
    (dk1 : Deck) (rs1 : List Nat) (hc : theDeck.cards.length = CARD_TOT)
    (hsh : ShuffleDeck (MakeDeck theDeck) 40 rs = some (dk1, rs1)) :
    RoundInv { player := InitParticipant PlayerType.PLAYER player
               dealer := InitParticipant PlayerType.DEALER dealer
               theDeck := dk1, rs := rs1 } := by
  have hcards : (MakeDeck theDeck).cards = (MakeDeck rawDeck).cards :=
    MakeDeck_cards_eq_of_raw theDeck hc
  have hlen0 : (MakeDeck theDeck).cards.length = CARD_TOT := by
    rw [hcards]; exact (MakeDeck_length_next rawDeck (by decide) (by decide)).1
  have hshuf := ShuffleDeck_loop_perm (40 : Int).toNat (MakeDeck theDeck) rs dk1 rs1 hlen0 hsh
  have hnext : dk1.nextDrawnCardsIndex = 0 := by rw [hshuf.2.2]; rfl
  have hlen1 : dk1.cards.length = CARD_TOT := by rw [hshuf.1.length_eq, hlen0]
  refine ⟨⟨0, Nat.zero_le _, Nat.zero_le _, ?_, hlen1, hnext, ?_, ?_, ?_⟩, ?_, ?_⟩
  · show dk1.nextDrawnCardsIndex ≤ dk1.drawnCardsIDs.length
    rw [hnext]; exact Nat.zero_le _
  · show (drawnIDs dk1).Nodup
    simp [drawnIDs, hnext]
  · show ((heldCards (InitParticipant PlayerType.PLAYER player)
        ++ heldCards (InitParticipant PlayerType.DEALER dealer)).map (fun c => c.id)).Perm
        (drawnIDs dk1)
    simp [drawnIDs, hnext, heldCards, InitParticipant]
  · show ∀ x ∈ drawnIDs dk1, x ∈ dk1.cards.map (fun c => c.id)
    simp [drawnIDs, hnext]
  · show ∀ c ∈ heldCards (InitParticipant PlayerType.PLAYER player)
        ++ heldCards (InitParticipant PlayerType.DEALER dealer), c ∈ dk1.cards
    simp [heldCards, InitParticipant]
  · show dk1.cards.Perm (MakeDeck rawDeck).cards
    rw [← hcards]; exact hshuf.1

/-- A total of 21 or less for a hand whose values sum to 21 or less. -/
theorem handTotal_le_21 (hand : List Card) (h : baseSum hand ≤ 21) : handTotal hand ≤ 21 := by
  unfold handTotal
  split_ifs with h1
  · exact h1.2
  · exact h

/-- The sum of the values of two cards worth at most 10 each is at most 20. -/
theorem baseSum_two (hand : List Card) (hlen : hand.length = 2)
    (hval : ∀ c ∈ hand, 1 ≤ c.value ∧ c.value ≤ 10) : baseSum hand ≤ 20 := by
  match hand, hlen with
  | [a, b], _ =>
    have ha := (hval a (by simp)).2
    have hb := (hval b (by simp)).2
    simp only [baseSum, List.map_cons, List.map_nil, List.sum_cons, List.sum_nil]
    omega

/-- What the deal leaves, on a deck memory of 52 slots: the table is in order,
both participants hold two cards and carry the total and hand type of those two
cards, at most 21, with `isDone` set exactly at 21 and `hasBusted` clear. -/
theorem dealPhase_round (dealer player : Participant) (theDeck : Deck) (rs : List Nat)
    (t : Table) (hc : theDeck.cards.length = CARD_TOT)
    (h : dealPhase dealer player theDeck rs = some t) :
    RoundInv t
    ∧ (∀ who, (t.get who).nextHandCardsIndex = 2
        ∧ (t.get who).totalScore = handTotal (heldCards (t.get who))
        ∧ (t.get who).hand = handKind (heldCards (t.get who))
        ∧ (t.get who).totalScore ≤ 21
        ∧ (t.get who).hasBusted = false
        ∧ (t.get who).isDone = decide ((t.get who).totalScore = 21)) := by
  obtain ⟨dk1, rs1, p2, dk2, rs2, d3, hsh, hg1, hg2, hp, hd, hpn, hpd, hpb, hdn, hdd, hdb⟩ :=
    dealPhase_spec dealer player theDeck rs t h
  have hinv0 := afterShuffle_round dealer player theDeck rs dk1 rs1 hc hsh
  have hinv1 := GiveHand_round _ PlayerType.PLAYER rs1 p2 dk2 rs2 hinv0 hg1
  have hinv2 := GiveHand_round _ PlayerType.DEALER rs2 d3 t.theDeck t.rs hinv1 hg2
  have hfp := UpdateScore_fields p2
  have hfd := UpdateScore_fields d3
  have hinv : RoundInv t := by
    refine RoundInv_congr
      { player := p2, dealer := d3, theDeck := t.theDeck, rs := t.rs } t ?_ ?_ ?_ ?_ rfl hinv2
    · rw [hp, hfp.2.2.2.2.1]
    · rw [hp, hfp.2.2.2.2.2.1]
    · rw [hd, hfd.2.2.2.2.1]
    · rw [hd, hfd.2.2.2.2.2.1]
  refine ⟨hinv, ?_⟩
  intro who
  have hhand := RoundInv_hand t hinv who
  have key : ∀ (q q0 : Participant), q = UpdateScore q0 → q0.nextHandCardsIndex = 2 →
      q0.isDone = false → q0.hasBusted = false →
      (heldCards q).length = q.nextHandCardsIndex →
      (∀ c ∈ heldCards q, 1 ≤ c.value ∧ c.value ≤ 10) →
      q.nextHandCardsIndex = 2
        ∧ q.totalScore = handTotal (heldCards q)
        ∧ q.hand = handKind (heldCards q)
        ∧ q.totalScore ≤ 21
        ∧ q.hasBusted = false
        ∧ q.isDone = decide (q.totalScore = 21) := by
    intro q q0 hq hn hd0 hb0 hlen hval
    have hf := UpdateScore_fields q0
    have hn2 : q.nextHandCardsIndex = 2 := by rw [hq, hf.2.2.2.2.2.1, hn]
    have hheld : heldCards q = heldCards q0 := by rw [hq, hf.2.2.2.2.2.2.2]
    have htot : q.totalScore = handTotal (heldCards q) := by rw [hheld, hq, hf.1]
    have hle : q.totalScore ≤ 21 := by
      rw [htot]
      exact handTotal_le_21 _ (by
        have := baseSum_two (heldCards q) (by rw [hlen, hn2]) hval
        omega)
    refine ⟨hn2, htot, ?_, hle, ?_, ?_⟩
    · rw [hheld, hq, hf.2.1]
    · have h1 : ¬ handTotal (heldCards q0) > 21 := by
        rw [← hheld, ← htot]; omega
      rw [hq, hf.2.2.1, hb0]
      simp [h1]
    · rw [htot, hheld, hq, hf.2.2.2.1, hd0]
      simp
  cases who
  · exact key t.player p2 hp hpn hpd hpb hhand.1 hhand.2.1
  · exact key t.dealer d3 hd hdn hdd hdb hhand.1 hhand.2.1

/-! ## The player loop -/

/-- One iteration of the player loop, entered with the table in order and a
player who carries the total of the cards held, at most 20, and is not busted:
the table stays in order, the player again carries the total of the cards held
with an accurate busted flag, holds at most 11 cards, never has both flags set,
and the loop goes round again only at a total of at most 20. -/
theorem playerIter_round (answer : Bool) (t : Table) (hinv : RoundInv t)
    (htot : t.player.totalScore = handTotal (heldCards t.player))
    (hle : t.player.totalScore ≤ 20) (hb : t.player.hasBusted = false)
    (it : Iter (Participant × Deck × List Nat))
    (h : playerIter answer t.player t.theDeck t.rs = some it) :
    RoundInv { player := it.state.1, dealer := t.dealer, theDeck := it.state.2.1, rs := it.state.2.2 }
    ∧ it.state.1.totalScore = handTotal (heldCards it.state.1)
    ∧ it.state.1.hasBusted = decide (it.state.1.totalScore > 21)
    ∧ it.state.1.nextHandCardsIndex ≤ 11
    ∧ ¬ (it.state.1.hasBusted = true ∧ it.state.1.isDone = true)
    ∧ (it.isBrk = false → it.state.1.totalScore ≤ 20 ∧ it.state.1.hasBusted = false) := by
  have hhand := RoundInv_hand t hinv PlayerType.PLAYER
  have hbase := baseSum_le_handTotal (heldCards t.player)
  have hn10 : t.player.nextHandCardsIndex ≤ 10 := by
    have h3 : 3 * (t.player.nextHandCardsIndex : Int) - 12 ≤ baseSum (heldCards t.player) :=
      hhand.2.2
    have : (t.player.nextHandCardsIndex : Int) ≤ 10 := by omega
    exact_mod_cast this
  have hinv1 : RoundInv (Table.mk { t.player with isDone := !answer } t.dealer t.theDeck t.rs) :=
    RoundInv_congr t _ rfl rfl rfl rfl rfl hinv
  unfold playerIter at h
  simp only at h
  split_ifs at h with hstop
  · simp only [Option.some.injEq] at h
    rw [← h]
    refine ⟨hinv1, htot, ?_, by show t.player.nextHandCardsIndex ≤ 11; omega, ?_, ?_⟩
    · show t.player.hasBusted = decide (t.player.totalScore > 21)
      have : ¬ t.player.totalScore > 21 := by omega
      rw [hb]; simp [this]
    · show ¬ (t.player.hasBusted = true ∧ _)
      rw [hb]; simp
    · intro hbrk
      exact absurd hbrk (by simp [Iter.isBrk])
  · cases hdraw : DrawCard { t.player with isDone := !answer } t.theDeck t.rs with
    | none => rw [hdraw] at h; simp at h
    | some x =>
      obtain ⟨p2, d2, rs2⟩ := x
      rw [hdraw] at h
      simp only at h
      have hinv2 := DrawCard_round _ PlayerType.PLAYER t.rs p2 d2 rs2 hinv1 hdraw
      have hfr := DrawCard_frame _ _ _ _ _ _ hdraw
      have hf := UpdateScore_fields p2
      have hinv3 : RoundInv { player := UpdateScore p2, dealer := t.dealer, theDeck := d2, rs := rs2 } :=
        RoundInv_congr (Table.mk p2 t.dealer d2 rs2) _ hf.2.2.2.2.1 hf.2.2.2.2.2.1 rfl rfl rfl hinv2
      have hdone2 : p2.isDone = false := by
        rw [hfr.2.2.1]
        simpa using hstop
      have hbust2 : p2.hasBusted = false := by rw [hfr.2.2.2.1]; exact hb
      have htot3 : (UpdateScore p2).totalScore = handTotal (heldCards (UpdateScore p2)) := by
        rw [hf.1, hf.2.2.2.2.2.2.2]
      have hbust3 : (UpdateScore p2).hasBusted = decide ((UpdateScore p2).totalScore > 21) := by
        rw [hf.2.2.1, hbust2, hf.1]; simp
      have hdone3 : (UpdateScore p2).isDone = decide ((UpdateScore p2).totalScore = 21) := by
        rw [hf.2.2.2.1, hdone2, hf.1]; simp
      have hn3 : (UpdateScore p2).nextHandCardsIndex ≤ 11 := by
        rw [hf.2.2.2.2.2.1, hfr.2.1]
        show t.player.nextHandCardsIndex + 1 ≤ 11
        omega
      have hnot : ¬ ((UpdateScore p2).hasBusted = true ∧ (UpdateScore p2).isDone = true) := by
        rw [hbust3, hdone3]
        intro hboth
        have h1 : (UpdateScore p2).totalScore > 21 := by simpa using hboth.1
        have h2 : (UpdateScore p2).totalScore = 21 := by simpa using hboth.2
        omega
      split_ifs at h with hend
      · simp only [Option.some.injEq] at h
        rw [← h]
        exact ⟨hinv3, htot3, hbust3, hn3, hnot, fun hbrk => absurd hbrk (by simp [Iter.isBrk])⟩
      · simp only [Option.some.injEq] at h
        rw [← h]
        refine ⟨hinv3, htot3, hbust3, hn3, hnot, fun _ => ?_⟩
        simp only [Bool.or_eq_true, not_or, Bool.not_eq_true] at hend
        show (UpdateScore p2).totalScore ≤ 20 ∧ (UpdateScore p2).hasBusted = false
        have h1 : ¬ (UpdateScore p2).totalScore > 21 := by
          have := hend.2
          rw [hbust3] at this
          simpa using this
        have h2 : ¬ (UpdateScore p2).totalScore = 21 := by
          have := hend.1
          rw [hdone3] at this
          simpa using this
        exact ⟨by omega, hend.2⟩

/-- The player loop, entered with the table in order and a player who carries
the total of the cards held, at most 20, and is not busted: when it ends the
table is in order, the player carries the total of the cards held with an
accurate busted flag, holds at most 11 cards and does not have both flags set;
the dealer is untouched. -/
theorem playerLoop_round :
    ∀ (answers : List Bool) (t : Table), RoundInv t →
      t.player.totalScore = handTotal (heldCards t.player) →
      t.player.totalScore ≤ 20 → t.player.hasBusted = false →
      ∀ (p : Participant) (d : Deck) (rs1 : List Nat) (answers1 : List Bool),
        playerLoop t.player t.theDeck t.rs answers = some (p, d, rs1, answers1) →
        RoundInv { player := p, dealer := t.dealer, theDeck := d, rs := rs1 }
        ∧ p.totalScore = handTotal (heldCards p)
        ∧ p.hasBusted = decide (p.totalScore > 21)
        ∧ p.nextHandCardsIndex ≤ 11
        ∧ ¬ (p.hasBusted = true ∧ p.isDone = true) := by
  intro answers
  induction answers with
  | nil => intro t _ _ _ _ p d rs1 answers1 h; simp [playerLoop] at h
  | cons answer answers ih =>
    intro t hinv htot hle hb p d rs1 answers1 h
    simp only [playerLoop] at h
    cases hit : playerIter answer t.player t.theDeck t.rs with
    | none => rw [hit] at h; simp at h
    | some it =>
      rw [hit] at h
      obtain ⟨j1, j2, j3, j4, j5, j6⟩ := playerIter_round answer t hinv htot hle hb it hit
      cases it with
      | brk s =>
        obtain ⟨p1, d1, rs2⟩ := s
        simp only [Option.some.injEq, Prod.mk.injEq] at h
        obtain ⟨rfl, rfl, rfl, _⟩ := h
        exact ⟨j1, j2, j3, j4, j5⟩
      | again s =>
        obtain ⟨p1, d1, rs2⟩ := s
        simp only at h
        have hnext := j6 rfl
        exact ih { player := p1, dealer := t.dealer, theDeck := d1, rs := rs2 } j1 j2
          hnext.1 hnext.2 p d rs1 answers1 h

/-! ## The dealer loop -/

/-- A soft hand is an ace and a sum of at most 11. -/
theorem baseSum_le_of_soft (hand : List Card) (h : handKind hand = HandType.SOFT) :
    baseSum hand ≤ 11 := by
  unfold handKind at h
  split_ifs at h with h1
  omega

/-- The state after a card is stored and the hand evaluated, for a participant
whose flags were clear: the total and hand type are those of the cards now held,
and each flag says what the total calls for. -/
theorem UpdateScore_after_store (q0 : Participant) (d : Deck) (c : Card)
    (hd : q0.isDone = false) (hb : q0.hasBusted = false) :
    (UpdateScore (UpdateDrawCards q0 d c).1).totalScore
        = handTotal (heldCards (UpdateScore (UpdateDrawCards q0 d c).1))
    ∧ (UpdateScore (UpdateDrawCards q0 d c).1).hand
        = handKind (heldCards (UpdateScore (UpdateDrawCards q0 d c).1))
    ∧ (UpdateScore (UpdateDrawCards q0 d c).1).hasBusted
        = decide ((UpdateScore (UpdateDrawCards q0 d c).1).totalScore > 21)
    ∧ (UpdateScore (UpdateDrawCards q0 d c).1).isDone
        = decide ((UpdateScore (UpdateDrawCards q0 d c).1).totalScore = 21)
    ∧ (UpdateScore (UpdateDrawCards q0 d c).1).nextHandCardsIndex
        = (UpdateDrawCards q0 d c).1.nextHandCardsIndex
    ∧ (UpdateScore (UpdateDrawCards q0 d c).1).cards = (UpdateDrawCards q0 d c).1.cards := by
  have hf := UpdateScore_fields (UpdateDrawCards q0 d c).1
  have hb1 : (UpdateDrawCards q0 d c).1.hasBusted = false := hb
  have hd1 : (UpdateDrawCards q0 d c).1.isDone = false := hd
  refine ⟨?_, ?_, ?_, ?_, hf.2.2.2.2.2.1, hf.2.2.2.2.1⟩
  · rw [hf.2.2.2.2.2.2.2]; exact hf.1
  · rw [hf.2.2.2.2.2.2.2]; exact hf.2.1
  · rw [hf.2.2.1, hf.1, hb1]; simp
  · rw [hf.2.2.2.1, hf.1, hd1]; simp

/-- One iteration of the dealer loop, entered with the table in order and a
dealer who carries the total and hand type of the cards held, at most 21, holds
at most 10 cards and is not busted: the table stays in order, the dealer again
carries the total and hand type of the cards held and holds at most 10 cards; at
a `break` the dealer is busted with more than 21, or stands on a hard hand of 17
to 21; otherwise the dealer is at 21 or below and not busted. -/
theorem dealerIter_round (t : Table) (hinv : RoundInv t)
    (htot : t.dealer.totalScore = handTotal (heldCards t.dealer))
    (hkind : t.dealer.hand = handKind (heldCards t.dealer))
    (hle : t.dealer.totalScore ≤ 21) (hb : t.dealer.hasBusted = false)
    (hn : t.dealer.nextHandCardsIndex ≤ 10)
    (it : Iter (Participant × Deck × List Nat))
    (h : dealerIter t.dealer t.theDeck t.rs = some it) :
    RoundInv { player := t.player, dealer := it.state.1, theDeck := it.state.2.1, rs := it.state.2.2 }
    ∧ it.state.1.totalScore = handTotal (heldCards it.state.1)
    ∧ it.state.1.hand = handKind (heldCards it.state.1)
    ∧ it.state.1.nextHandCardsIndex ≤ 10
    ∧ (it.isBrk = true →
        (it.state.1.hasBusted = true ∧ it.state.1.totalScore > 21 ∧ it.state.1.isDone = false)
        ∨ (it.state.1.hasBusted = false ∧ it.state.1.hand = HandType.HARD
            ∧ 17 ≤ it.state.1.totalScore ∧ it.state.1.totalScore ≤ 21
            ∧ it.state.1.isDone = true))
    ∧ (it.isBrk = false → it.state.1.totalScore ≤ 21 ∧ it.state.1.hasBusted = false) := by
  by_cases hcond : t.dealer.totalScore ≥ 17 ∧ t.dealer.hand = HandType.HARD
  · have hflag : (decide (t.dealer.totalScore ≥ Score.DEALER_MIN)
        && decide (t.dealer.hand = HandType.HARD)) = true := by
      simp [Score.DEALER_MIN, hcond.1, hcond.2]
    unfold dealerIter at h
    simp only [hflag, if_true, Option.some.injEq] at h
    rw [← h]
    refine ⟨RoundInv_congr t _ rfl rfl rfl rfl rfl hinv, htot, hkind, hn, ?_, ?_⟩
    · intro _
      right
      exact ⟨hb, hcond.2, hcond.1, hle, rfl⟩
    · intro hbrk
      exact absurd hbrk (by simp [Iter.isBrk])
  · have hiter := dealerIter_draws t.dealer t.theDeck t.rs hcond
    rw [hiter] at h
    have hhand := RoundInv_hand t hinv PlayerType.DEALER
    have hbase := baseSum_le_handTotal (heldCards t.dealer)
    have hn9 : t.dealer.nextHandCardsIndex ≤ 9 := by
      have h3 : 3 * (t.dealer.nextHandCardsIndex : Int) - 12 ≤ baseSum (heldCards t.dealer) :=
        hhand.2.2
      have hsmall : baseSum (heldCards t.dealer) ≤ 16 := by
        by_cases h17 : t.dealer.totalScore ≥ 17
        · have hsoft : t.dealer.hand = HandType.SOFT := by
            cases hh : t.dealer.hand with
            | HARD => exact absurd ⟨h17, hh⟩ hcond
            | SOFT => rfl
          rw [hkind] at hsoft
          have := baseSum_le_of_soft _ hsoft
          omega
        · omega
      have : (t.dealer.nextHandCardsIndex : Int) ≤ 9 := by omega
      exact_mod_cast this
    have hinv1 : RoundInv (Table.mk t.player { t.dealer with isDone := false } t.theDeck t.rs) :=
      RoundInv_congr t _ rfl rfl rfl rfl rfl hinv
    have hlen : t.theDeck.cards.length = CARD_TOT := by
      obtain ⟨⟨n, h1⟩, _, _⟩ := hinv
      exact h1.2.2.2.1
    cases hdraw : drawUntilNew t.theDeck t.rs with
    | none => rw [hdraw] at h; simp at h
    | some x =>
      obtain ⟨c, rs1⟩ := x
      rw [hdraw] at h
      simp only at h
      have hspec := drawUntilNew_spec t.theDeck hlen t.rs c rs1 hdraw
      have hinv2 := handOver_round _ PlayerType.DEALER c rs1 hinv1 hspec.1 hspec.2
      obtain ⟨k1, k2, k3, k4, k5, k6⟩ :=
        UpdateScore_after_store { t.dealer with isDone := false } t.theDeck c rfl hb
      have hinv3 : RoundInv
          (Table.mk t.player
            (UpdateScore (UpdateDrawCards { t.dealer with isDone := false } t.theDeck c).1)
            (UpdateDrawCards { t.dealer with isDone := false } t.theDeck c).2 rs1) :=
        RoundInv_congr
          (Table.mk t.player (UpdateDrawCards { t.dealer with isDone := false } t.theDeck c).1
            (UpdateDrawCards { t.dealer with isDone := false } t.theDeck c).2 rs1)
          _ rfl rfl k6 k5 rfl hinv2
      have hn1 : (UpdateDrawCards { t.dealer with isDone := false } t.theDeck c).1.nextHandCardsIndex
          = t.dealer.nextHandCardsIndex + 1 := rfl
      rw [hn1] at k5
      generalize UpdateScore (UpdateDrawCards { t.dealer with isDone := false } t.theDeck c).1 = q
        at h hinv3 k1 k2 k3 k4 k5
      generalize (UpdateDrawCards { t.dealer with isDone := false } t.theDeck c).2 = dk at h hinv3
      split_ifs at h with hbusted
      · simp only [Option.some.injEq] at h
        rw [← h]
        refine ⟨hinv3, k1, k2, by show q.nextHandCardsIndex ≤ 10; omega, ?_,
          fun hbrk => absurd hbrk (by simp [Iter.isBrk])⟩
        intro _
        left
        have hgt : q.totalScore > 21 := by
          rw [k3] at hbusted
          simpa using hbusted
        refine ⟨hbusted, hgt, ?_⟩
        show q.isDone = false
        rw [k4]
        simp only [decide_eq_false_iff_not]
        omega
      · simp only [Option.some.injEq] at h
        rw [← h]
        refine ⟨hinv3, k1, k2, by show q.nextHandCardsIndex ≤ 10; omega,
          fun hbrk => absurd hbrk (by simp [Iter.isBrk]), ?_⟩
        intro _
        have hnb : q.hasBusted = false := by simpa using hbusted
        refine ⟨?_, hnb⟩
        show q.totalScore ≤ 21
        rw [k3] at hnb
        have : ¬ q.totalScore > 21 := by simpa using hnb
        omega

/-- The dealer loop, entered with the table in order and a dealer who carries
the total and hand type of the cards held, at most 21, holds at most 10 cards
and is not busted: when it ends the table is in order, the dealer holds at most
10 cards and is either busted with more than 21 or standing on a hard hand of 17
to 21; the player is untouched. -/
theorem dealerLoop_round :
    ∀ (fuel : Nat) (t : Table), RoundInv t →
      t.dealer.totalScore = handTotal (heldCards t.dealer) →
      t.dealer.hand = handKind (heldCards t.dealer) →
      t.dealer.totalScore ≤ 21 → t.dealer.hasBusted = false →
      t.dealer.nextHandCardsIndex ≤ 10 →
      ∀ (p : Participant) (d : Deck) (rs1 : List Nat),
        dealerLoop fuel t.dealer t.theDeck t.rs = some (p, d, rs1) →
        RoundInv { player := t.player, dealer := p, theDeck := d, rs := rs1 }
        ∧ p.totalScore = handTotal (heldCards p)
        ∧ p.hand = handKind (heldCards p)
        ∧ p.nextHandCardsIndex ≤ 10
        ∧ ((p.hasBusted = true ∧ p.totalScore > 21 ∧ p.isDone = false)
            ∨ (p.hasBusted = false ∧ p.hand = HandType.HARD
                ∧ 17 ≤ p.totalScore ∧ p.totalScore ≤ 21 ∧ p.isDone = true)) := by
  intro fuel
  induction fuel with
  | zero => intro t _ _ _ _ _ _ p d rs1 h; simp [dealerLoop] at h
  | succ fuel ih =>
    intro t hinv htot hkind hle hb hn p d rs1 h
    simp only [dealerLoop] at h
    cases hit : dealerIter t.dealer t.theDeck t.rs with
    | none => rw [hit] at h; simp at h
    | some it =>
      rw [hit] at h
      obtain ⟨j1, j2, j3, j4, j5, j6⟩ := dealerIter_round t hinv htot hkind hle hb hn it hit
      cases it with
      | brk s =>
        obtain ⟨p1, d1, rs2⟩ := s
        simp only [Option.some.injEq, Prod.mk.injEq] at h
        obtain ⟨rfl, rfl, rfl⟩ := h
        exact ⟨j1, j2, j3, j4, j5 rfl⟩
      | again s =>
        obtain ⟨p1, d1, rs2⟩ := s
        simp only at h
        have hnext := j6 rfl
        exact ih { player := t.player, dealer := p1, theDeck := d1, rs := rs2 } j1 j2 j3
          hnext.1 hnext.2 j4 p d rs1 h

/-! ## The whole round -/

/-- A total above 21 goes with a hard hand. -/
theorem handKind_hard_of_gt (hand : List Card) (h : handTotal hand > 21) :
    handKind hand = HandType.HARD := by
  unfold handTotal at h
  unfold handKind
  split_ifs with h1
  · rw [if_pos h1] at h
    omega
  · rfl

/-- What the player phase leaves, run on the table the deal left. -/
theorem playerPhase_round (t t1 : Table) (answers answers1 : List Bool) (hinv : RoundInv t)
    (hn : t.player.nextHandCardsIndex = 2)
    (htot : t.player.totalScore = handTotal (heldCards t.player))
    (hle : t.player.totalScore ≤ 21) (hb : t.player.hasBusted = false)
    (hd : t.player.isDone = decide (t.player.totalScore = 21))
    (h : playerPhase t answers = some (t1, answers1)) :
    RoundInv t1 ∧ t1.dealer = t.dealer
    ∧ t1.player.totalScore = handTotal (heldCards t1.player)
    ∧ t1.player.hasBusted = decide (t1.player.totalScore > 21)
    ∧ t1.player.nextHandCardsIndex ≤ 11
    ∧ ¬ (t1.player.hasBusted = true ∧ t1.player.isDone = true) := by
  unfold playerPhase at h
  split_ifs at h with hgo
  · have hnd : t.player.isDone = false := by simpa using hgo
    have h20 : t.player.totalScore ≤ 20 := by
      rw [hd] at hnd
      have : ¬ t.player.totalScore = 21 := by simpa using hnd
      omega
    cases hloop : playerLoop t.player t.theDeck t.rs answers with
    | none => rw [hloop] at h; simp at h
    | some x =>
      obtain ⟨p, d, rs1, as1⟩ := x
      rw [hloop] at h
      simp only [Option.some.injEq, Prod.mk.injEq] at h
      obtain ⟨j1, j2, j3, j4, j5⟩ := playerLoop_round answers t hinv htot h20 hb p d rs1 as1 hloop
      rw [← h.1]
      exact ⟨j1, rfl, j2, j3, j4, j5⟩
  · simp only [Option.some.injEq, Prod.mk.injEq] at h
    rw [← h.1]
    refine ⟨hinv, rfl, htot, ?_, by omega, ?_⟩
    · have : ¬ t.player.totalScore > 21 := by omega
      rw [hb]; simp [this]
    · rw [hb]; simp

/-- What the dealer phase leaves, run on a table in order whose dealer is as
the deal left it. -/
theorem dealerPhase_round (t1 t2 : Table) (hinv : RoundInv t1)
    (hn : t1.dealer.nextHandCardsIndex = 2)
    (htot : t1.dealer.totalScore = handTotal (heldCards t1.dealer))
    (hkind : t1.dealer.hand = handKind (heldCards t1.dealer))
    (hle : t1.dealer.totalScore ≤ 21) (hb : t1.dealer.hasBusted = false)
    (h : dealerPhase t1 = some t2) :
    RoundInv t2 ∧ t2.player = t1.player
    ∧ t2.dealer.totalScore = handTotal (heldCards t2.dealer)
    ∧ t2.dealer.hand = handKind (heldCards t2.dealer)
    ∧ t2.dealer.nextHandCardsIndex ≤ 10
    ∧ ¬ (t2.dealer.hasBusted = true ∧ t2.dealer.isDone = true)
    ∧ (t1.player.hasBusted = false →
        (t2.dealer.hasBusted = true ∧ t2.dealer.totalScore > 21 ∧ t2.dealer.isDone = false)
        ∨ (t2.dealer.hasBusted = false ∧ t2.dealer.hand = HandType.HARD
            ∧ 17 ≤ t2.dealer.totalScore ∧ t2.dealer.totalScore ≤ 21 ∧ t2.dealer.isDone = true)) := by
  unfold dealerPhase at h
  split_ifs at h with hgo
  · cases hloop : dealerLoop (t1.rs.length + 1) t1.dealer t1.theDeck t1.rs with
    | none => rw [hloop] at h; simp at h
    | some x =>
      obtain ⟨p, d, rs1⟩ := x
      rw [hloop] at h
      simp only [Option.some.injEq] at h
      obtain ⟨j1, j2, j3, j4, j5⟩ := dealerLoop_round (t1.rs.length + 1) t1 hinv htot hkind hle hb
        (by omega) p d rs1 hloop
      rw [← h]
      refine ⟨j1, rfl, j2, j3, j4, ?_, fun _ => j5⟩
      show ¬ (p.hasBusted = true ∧ p.isDone = true)
      rcases j5 with j5 | j5
      · rw [j5.2.2]; simp
      · rw [j5.1]; simp
  · simp only [Option.some.injEq] at h
    rw [← h]
    refine ⟨hinv, rfl, htot, hkind, by omega, by rw [hb]; simp, ?_⟩
    intro hnb
    rw [hnb] at hgo
    exact absurd rfl hgo

/-- What a round of `main` leaves in the embedding, on a deck memory of 52
slots: the table is in order; the counter of the player is at most 11 and that
of the dealer at most 10 (a counter above 9 means that a card went past the
ninth slot, where the embedding no longer follows the program); each carries the
total of the cards held; neither has both flags set; and when the player has not
busted the dealer is busted with more than 21 or stands on a hard hand of 17 to
21. -/
theorem playRound_round (dealer player : Participant) (theDeck : Deck) (rs : List Nat)
    (answers : List Bool) (e : RoundEnd) (hc : theDeck.cards.length = CARD_TOT)
    (h : playRound dealer player theDeck rs answers = some e) :
    RoundInv { player := e.player, dealer := e.dealer, theDeck := e.theDeck, rs := e.rs }
    ∧ e.player.nextHandCardsIndex ≤ 11
    ∧ e.dealer.nextHandCardsIndex ≤ 10
    ∧ e.player.totalScore = handTotal (heldCards e.player)
    ∧ e.dealer.totalScore = handTotal (heldCards e.dealer)
    ∧ e.dealer.hand = handKind (heldCards e.dealer)
    ∧ ¬ (e.player.hasBusted = true ∧ e.player.isDone = true)
    ∧ ¬ (e.dealer.hasBusted = true ∧ e.dealer.isDone = true)
    ∧ (e.player.hasBusted = false →
        (e.dealer.hasBusted = true ∧ e.dealer.totalScore > 21 ∧ e.dealer.isDone = false)
        ∨ (e.dealer.hasBusted = false ∧ e.dealer.hand = HandType.HARD
            ∧ 17 ≤ e.dealer.totalScore ∧ e.dealer.totalScore ≤ 21 ∧ e.dealer.isDone = true)) := by
  rw [playRound_phases] at h
  cases hdeal : dealPhase dealer player theDeck rs with
  | none => rw [hdeal] at h; simp at h
  | some t =>
    rw [hdeal] at h
    simp only at h
    cases hplay : playerPhase t answers with
    | none => rw [hplay] at h; simp at h
    | some x =>
      obtain ⟨t1, answers1⟩ := x
      rw [hplay] at h
      simp only at h
      cases hdl : dealerPhase t1 with
      | none => rw [hdl] at h; simp at h
      | some t2 =>
        rw [hdl] at h
        simp only [Option.some.injEq] at h
        obtain ⟨hinv, hboth⟩ := dealPhase_round dealer player theDeck rs t hc hdeal
        obtain ⟨a1, a2, a3, a4, a5, a6⟩ := hboth PlayerType.PLAYER
        obtain ⟨b1, b2, b3, b4, b5, b6⟩ := hboth PlayerType.DEALER
        obtain ⟨p1, p2, p3, p4, p5, p6⟩ :=
          playerPhase_round t t1 answers answers1 hinv a1 a2 a4 a5 a6 hplay
        have b1' : t1.dealer.nextHandCardsIndex = 2 := by rw [p2]; exact b1
        have b2' : t1.dealer.totalScore = handTotal (heldCards t1.dealer) := by rw [p2]; exact b2
        have b3' : t1.dealer.hand = handKind (heldCards t1.dealer) := by rw [p2]; exact b3
        have b4' : t1.dealer.totalScore ≤ 21 := by rw [p2]; exact b4
        have b5' : t1.dealer.hasBusted = false := by rw [p2]; exact b5
        obtain ⟨q1, q2, q3, q4, q5, q6, q7⟩ := dealerPhase_round t1 t2 p1 b1' b2' b3' b4' b5' hdl
        rw [← h]
        refine ⟨q1, ?_, q5, ?_, q3, q4, ?_, q6, ?_⟩
        · show t2.player.nextHandCardsIndex ≤ 11
          rw [q2]; exact p5
        · show t2.player.totalScore = handTotal (heldCards t2.player)
          rw [q2]; exact p3
        · show ¬ (t2.player.hasBusted = true ∧ t2.player.isDone = true)
          rw [q2]; exact p6
        · show t2.player.hasBusted = false → _
          rw [q2]; exact q7

/-- A prefix of the dealer loop: when the first `k` passes all go round again,
the loop goes on from the state they leave. -/
theorem dealerLoop_of_dealerLoopAfter (k fuel : Nat) (dealer : Participant) (theDeck : Deck)
    (rs : List Nat) (s : Participant × Deck × List Nat)
    (h : dealerLoopAfter k dealer theDeck rs = some s) :
    dealerLoop (k + fuel) dealer theDeck rs = dealerLoop fuel s.1 s.2.1 s.2.2 := by
  induction k generalizing dealer theDeck rs with
  | zero =>
    simp only [dealerLoopAfter, Option.some.injEq] at h
    subst h
    simp
  | succ k ih =>
    unfold dealerLoopAfter at h
    have hk : k + 1 + fuel = (k + fuel) + 1 := by omega
    rw [hk]
    have hstep : dealerLoop (k + fuel + 1) dealer theDeck rs
        = (match dealerIter dealer theDeck rs with
            | none => none
            | some (Iter.brk s) => some s
            | some (Iter.again (p, d, rs1)) => dealerLoop (k + fuel) p d rs1) := rfl
    rw [hstep]
    cases hit : dealerIter dealer theDeck rs with
    | none => rw [hit] at h; simp at h
    | some it =>
      rw [hit] at h
      cases it with
      | brk x => simp at h
      | again x =>
        obtain ⟨p, d, rs1⟩ := x
        show dealerLoop (k + fuel) p d rs1 = _
        exact ih p d rs1 h

/-- Postcondition of the dealer turn in the rounds in which both hands fit into
their nine slots.  In every round of `main`, played on a deck memory of 52
slots, that ends with neither counter above `HAND_CARDS_TOT` (the counters only
go up, so no card was stored past slot 8) and with the player not busted, the
dealer at the end of the round is either busted, with a total above 21, or
stands, not busted and done, on a hard hand with a total from 17 to 21.  Either
way the hand is hard and the total, which is the total of the cards the dealer
holds, is at least 17. -/
theorem dealer_turn_postcondition_within_nine_slots (dealer player : Participant)
    (theDeck : Deck) (rs : List Nat) (answers : List Bool) (e : RoundEnd)
    (hc : theDeck.cards.length = CARD_TOT)
    (h : playRound dealer player theDeck rs answers = some e)
    (_hfitd : e.dealer.nextHandCardsIndex ≤ HAND_CARDS_TOT)
    (_hfitp : e.player.nextHandCardsIndex ≤ HAND_CARDS_TOT)
    (hnb : e.player.hasBusted = false) :
    ((e.dealer.hasBusted = true ∧ e.dealer.totalScore > 21)
      ∨ (e.dealer.hasBusted = false ∧ e.dealer.isDone = true ∧ e.dealer.hand = HandType.HARD
          ∧ 17 ≤ e.dealer.totalScore ∧ e.dealer.totalScore ≤ 21))
    ∧ e.dealer.hand = HandType.HARD
    ∧ 17 ≤ e.dealer.totalScore
    ∧ e.dealer.totalScore = handTotal (heldCards e.dealer) := by
  obtain ⟨_, _, _, _, htot, hkind, _, _, hpost⟩ :=
    playRound_round dealer player theDeck rs answers e hc h
  rcases hpost hnb with ⟨h1, h2, _⟩ | ⟨h1, h2, h3, h4, h5⟩
  · refine ⟨Or.inl ⟨h1, h2⟩, ?_, by omega, htot⟩
    rw [hkind]
    exact handKind_hard_of_gt _ (by rw [← htot]; exact h2)
  · exact ⟨Or.inr ⟨h1, h5, h2, h3, h4⟩, h2, h3, htot⟩

set_option maxRecDepth 100000 in
/-- The postcondition of the dealer turn at a round within nine slots: the
player stands on two tens; the dealer, dealt a five and a six, draws the nine of
clubs and stands on a hard 20 with three cards. -/
theorem dealer_turn_postcondition_within_nine_slots_witness :
    ∃ e, playRound rawParticipant rawParticipant rawDeck bustRands [false] = some e
      ∧ rawDeck.cards.length = CARD_TOT
      ∧ e.dealer.nextHandCardsIndex = 3
      ∧ e.player.nextHandCardsIndex = 2
      ∧ e.player.hasBusted = false
      ∧ e.dealer.hand = HandType.HARD
      ∧ 17 ≤ e.dealer.totalScore
      ∧ e.dealer.totalScore = 20 := by
  have hs : (playRound rawParticipant rawParticipant rawDeck bustRands [false]).map
      (fun e => (e.player.hasBusted, e.dealer.totalScore, e.dealer.nextHandCardsIndex,
        e.player.nextHandCardsIndex)) = some (false, 20, 3, 2) := by decide
  cases he : playRound rawParticipant rawParticipant rawDeck bustRands [false] with
  | none => rw [he] at hs; simp at hs
  | some e =>
    rw [he] at hs
    simp only [Option.map_some', Option.some.injEq, Prod.mk.injEq] at hs
    obtain ⟨_, h2, h3, _⟩ := dealer_turn_postcondition_within_nine_slots rawParticipant
      rawParticipant rawDeck bustRands [false] e (by decide) he
      (by rw [hs.2.2.1]; decide) (by rw [hs.2.2.2]; decide) hs.1
    exact ⟨e, rfl, by decide, hs.2.2.1, hs.2.2.2, hs.1, h2, h3, hs.2.1⟩

set_option maxRecDepth 100000 in
/-- C20, at the failing round: `elevenCardRands`.  Distinct cards of the deck
`MakeDeck` builds, aces counted as 1, sum to at least 18 when they are ten and
to at least 21 when they are eleven.
The bound of eleven is met: the four twos, three threes and the four aces are
eleven distinct cards of the deck, worth 2, 4, 6, 8, 11, 14, 17, 18, 19, 20 and
21 as they come in, so a player can be handed all eleven without passing 21
before the last.  The hand of the program has `HAND_CARDS_TOT` = 9 slots.  In
the round of `elevenCardRands` with the user answering y seven times and then n,
the player ends with `nextHandCardsIndex` = 9, worth 19 and not busted, every
card in one of the nine slots; a y in place of the n lets `DrawCard` run on the
same state, where the next random value gives the ace of hearts, not yet
drawn, to be stored at index 9. -/
theorem player_hand_needs_more_than_nine_slots :
    HAND_CARDS_TOT = 9
    ∧ (∀ hand : List Card, hand.Nodup → (∀ c ∈ hand, c ∈ (MakeDeck rawDeck).cards) →
        (10 ≤ hand.length → 18 ≤ baseSum hand) ∧ (11 ≤ hand.length → 21 ≤ baseSum hand))
    ∧ elevenCards.Nodup
    ∧ (∀ c ∈ elevenCards, c ∈ (MakeDeck rawDeck).cards)
    ∧ (List.range 12).map (fun k => handTotal (elevenCards.take k))
        = [0, 2, 4, 6, 8, 11, 14, 17, 18, 19, 20, 21]
    ∧ (playRound rawParticipant rawParticipant rawDeck elevenCardRands
          (List.replicate 7 true ++ [false])).map
        (fun e => (e.player.nextHandCardsIndex, e.player.totalScore, e.player.hasBusted,
          e.dealer.nextHandCardsIndex))
      = some (9, 19, false, 2)
    ∧ (playRound rawParticipant rawParticipant rawDeck elevenCardRands
          (List.replicate 7 true ++ [false])).map (fun e => heldCards e.player)
      = some (elevenCards.take 9)
    ∧ (playRound rawParticipant rawParticipant rawDeck elevenCardRands
          (List.replicate 7 true ++ [false])).bind
        (fun e => (drawUntilNew e.theDeck e.rs).map (fun r => r.1))
      = some (MakeCard 1 FaceCard.NONE Seed.HEARTS) := by
  refine ⟨rfl, ?_, by decide, by decide, by decide, by decide, by decide, by decide⟩
  intro hand hnd hsub
  have hsp : hand.Subperm (MakeDeck rawDeck).cards := List.subperm_of_subset hnd hsub
  have hsum := (distinct_deck_cards_sum hand (MakeDeck rawDeck).cards (List.Perm.refl _) hsp).2
  constructor
  · intro h10
    have : (10 : Int) ≤ (hand.length : Int) := by exact_mod_cast h10
    omega
  · intro h11
    have : (11 : Int) ≤ (hand.length : Int) := by exact_mod_cast h11
    omega

/-! ## Busted and done -/

/-- C12. A natural 21 skips the player turn.  In every round in which the two
cards dealt to the player evaluate to 21, the player phase leaves the table as
the deal left it, without reading an answer or a random value, so the round is
the dealer phase run right after the deal; the player ends the round with the
two cards of the deal, a total of 21, done and not busted.  On a deck memory of
52 slots those two cards are an ace and a card worth ten. -/
theorem natural_21_skips_player_turn (dealer player : Participant) (theDeck : Deck)
    (rs : List Nat) (answers : List Bool) (t : Table)
    (hc : theDeck.cards.length = CARD_TOT)
    (hdeal : dealPhase dealer player theDeck rs = some t)
    (h21 : t.player.totalScore = 21) :
    playerPhase t answers = some (t, answers)
    ∧ t.player.nextHandCardsIndex = 2
    ∧ t.player.isDone = true
    ∧ t.player.hasBusted = false
    ∧ playRound dealer player theDeck rs answers
        = (dealerPhase t).map (fun t2 => resolve t2 answers)
    ∧ (∀ e, playRound dealer player theDeck rs answers = some e →
        e.player = t.player ∧ e.answers = answers
        ∧ e.player.nextHandCardsIndex = 2 ∧ e.player.totalScore = 21
        ∧ e.player.hasBusted = false)
    ∧ (∃ a b, heldCards t.player = [a, b]
        ∧ ((a.value = 1 ∧ b.value = 10) ∨ (a.value = 10 ∧ b.value = 1))) := by
  obtain ⟨_, _, p2, _, _, _, _, _, _, hp2, _, hp2n, hp2d, hp2b, _, _, _⟩ :=
    dealPhase_spec dealer player theDeck rs t hdeal
  have hf := UpdateScore_fields p2
  have htot : handTotal (heldCards p2) = 21 := by
    rw [← hf.1, ← hp2]; exact h21
  have hdone : t.player.isDone = true := by
    rw [hp2, hf.2.2.2.1, htot]; simp
  have hbust : t.player.hasBusted = false := by
    rw [hp2, hf.2.2.1, htot, hp2b]; simp
  have hnext : t.player.nextHandCardsIndex = 2 := by
    rw [hp2, hf.2.2.2.2.2.1, hp2n]
  have hskip : playerPhase t answers = some (t, answers) := by
    unfold playerPhase
    simp [hdone]
  have hround : playRound dealer player theDeck rs answers
      = (dealerPhase t).map (fun t2 => resolve t2 answers) := by
    rw [playRound_phases, hdeal]
    simp only [hskip]
    cases dealerPhase t <;> rfl
  refine ⟨hskip, hnext, hdone, hbust, hround, ?_, ?_⟩
  · intro e he
    rw [hround] at he
    cases hdl : dealerPhase t with
    | none => rw [hdl] at he; simp at he
    | some t2 =>
      rw [hdl] at he
      simp only [Option.map_some', Option.some.injEq] at he
      have hpl := dealerPhase_player t t2 hdl
      rw [← he]
      refine ⟨hpl, rfl, ?_, ?_, ?_⟩
      · show t2.player.nextHandCardsIndex = 2
        rw [hpl]; exact hnext
      · show t2.player.totalScore = 21
        rw [hpl]; exact h21
      · show t2.player.hasBusted = false
        rw [hpl]; exact hbust
  · obtain ⟨hinv, _⟩ := dealPhase_round dealer player theDeck rs t hc hdeal
    obtain ⟨hlen, hval, _⟩ := RoundInv_hand t hinv PlayerType.PLAYER
    have hlen2 : (heldCards t.player).length = 2 := hlen.trans hnext
    have htot2 : handTotal (heldCards t.player) = 21 := by
      rw [hp2, (UpdateScore_fields p2).2.2.2.2.2.2.2]; exact htot
    have hval2 : ∀ c ∈ heldCards t.player, 1 ≤ c.value ∧ c.value ≤ 10 := hval
    generalize heldCards t.player = hand at hlen2 htot2 hval2
    match hand, hlen2 with
    | [a, b], _ =>
      have ha := hval2 a (by simp)
      have hb := hval2 b (by simp)
      refine ⟨a, b, rfl, ?_⟩
      unfold handTotal holdsAce baseSum at htot2
      simp only [List.map_cons, List.map_nil, List.sum_cons, List.sum_nil, List.any_cons,
        List.any_nil, Bool.or_false, Bool.or_eq_true, decide_eq_true_eq] at htot2
      split_ifs at htot2 with hh
      · rcases hh.1 with h1 | h1
        · left; exact ⟨h1, by omega⟩
        · right; exact ⟨by omega, h1⟩
      · omega

set_option maxRecDepth 100000 in
/-- C12, at a round: the player is dealt the ace and the king of clubs; the one
answer supplied is still unread when the round ends. -/
theorem natural_21_skips_player_turn_witness :
    ∃ t, dealPhase rawParticipant rawParticipant rawDeck naturalRands = some t
      ∧ t.player.totalScore = 21
      ∧ playerPhase t [true] = some (t, [true])
      ∧ (playRound rawParticipant rawParticipant rawDeck naturalRands [true]).map
          (fun e => (e.player.nextHandCardsIndex, e.player.totalScore, e.answers))
        = some (2, 21, [true]) := by
  have hs : (dealPhase rawParticipant rawParticipant rawDeck naturalRands).map
      (fun t => t.player.totalScore) = some 21 := by decide
  cases ht : dealPhase rawParticipant rawParticipant rawDeck naturalRands with
  | none => rw [ht] at hs; simp at hs
  | some t =>
    rw [ht] at hs
    simp only [Option.map_some', Option.some.injEq] at hs
    exact ⟨t, rfl, hs,
      (natural_21_skips_player_turn rawParticipant rawParticipant rawDeck naturalRands [true] t
        (by decide) ht hs).1, by decide⟩

end Blackjack
